import Mathlib

/-!
# Modbus slave command "Read Coils (0x01)"

A shallow embedding of `MBSlave_CmdLet_ReadCoils`
(`Source/Slave/mbslave_cmdlet_readcoils.c`) and a verification of its
request-decode / validate / bit-pack / respond pipeline.

Conventions of the embedding:

* `CPU_INT08U` and `CPU_INT16U` values are natural numbers; every C operation
  that can leave the type's range is followed by an explicit `% 256` or
  `% 65536`.
* The device behind the callbacks is an explicit state of type `σ` threaded
  through every callback invocation; `α` is the type of the opaque callback
  argument `cbArg`.
* Every callback invocation is appended to a log (`calls`) together with what
  it returned, so that statements about the order and number of invocations
  can be made.
* `goto` labels are functions; an early `return` is the `Except.error` branch
  carrying the caller-visible outcome.
* The `while` loop is run with a fuel counter; the handler supplies the
  remaining coil quantity as fuel and answers `none` only if the fuel is used
  up, which is shown never to happen.
-/

/-! ## Error codes and constants -/

/-- Modelled from the spec: the error codes of type `MB_ERROR` that the
handler names (they are declared in `mb_constants.h`, which is not part of the
sources at hand).  The named codes are pairwise distinct; `MB_ERROR_OTHER`
stands for any further code a callback may report. -/
inductive MB_ERROR where
  | MB_ERROR_NONE
  | MB_ERROR_NULLREFERENCE
  | MB_ERROR_BUFFETCHER_BUFFEREND
  | MB_ERROR_BUFEMITTER_BUFFEREND
  | MB_ERROR_SLAVE_REQUESTTRUNCATED
  | MB_ERROR_SLAVE_RESPONSETRUNCATED
  | MB_ERROR_SLAVE_CALLBACKFAILED
  | MB_ERROR_OTHER (code : Nat)
  deriving DecidableEq, Repr

open MB_ERROR

/-- Modelled from the spec: the Modbus exception code "illegal data address"
(`MB_APUEC_ILLEGALDATAADDRESS` of `mb_constants.h`), 0x02. -/
def MB_APUEC_ILLEGALDATAADDRESS : Nat := 0x02

/-- Modelled from the spec: the Modbus exception code "illegal data value"
(`MB_APUEC_ILLEGALDATAVALUE` of `mb_constants.h`), 0x03. -/
def MB_APUEC_ILLEGALDATAVALUE : Nat := 0x03

/-- A pointer to a caller-owned output location: only whether it is null
matters to the handler. -/
inductive Ptr where
  | null
  | valid
  deriving DecidableEq, Repr

/-! ## Bounded reader over the request payload -/

/-- Modelled from the spec: the bounded sequential reader `MB_BUFFERFETCHER`
(`mb_bufferfetcher.h`): the region it reads, the region's length and a
cursor. -/
structure MB_BUFFERFETCHER where
  buffer : List Nat
  size : Nat
  cursor : Nat
  deriving DecidableEq, Repr

/-- Modelled from the spec: `MBBufFetcher_Initialize`, `init(buffer, length)
→ reader`; it reports no error. -/
def MBBufFetcher_Initialize (p_buffer : Option (List Nat)) (buffer_size : Nat) :
    MB_BUFFERFETCHER × MB_ERROR :=
  ({ buffer := p_buffer.getD [], size := buffer_size, cursor := 0 }, MB_ERROR_NONE)

/-- Modelled from the spec: `MBBufFetcher_ReadUInt16BE`, which reads one
unsigned 16-bit big-endian value and advances the cursor by two, and fails
with the buffer-end condition if fewer than 2 bytes remain.  A memory cell
holds 8 bits, hence the `% 256` on each byte read. -/
def MBBufFetcher_ReadUInt16BE (f : MB_BUFFERFETCHER) : (Nat × MB_BUFFERFETCHER) × MB_ERROR :=
  if f.size - f.cursor < 2 then
    ((0, f), MB_ERROR_BUFFETCHER_BUFFEREND)
  else
    (((f.buffer.getD f.cursor 0 % 256) * 256 + f.buffer.getD (f.cursor + 1) 0 % 256,
      { f with cursor := f.cursor + 2 }), MB_ERROR_NONE)

/-! ## Bounded writer over the response buffer -/

/-- Modelled from the spec: the bounded writer `MB_BUFFEREMITTER`
(`mb_bufferemitter.h`).  `data` holds the bytes between the start of the
response buffer and the write cursor, `capacity` is the size of the buffer, and
`stored` lists every byte ever stored through the writer, resets
notwithstanding. -/
structure MB_BUFFEREMITTER where
  data : List Nat
  capacity : Nat
  stored : List Nat
  deriving DecidableEq, Repr

/-- Modelled from the spec: `MBBufEmitter_Initialize`, `init(buffer,
capacity) → writer`; it reports no error. -/
def MBBufEmitter_Initialize (buffer_size : Nat) : MB_BUFFEREMITTER × MB_ERROR :=
  ({ data := [], capacity := buffer_size, stored := [] }, MB_ERROR_NONE)

/-- Modelled from the spec: `MBBufEmitter_WriteUInt8`, `writeUInt8(writer,
byte) → ok | BufferFullError`. -/
def MBBufEmitter_WriteUInt8 (e : MB_BUFFEREMITTER) (datum : Nat) : MB_BUFFEREMITTER × MB_ERROR :=
  if e.data.length < e.capacity then
    ({ e with data := e.data ++ [datum], stored := e.stored ++ [datum] }, MB_ERROR_NONE)
  else
    (e, MB_ERROR_BUFEMITTER_BUFFEREND)

/-- Modelled from the spec: `MBBufEmitter_Reset`, `reset(writer) → ok`: the
cursor goes back to the start of the buffer. -/
def MBBufEmitter_Reset (e : MB_BUFFEREMITTER) : MB_BUFFEREMITTER × MB_ERROR :=
  ({ e with data := [] }, MB_ERROR_NONE)

/-- Modelled from the spec: `MBBufEmitter_GetWrittenLength`,
`writtenLength(writer) → n`. -/
def MBBufEmitter_GetWrittenLength (e : MB_BUFFEREMITTER) : Nat × MB_ERROR :=
  (e.data.length, MB_ERROR_NONE)

/-! ## Device callbacks -/

/-- What one callback invocation hands back: the `CPU_BOOLEAN` it returns, the
value it leaves in `*p_error`, and the device state after the invocation. -/
structure CbResult (σ : Type) where
  value : Bool
  error : MB_ERROR
  dev : σ

/-- The command context `MBSLAVE_READCOILS_CTX`: the two device callbacks and
the argument passed back to them. -/
structure MBSLAVE_READCOILS_CTX (α σ : Type) where
  cbValidateCoil : Nat → α → σ → CbResult σ
  cbReadCoil : Nat → α → σ → CbResult σ
  cbArg : α

/-- One logged callback invocation: which callback, the address passed, the
boolean returned and the error reported. -/
inductive CbCall where
  | validate (address : Nat) (validity : Bool) (error : MB_ERROR)
  | read (address : Nat) (status : Bool) (error : MB_ERROR)
  deriving DecidableEq, Repr

/-! ## Caller-visible outcome and the handler's local frame -/

/-- Everything the caller can observe when the handler returns: `*p_error`,
the two output variables (`none` while never written), the response buffer
(through its writer), the device state and the log of callback invocations. -/
structure Outcome (σ : Type) where
  p_error : MB_ERROR
  p_response_fncode : Option Nat
  p_response_data_size : Option Nat
  emitter : MB_BUFFEREMITTER
  dev : σ
  calls : List CbCall

/-- The local variables live in the packing loop, with the writer, the device
state and the call log. -/
structure Frame (σ : Type) where
  coilQuantity : Nat
  coilCurrentAddress : Nat
  duffBitMask : Nat
  duffByte : Nat
  emitter : MB_BUFFEREMITTER
  dev : σ
  calls : List CbCall

/-- The arguments of one invocation of the handler.  `p_request_data` is
`none` for a null pointer and otherwise the memory it points to. -/
structure Args (α σ : Type) where
  request_fncode : Nat
  p_request_data : Option (List Nat)
  request_data_size : Nat
  p_response_fncode : Ptr
  p_response_buffer : Ptr
  response_buffer_size : Nat
  p_response_data_size : Ptr
  p_cmdlet_ctx : Option (MBSLAVE_READCOILS_CTX α σ)

/-- A `return` that leaves both output variables unwritten. -/
def returnWith {σ : Type} (err : MB_ERROR) (emitter : MB_BUFFEREMITTER) (dev : σ)
    (calls : List CbCall) : Outcome σ :=
  { p_error := err, p_response_fncode := none, p_response_data_size := none,
    emitter := emitter, dev := dev, calls := calls }

/-- The handling of a failed `MBBufEmitter_WriteUInt8`: the buffer-end
condition becomes `MB_ERROR_SLAVE_RESPONSETRUNCATED`, any other error is passed
on unchanged. -/
def emitterError (err : MB_ERROR) : MB_ERROR :=
  if err = MB_ERROR_BUFEMITTER_BUFFEREND then MB_ERROR_SLAVE_RESPONSETRUNCATED else err

/-- The handling of a failed `MBBufFetcher_ReadUInt16BE`: the buffer-end
condition becomes `MB_ERROR_SLAVE_REQUESTTRUNCATED`, any other error is passed
on unchanged. -/
def fetcherError (err : MB_ERROR) : MB_ERROR :=
  if err = MB_ERROR_BUFFETCHER_BUFFEREND then MB_ERROR_SLAVE_REQUESTTRUNCATED else err

/-! ## The packing loop -/

/-- The macro `MBSLAVE_RDCOILS_DUFFUNIT`: read one coil, set the current bit
if it is on, shift the mask, decrease the quantity, advance the address. -/
def MBSLAVE_RDCOILS_DUFFUNIT {α σ : Type} (ctx : MBSLAVE_READCOILS_CTX α σ) (s : Frame σ) :
    Except (Outcome σ) (Frame σ) :=
  let r := ctx.cbReadCoil s.coilCurrentAddress ctx.cbArg s.dev
  let calls := s.calls ++ [CbCall.read s.coilCurrentAddress r.value r.error]
  if r.error ≠ MB_ERROR_NONE then
    .error (returnWith MB_ERROR_SLAVE_CALLBACKFAILED s.emitter r.dev calls)
  else
    .ok { coilQuantity := (s.coilQuantity + 65535) % 65536
          coilCurrentAddress := (s.coilCurrentAddress + 1) % 65536
          duffBitMask := (s.duffBitMask <<< 1) % 256
          duffByte := if r.value then s.duffByte ||| s.duffBitMask else s.duffByte
          emitter := s.emitter
          dev := r.dev
          calls := calls }

/-- Entry `case 1` of the switch. -/
def duffCase1 {α σ : Type} (ctx : MBSLAVE_READCOILS_CTX α σ) (s : Frame σ) :
    Except (Outcome σ) (Frame σ) :=
  MBSLAVE_RDCOILS_DUFFUNIT ctx s

/-- Entry `case 2` of the switch, falling through to `case 1`. -/
def duffCase2 {α σ : Type} (ctx : MBSLAVE_READCOILS_CTX α σ) (s : Frame σ) :
    Except (Outcome σ) (Frame σ) :=
  MBSLAVE_RDCOILS_DUFFUNIT ctx s >>= duffCase1 ctx

/-- Entry `case 3` of the switch, falling through to `case 2`. -/
def duffCase3 {α σ : Type} (ctx : MBSLAVE_READCOILS_CTX α σ) (s : Frame σ) :
    Except (Outcome σ) (Frame σ) :=
  MBSLAVE_RDCOILS_DUFFUNIT ctx s >>= duffCase2 ctx

/-- Entry `case 4` of the switch, falling through to `case 3`. -/
def duffCase4 {α σ : Type} (ctx : MBSLAVE_READCOILS_CTX α σ) (s : Frame σ) :
    Except (Outcome σ) (Frame σ) :=
  MBSLAVE_RDCOILS_DUFFUNIT ctx s >>= duffCase3 ctx

/-- Entry `case 5` of the switch, falling through to `case 4`. -/
def duffCase5 {α σ : Type} (ctx : MBSLAVE_READCOILS_CTX α σ) (s : Frame σ) :
    Except (Outcome σ) (Frame σ) :=
  MBSLAVE_RDCOILS_DUFFUNIT ctx s >>= duffCase4 ctx

/-- Entry `case 6` of the switch, falling through to `case 5`. -/
def duffCase6 {α σ : Type} (ctx : MBSLAVE_READCOILS_CTX α σ) (s : Frame σ) :
    Except (Outcome σ) (Frame σ) :=
  MBSLAVE_RDCOILS_DUFFUNIT ctx s >>= duffCase5 ctx

/-- Entry `case 7` of the switch, falling through to `case 6`. -/
def duffCase7 {α σ : Type} (ctx : MBSLAVE_READCOILS_CTX α σ) (s : Frame σ) :
    Except (Outcome σ) (Frame σ) :=
  MBSLAVE_RDCOILS_DUFFUNIT ctx s >>= duffCase6 ctx

/-- Entry `case 8` of the switch, falling through to `case 7`. -/
def duffCase8 {α σ : Type} (ctx : MBSLAVE_READCOILS_CTX α σ) (s : Frame σ) :
    Except (Outcome σ) (Frame σ) :=
  MBSLAVE_RDCOILS_DUFFUNIT ctx s >>= duffCase7 ctx

/-- The statement `switch (duffNbr)`: control enters at the matching case label
and falls through all later ones; no label matches any other value. -/
def duffSwitch {α σ : Type} (ctx : MBSLAVE_READCOILS_CTX α σ) (duffNbr : Nat) (s : Frame σ) :
    Except (Outcome σ) (Frame σ) :=
  match duffNbr with
  | 8 => duffCase8 ctx s
  | 7 => duffCase7 ctx s
  | 6 => duffCase6 ctx s
  | 5 => duffCase5 ctx s
  | 4 => duffCase4 ctx s
  | 3 => duffCase3 ctx s
  | 2 => duffCase2 ctx s
  | 1 => duffCase1 ctx s
  | _ => .ok s

/-- The loop `while (coilQuantity != 0)` of the handler (lines 263-332), run
with a fuel counter: `none` means the fuel ran out before the loop ended. -/
def whileCoilQuantity {α σ : Type} (ctx : MBSLAVE_READCOILS_CTX α σ) :
    Nat → Frame σ → Option (Except (Outcome σ) (Frame σ))
  | fuel, s =>
    if s.coilQuantity = 0 then
      some (.ok s)
    else
      match fuel with
      | 0 => none
      | fuel + 1 =>
        let duffNbr := if s.coilQuantity > 8 then 8 else s.coilQuantity % 256
        match duffSwitch ctx duffNbr { s with duffByte := 0x00, duffBitMask := 0x01 } with
        | .error o => some (.error o)
        | .ok s1 =>
          let w := MBBufEmitter_WriteUInt8 s1.emitter s1.duffByte
          if w.2 ≠ MB_ERROR_NONE then
            some (.error (returnWith (emitterError w.2) w.1 s1.dev s1.calls))
          else
            whileCoilQuantity ctx fuel { s1 with emitter := w.1 }

/-! ## Exit labels -/

/-- Label `MBSLAVE_RDCOILS_FINALLY`: report the written length.  The output
variable is assigned before the error of the length query is looked at. -/
def MBSLAVE_RDCOILS_FINALLY {σ : Type} (response_fncode : Nat) (emitter : MB_BUFFEREMITTER)
    (dev : σ) (calls : List CbCall) : Outcome σ :=
  let n := MBBufEmitter_GetWrittenLength emitter
  { p_error := n.2, p_response_fncode := some response_fncode,
    p_response_data_size := some n.1, emitter := emitter, dev := dev, calls := calls }

/-- Label `MBSLAVE_RDCOILS_CATCH_FINALLY`: write the response function code,
discard the emitted bytes, write the exception code `ec`, then go on to
`MBSLAVE_RDCOILS_FINALLY`. -/
def MBSLAVE_RDCOILS_CATCH_FINALLY {σ : Type} (request_fncode ec : Nat)
    (emitter : MB_BUFFEREMITTER) (dev : σ) (calls : List CbCall) : Outcome σ :=
  let response_fncode := (request_fncode + 0x80) % 256
  let r := MBBufEmitter_Reset emitter
  if r.2 ≠ MB_ERROR_NONE then
    { p_error := r.2, p_response_fncode := some response_fncode,
      p_response_data_size := none, emitter := r.1, dev := dev, calls := calls }
  else
    let w := MBBufEmitter_WriteUInt8 r.1 ec
    if w.2 ≠ MB_ERROR_NONE then
      { p_error := emitterError w.2, p_response_fncode := some response_fncode,
        p_response_data_size := none, emitter := w.1, dev := dev, calls := calls }
    else
      MBSLAVE_RDCOILS_FINALLY response_fncode w.1 dev calls

/-- Label `MBSLAVE_RDCOILS_CATCH_INVALIDVALUE`. -/
def MBSLAVE_RDCOILS_CATCH_INVALIDVALUE {σ : Type} (request_fncode : Nat)
    (emitter : MB_BUFFEREMITTER) (dev : σ) (calls : List CbCall) : Outcome σ :=
  MBSLAVE_RDCOILS_CATCH_FINALLY request_fncode MB_APUEC_ILLEGALDATAVALUE emitter dev calls

/-- Label `MBSLAVE_RDCOILS_CATCH_INVALIDADDR`. -/
def MBSLAVE_RDCOILS_CATCH_INVALIDADDR {σ : Type} (request_fncode : Nat)
    (emitter : MB_BUFFEREMITTER) (dev : σ) (calls : List CbCall) : Outcome σ :=
  MBSLAVE_RDCOILS_CATCH_FINALLY request_fncode MB_APUEC_ILLEGALDATAADDRESS emitter dev calls

/-! ## The handler -/

/-- The computation of `outByteCount` (lines 245-248): the quantity is
decremented, divided by 8 and incremented, all in `CPU_INT16U`. -/
def outByteCount (coilQuantity : Nat) : Nat :=
  (((coilQuantity + 65535) % 65536) / 8 + 1) % 65536

/-- The handler from the quantity check on (lines 206-381), given the two
decoded request fields and the freshly initialised writer. -/
def serveRequest {α σ : Type} (request_fncode : Nat) (cmdlet_ctx : MBSLAVE_READCOILS_CTX α σ)
    (coilStartAddress coilQuantity : Nat) (emitter : MB_BUFFEREMITTER) (dev : σ) :
    Option (Outcome σ) :=
  -- Validate the coil quantity.
  if coilQuantity = 0x0000 ∨ coilQuantity > 0x07D0 then
    some (MBSLAVE_RDCOILS_CATCH_INVALIDVALUE request_fncode emitter dev [])
  else
    -- Validate the start address.
    let v1 := cmdlet_ctx.cbValidateCoil coilStartAddress cmdlet_ctx.cbArg dev
    let calls1 := [CbCall.validate coilStartAddress v1.value v1.error]
    if v1.error ≠ MB_ERROR_NONE then
      some (returnWith MB_ERROR_SLAVE_CALLBACKFAILED emitter v1.dev calls1)
    else if ¬ v1.value then
      some (MBSLAVE_RDCOILS_CATCH_INVALIDADDR request_fncode emitter v1.dev calls1)
    else
      -- Validate the end address.
      let coilEndAddress := (coilStartAddress + coilQuantity + 65535) % 65536
      if coilEndAddress < coilStartAddress then
        some (MBSLAVE_RDCOILS_CATCH_INVALIDADDR request_fncode emitter v1.dev calls1)
      else
        let v2 := cmdlet_ctx.cbValidateCoil coilEndAddress cmdlet_ctx.cbArg v1.dev
        let calls2 := calls1 ++ [CbCall.validate coilEndAddress v2.value v2.error]
        if v2.error ≠ MB_ERROR_NONE then
          some (returnWith MB_ERROR_SLAVE_CALLBACKFAILED emitter v2.dev calls2)
        else if ¬ v2.value then
          some (MBSLAVE_RDCOILS_CATCH_INVALIDADDR request_fncode emitter v2.dev calls2)
        else
          -- Write the count of output bytes.
          let w := MBBufEmitter_WriteUInt8 emitter (outByteCount coilQuantity % 256)
          if w.2 ≠ MB_ERROR_NONE then
            some (returnWith (emitterError w.2) w.1 v2.dev calls2)
          else
            -- Process the request.  Every iteration consumes at least one coil, so
            -- `coilQuantity` iterations are enough fuel.
            match whileCoilQuantity cmdlet_ctx coilQuantity
                { coilQuantity := coilQuantity, coilCurrentAddress := coilStartAddress,
                  duffBitMask := 0, duffByte := 0, emitter := w.1, dev := v2.dev,
                  calls := calls2 } with
            | none => none
            | some (.error o) => some o
            | some (.ok s) =>
              some (MBSLAVE_RDCOILS_FINALLY request_fncode s.emitter s.dev s.calls)

/-- The function `MBSlave_CmdLet_ReadCoils`, with argument checking enabled
(`MB_CFG_ARG_CHK_EN == DEF_ENABLED`).  `dev` is the state of the device when
the handler is entered. -/
def MBSlave_CmdLet_ReadCoils {α σ : Type} (a : Args α σ) (dev : σ) : Option (Outcome σ) :=
  let untouched : MB_BUFFEREMITTER := { data := [], capacity := a.response_buffer_size, stored := [] }
  -- Check the parameters.
  if a.p_request_data = none ∧ a.request_data_size ≠ 0 then
    some (returnWith MB_ERROR_NULLREFERENCE untouched dev [])
  else if a.p_response_fncode = Ptr.null then
    some (returnWith MB_ERROR_NULLREFERENCE untouched dev [])
  else if a.p_response_buffer = Ptr.null ∧ a.response_buffer_size ≠ 0 then
    some (returnWith MB_ERROR_NULLREFERENCE untouched dev [])
  else if a.p_response_data_size = Ptr.null then
    some (returnWith MB_ERROR_NULLREFERENCE untouched dev [])
  else
    match a.p_cmdlet_ctx with
    | none => some (returnWith MB_ERROR_NULLREFERENCE untouched dev [])
    | some cmdlet_ctx =>
      -- Initialize the response data emitter.
      let e := MBBufEmitter_Initialize a.response_buffer_size
      if e.2 ≠ MB_ERROR_NONE then
        some (returnWith e.2 e.1 dev [])
      else
        -- Initialize the request data fetcher.
        let f := MBBufFetcher_Initialize a.p_request_data a.request_data_size
        if f.2 ≠ MB_ERROR_NONE then
          some (returnWith f.2 e.1 dev [])
        else
          -- Read the start address from the request data.
          let r1 := MBBufFetcher_ReadUInt16BE f.1
          if r1.2 ≠ MB_ERROR_NONE then
            some (returnWith (fetcherError r1.2) e.1 dev [])
          else
            -- Read the coil quantity from the request data.
            let r2 := MBBufFetcher_ReadUInt16BE r1.1.2
            if r2.2 ≠ MB_ERROR_NONE then
              some (returnWith (fetcherError r2.2) e.1 dev [])
            else
              serveRequest a.request_fncode cmdlet_ctx r1.1.1 r2.1.1 e.1 dev

/-- A call of the handler in which no pointer is null: function code `f`,
request payload `req` with its exact length, a response buffer of `cap`
bytes and the command context `ctx`. -/
def requestCall {α σ : Type} (f : Nat) (req : List Nat) (cap : Nat)
    (ctx : MBSLAVE_READCOILS_CTX α σ) : Args α σ :=
  { request_fncode := f, p_request_data := some req, request_data_size := req.length,
    p_response_fncode := Ptr.valid, p_response_buffer := Ptr.valid,
    response_buffer_size := cap, p_response_data_size := Ptr.valid,
    p_cmdlet_ctx := some ctx }

/-- The response payload of an outcome: the bytes in the response buffer up to
the write cursor. -/
def Outcome.payload {σ : Type} (o : Outcome σ) : List Nat :=
  o.emitter.data

/-- Whether an outcome is an exception response: the handler finished without
error and the payload is one of the two exception codes alone. -/
def Outcome.isException {σ : Type} (o : Outcome σ) : Prop :=
  o.p_error = MB_ERROR_NONE ∧
    (o.payload = [MB_APUEC_ILLEGALDATAVALUE] ∨ o.payload = [MB_APUEC_ILLEGALDATAADDRESS])

instance {σ : Type} (o : Outcome σ) : Decidable o.isException := by
  unfold Outcome.isException
  infer_instance

/-- A device whose coil at address `n` is on exactly when `n - base` is even,
which accepts every address and reports no error; its state counts the
invocations. -/
def alternatingDevice (base : Nat) : MBSLAVE_READCOILS_CTX Unit Nat :=
  { cbValidateCoil := fun _ _ n => { value := true, error := MB_ERROR_NONE, dev := n + 1 }
    cbReadCoil := fun a _ n =>
      { value := decide ((a - base) % 2 = 0), error := MB_ERROR_NONE, dev := n + 1 }
    cbArg := () }


/-! ## Specification-side vocabulary -/

/-- The big-endian 16-bit field that starts at byte `i` of the payload `req`,
as the reader decodes it. -/
def requestField (req : List Nat) (i : Nat) : Nat :=
  (req.getD i 0 % 256) * 256 + req.getD (i + 1) 0 % 256

/-- The payload `req` has at least four bytes, each of its first four bytes is
an 8-bit value, and these are the big-endian encodings of start address `s`
and quantity `q`. -/
def DecodesTo (req : List Nat) (s q : Nat) : Prop :=
  4 ≤ req.length ∧
    req.getD 0 0 < 256 ∧ req.getD 1 0 < 256 ∧ req.getD 2 0 < 256 ∧ req.getD 3 0 < 256 ∧
    s = 256 * req.getD 0 0 + req.getD 1 0 ∧ q = 256 * req.getD 2 0 + req.getD 3 0

instance (req : List Nat) (s q : Nat) : Decidable (DecodesTo req s q) := by
  unfold DecodesTo
  infer_instance

/-- The writer as `MBBufEmitter_Initialize` leaves it for a buffer of `cap`
bytes. -/
def freshEmitter (cap : Nat) : MB_BUFFEREMITTER :=
  { data := [], capacity := cap, stored := [] }

/-- The log entries of `n` successful read-coil invocations on the consecutive
addresses `a, a+1, ...` that returned the states `vs`. -/
def readCalls (a : Nat) (vs : List Bool) : List CbCall :=
  List.zipWith (fun addr v => CbCall.read addr v MB_ERROR_NONE) (List.range' a vs.length) vs

/-- `n` consecutive expansions of `MBSLAVE_RDCOILS_DUFFUNIT`, stopping at the
first one that returns. -/
def duffUnits {α σ : Type} (ctx : MBSLAVE_READCOILS_CTX α σ) :
    Nat → Frame σ → Except (Outcome σ) (Frame σ)
  | 0, s => .ok s
  | n + 1, s => MBSLAVE_RDCOILS_DUFFUNIT ctx s >>= duffUnits ctx n

/-- Whether a logged invocation is one of the read-coil callback. -/
def CbCall.isRead : CbCall → Bool
  | .read _ _ _ => true
  | .validate _ _ _ => false

/-- A device whose valid coil addresses are `lo .. hi`, with the coil at an
even address on and at an odd address off; it reports no error and its state
counts the invocations. -/
def rangeDevice (lo hi : Nat) : MBSLAVE_READCOILS_CTX Unit Nat :=
  { cbValidateCoil := fun a _ n =>
      { value := decide (lo ≤ a ∧ a ≤ hi), error := MB_ERROR_NONE, dev := n + 1 }
    cbReadCoil := fun a _ n =>
      { value := decide (a % 2 = 0), error := MB_ERROR_NONE, dev := n + 1 }
    cbArg := () }

/-- The error a logged invocation reported. -/
def CbCall.error : CbCall → MB_ERROR
  | .read _ _ e => e
  | .validate _ _ e => e

/-- The addresses passed to the read-coil callback, in the order of the
invocations. -/
def readAddresses (calls : List CbCall) : List Nat :=
  calls.filterMap fun c =>
    match c with
    | .read a _ _ => some a
    | .validate _ _ _ => none

/-- The addresses passed to the validity callback, in the order of the
invocations. -/
def validateAddresses (calls : List CbCall) : List Nat :=
  calls.filterMap fun c =>
    match c with
    | .validate a _ _ => some a
    | .read _ _ _ => none

/-- A device that accepts every address and whose coils are all on, but whose
read-coil callback reports an error at the address `bad`; its state counts the
invocations. -/
def faultyDevice (bad : Nat) : MBSLAVE_READCOILS_CTX Unit Nat :=
  { cbValidateCoil := fun _ _ n => { value := true, error := MB_ERROR_NONE, dev := n + 1 }
    cbReadCoil := fun a _ n =>
      { value := true, error := if a = bad then MB_ERROR_OTHER 7 else MB_ERROR_NONE,
        dev := n + 1 }
    cbArg := () }

/-- The answer of the validity callback for the start address `s`, asked in the
device state `dev` in which the handler is entered. -/
def startCheck {α σ : Type} (ctx : MBSLAVE_READCOILS_CTX α σ) (s : Nat) (dev : σ) : CbResult σ :=
  ctx.cbValidateCoil s ctx.cbArg dev

/-- The answer of the validity callback for the end address `s + q - 1`, asked
in the device state the check of the start address leaves. -/
def endCheck {α σ : Type} (ctx : MBSLAVE_READCOILS_CTX α σ) (s q : Nat) (dev : σ) : CbResult σ :=
  ctx.cbValidateCoil (s + q - 1) ctx.cbArg (startCheck ctx s dev).dev

/-- The frame with which the handler enters the packing loop once the count
byte `count` has been written into a buffer of `cap` bytes. -/
def loopEntry {σ : Type} (s q cap count : Nat) (dev : σ) (calls : List CbCall) : Frame σ :=
  { coilQuantity := q, coilCurrentAddress := s, duffBitMask := 0, duffByte := 0,
    emitter := { data := [count], capacity := cap, stored := [count] },
    dev := dev, calls := calls }

/-- The computation of `coilEndAddress` (line 226): start address plus
quantity minus one, narrowed to `CPU_INT16U`. -/
def coilEndAddress (coilStartAddress coilQuantity : Nat) : Nat :=
  (coilStartAddress + coilQuantity + 65535) % 65536

/-- A request is valid for the device: the quantity is in `1 .. 2000`, the end
address does not overflow, neither callback ever reports an error, and the
validity callback accepts both end points. -/
def ValidRequest {α σ : Type} (ctx : MBSLAVE_READCOILS_CTX α σ) (s q : Nat) (dev : σ) : Prop :=
  1 ≤ q ∧ q ≤ 2000 ∧ s + q - 1 ≤ 0xFFFF ∧
    (∀ a d, (ctx.cbValidateCoil a ctx.cbArg d).error = MB_ERROR_NONE) ∧
    (∀ a d, (ctx.cbReadCoil a ctx.cbArg d).error = MB_ERROR_NONE) ∧
    (startCheck ctx s dev).value = true ∧ (endCheck ctx s q dev).value = true

/-- A request takes an exception path: the quantity is out of range, or the
validity callback reports no error for the start address and rejects it, or
accepts it while the end address overflows, or accepts it and rejects the end
address without reporting an error. -/
def TakesExceptionPath {α σ : Type} (ctx : MBSLAVE_READCOILS_CTX α σ) (s q : Nat) (dev : σ) :
    Prop :=
  (q = 0 ∨ 2000 < q) ∨
    ((startCheck ctx s dev).error = MB_ERROR_NONE ∧
      ((startCheck ctx s dev).value = false ∨ 0xFFFF < s + q - 1 ∨
        ((endCheck ctx s q dev).error = MB_ERROR_NONE ∧ (endCheck ctx s q dev).value = false)))

/-- The frame with which the loop is entered for 13 coils from address
`0xFFF3`, the last of them at `0xFFFF`, on a device in state 0 and a buffer of
3 bytes holding the count byte 2. -/
def wrapEdgeFrame : Frame Nat :=
  loopEntry 0xFFF3 13 3 2 0 []

/-- What the caller sees of an outcome: everything but the state of the
device. -/
def Outcome.visible {σ : Type} (o : Outcome σ) : Outcome Unit :=
  { p_error := o.p_error, p_response_fncode := o.p_response_fncode,
    p_response_data_size := o.p_response_data_size, emitter := o.emitter, dev := (),
    calls := o.calls }

/-- A frame of the loop without the state of the device. -/
def Frame.visible {σ : Type} (s : Frame σ) : Frame Unit :=
  { coilQuantity := s.coilQuantity, coilCurrentAddress := s.coilCurrentAddress,
    duffBitMask := s.duffBitMask, duffByte := s.duffByte, emitter := s.emitter, dev := (),
    calls := s.calls }

/-- The result of a stretch of the loop without the state of the device. -/
def visibleResult {σ : Type} : Except (Outcome σ) (Frame σ) → Except (Outcome Unit) (Frame Unit)
  | .error o => .error o.visible
  | .ok s => .ok s.visible

/-- Two command contexts whose callbacks return identical values (answer and
error) for identical addresses, whatever the states of their devices. -/
def SameAnswers {α₁ σ₁ α₂ σ₂ : Type} (ctx₁ : MBSLAVE_READCOILS_CTX α₁ σ₁)
    (ctx₂ : MBSLAVE_READCOILS_CTX α₂ σ₂) : Prop :=
  ∀ (a : Nat) (d₁ : σ₁) (d₂ : σ₂),
    (ctx₁.cbValidateCoil a ctx₁.cbArg d₁).value = (ctx₂.cbValidateCoil a ctx₂.cbArg d₂).value ∧
    (ctx₁.cbValidateCoil a ctx₁.cbArg d₁).error = (ctx₂.cbValidateCoil a ctx₂.cbArg d₂).error ∧
    (ctx₁.cbReadCoil a ctx₁.cbArg d₁).value = (ctx₂.cbReadCoil a ctx₂.cbArg d₂).value ∧
    (ctx₁.cbReadCoil a ctx₁.cbArg d₁).error = (ctx₂.cbReadCoil a ctx₂.cbArg d₂).error

/-- The device of `rangeDevice`, kept in a different form: the state is the
list of the addresses asked so far, most recent first, and the callback
argument is the pair of bounds. -/
def recordingRangeDevice (lo hi : Nat) : MBSLAVE_READCOILS_CTX (Nat × Nat) (List Nat) :=
  { cbValidateCoil := fun a b l =>
      { value := decide (b.1 ≤ a ∧ a ≤ b.2), error := MB_ERROR_NONE, dev := a :: l }
    cbReadCoil := fun a _ l =>
      { value := decide (a % 2 = 0), error := MB_ERROR_NONE, dev := a :: l }
    cbArg := (lo, hi) }

/-! ## Specification side: the plain nested loop -/

/-- Specification side of the refinement: the state of the plain nested loop
between two coils: the coils that remain, the address of the next coil, the
writer, the device and the log of callback invocations. -/
structure PlainState (σ : Type) where
  remaining : Nat
  address : Nat
  emitter : MB_BUFFEREMITTER
  dev : σ
  calls : List CbCall

/-- Specification side of the refinement: the inner loop of the plain nested
loop.  It visits the bit positions `bit, bit + 1, ..., 7` of the output byte
`byte` while coils remain (`n` counts the positions still to visit): each coil
is read once, a coil that is on sets the bit at the current position, and a
read that reports an error ends the whole command. -/
def plainBitLoop {α σ : Type} (ctx : MBSLAVE_READCOILS_CTX α σ) :
    Nat → Nat → Nat → PlainState σ → Except (Outcome σ) (Nat × PlainState σ)
  | 0, _, byte, p => .ok (byte, p)
  | n + 1, bit, byte, p =>
    if p.remaining = 0 then
      .ok (byte, p)
    else
      let r := ctx.cbReadCoil p.address ctx.cbArg p.dev
      let calls := p.calls ++ [CbCall.read p.address r.value r.error]
      if r.error ≠ MB_ERROR_NONE then
        .error (returnWith MB_ERROR_SLAVE_CALLBACKFAILED p.emitter r.dev calls)
      else
        plainBitLoop ctx n (bit + 1) (if r.value then byte ||| (1 <<< bit) else byte)
          { remaining := p.remaining - 1, address := (p.address + 1) % 65536,
            emitter := p.emitter, dev := r.dev, calls := calls }

/-- Specification side of the refinement: the plain nested loop.  While coils
remain it builds one output byte from bit positions `0 .. 7` and writes it; a
write that fails ends the whole command.  `none` means the fuel ran out before
the loop ended. -/
def plainNestedLoop {α σ : Type} (ctx : MBSLAVE_READCOILS_CTX α σ) :
    Nat → PlainState σ → Option (Except (Outcome σ) (PlainState σ))
  | fuel, p =>
    if p.remaining = 0 then
      some (.ok p)
    else
      match fuel with
      | 0 => none
      | fuel + 1 =>
        match plainBitLoop ctx 8 0 0x00 p with
        | .error o => some (.error o)
        | .ok (byte, p1) =>
          let w := MBBufEmitter_WriteUInt8 p1.emitter byte
          if w.2 ≠ MB_ERROR_NONE then
            some (.error (returnWith (emitterError w.2) w.1 p1.dev p1.calls))
          else
            plainNestedLoop ctx fuel { p1 with emitter := w.1 }

/-- The state in which the plain nested loop is entered when the handler's loop
is entered with the frame `s`. -/
def Frame.plain {σ : Type} (s : Frame σ) : PlainState σ :=
  { remaining := s.coilQuantity, address := s.coilCurrentAddress, emitter := s.emitter,
    dev := s.dev, calls := s.calls }

/-- How the handler ends once its loop has ended (lines 334-337 and the label
`MBSLAVE_RDCOILS_FINALLY`): an early `return` is final, otherwise the function
code is written and the written length reported. -/
def loopExit {σ : Type} (request_fncode : Nat) : Except (Outcome σ) (Frame σ) → Outcome σ
  | .error o => o
  | .ok s => MBSLAVE_RDCOILS_FINALLY request_fncode s.emitter s.dev s.calls

/-- Specification side of the refinement: how the command ends once the plain
nested loop has ended: the function code is echoed and the written length
reported, unless the command was ended before. -/
def plainExit {σ : Type} (request_fncode : Nat) :
    Except (Outcome σ) (PlainState σ) → Outcome σ
  | .error o => o
  | .ok p => MBSLAVE_RDCOILS_FINALLY request_fncode p.emitter p.dev p.calls

/-- The frame with which the loop is entered for 13 coils from address 10 on a
device in state 0, with a buffer of 3 bytes holding the count byte 2. -/
def thirteenCoilsFrame : Frame Nat :=
  loopEntry 10 13 3 2 0 []

/-! ## The switch and its units -/

theorem duffUnits_succ {α σ : Type} (ctx : MBSLAVE_READCOILS_CTX α σ) (n : Nat) (s : Frame σ) :
    duffUnits ctx (n + 1) s = MBSLAVE_RDCOILS_DUFFUNIT ctx s >>= duffUnits ctx n := rfl

theorem duffCase1_eq {α σ : Type} (ctx : MBSLAVE_READCOILS_CTX α σ) :
    duffCase1 ctx = duffUnits ctx 1 := by
  funext s
  rw [duffUnits_succ, duffCase1]
  cases MBSLAVE_RDCOILS_DUFFUNIT ctx s <;> rfl

theorem duffCase2_eq {α σ : Type} (ctx : MBSLAVE_READCOILS_CTX α σ) :
    duffCase2 ctx = duffUnits ctx 2 := by
  funext s; rw [duffUnits_succ, duffCase2, duffCase1_eq]

theorem duffCase3_eq {α σ : Type} (ctx : MBSLAVE_READCOILS_CTX α σ) :
    duffCase3 ctx = duffUnits ctx 3 := by
  funext s; rw [duffUnits_succ, duffCase3, duffCase2_eq]

theorem duffCase4_eq {α σ : Type} (ctx : MBSLAVE_READCOILS_CTX α σ) :
    duffCase4 ctx = duffUnits ctx 4 := by
  funext s; rw [duffUnits_succ, duffCase4, duffCase3_eq]

theorem duffCase5_eq {α σ : Type} (ctx : MBSLAVE_READCOILS_CTX α σ) :
    duffCase5 ctx = duffUnits ctx 5 := by
  funext s; rw [duffUnits_succ, duffCase5, duffCase4_eq]

theorem duffCase6_eq {α σ : Type} (ctx : MBSLAVE_READCOILS_CTX α σ) :
    duffCase6 ctx = duffUnits ctx 6 := by
  funext s; rw [duffUnits_succ, duffCase6, duffCase5_eq]

theorem duffCase7_eq {α σ : Type} (ctx : MBSLAVE_READCOILS_CTX α σ) :
    duffCase7 ctx = duffUnits ctx 7 := by
  funext s; rw [duffUnits_succ, duffCase7, duffCase6_eq]

theorem duffCase8_eq {α σ : Type} (ctx : MBSLAVE_READCOILS_CTX α σ) :
    duffCase8 ctx = duffUnits ctx 8 := by
  funext s; rw [duffUnits_succ, duffCase8, duffCase7_eq]

/-- The fall-through switch entered at `n` runs exactly `n` units. -/
theorem duffSwitch_eq_duffUnits {α σ : Type} (ctx : MBSLAVE_READCOILS_CTX α σ) (n : Nat)
    (hn : n ≤ 8) (s : Frame σ) : duffSwitch ctx n s = duffUnits ctx n s := by
  interval_cases n
  · rfl
  · show duffCase1 ctx s = _; rw [duffCase1_eq]
  · show duffCase2 ctx s = _; rw [duffCase2_eq]
  · show duffCase3 ctx s = _; rw [duffCase3_eq]
  · show duffCase4 ctx s = _; rw [duffCase4_eq]
  · show duffCase5 ctx s = _; rw [duffCase5_eq]
  · show duffCase6 ctx s = _; rw [duffCase6_eq]
  · show duffCase7 ctx s = _; rw [duffCase7_eq]
  · show duffCase8 ctx s = _; rw [duffCase8_eq]

theorem duffUnit_error {α σ : Type} (ctx : MBSLAVE_READCOILS_CTX α σ) (s : Frame σ)
    (o : Outcome σ) (h : MBSLAVE_RDCOILS_DUFFUNIT ctx s = .error o) :
    o.p_error = MB_ERROR_SLAVE_CALLBACKFAILED ∧ o.p_response_fncode = none ∧
      o.p_response_data_size = none ∧ o.emitter = s.emitter := by
  unfold MBSLAVE_RDCOILS_DUFFUNIT at h
  by_cases he : (ctx.cbReadCoil s.coilCurrentAddress ctx.cbArg s.dev).error = MB_ERROR_NONE
  · simp [he] at h
  · simp [he] at h
    subst h
    simp [returnWith]

theorem duffUnit_ok {α σ : Type} (ctx : MBSLAVE_READCOILS_CTX α σ) (s s' : Frame σ)
    (h : MBSLAVE_RDCOILS_DUFFUNIT ctx s = .ok s') :
    s'.coilQuantity = (s.coilQuantity + 65535) % 65536 ∧ s'.emitter = s.emitter := by
  unfold MBSLAVE_RDCOILS_DUFFUNIT at h
  by_cases he : (ctx.cbReadCoil s.coilCurrentAddress ctx.cbArg s.dev).error = MB_ERROR_NONE
  · simp [he] at h
    subst h
    simp
  · simp [he] at h

theorem duffUnits_error {α σ : Type} (ctx : MBSLAVE_READCOILS_CTX α σ) :
    ∀ (n : Nat) (s : Frame σ) (o : Outcome σ), duffUnits ctx n s = .error o →
      o.p_error = MB_ERROR_SLAVE_CALLBACKFAILED ∧ o.p_response_fncode = none ∧
        o.p_response_data_size = none ∧ o.emitter = s.emitter := by
  intro n
  induction n with
  | zero => intro s o h; simp [duffUnits] at h
  | succ n ih =>
    intro s o h
    simp only [duffUnits] at h
    cases hu : MBSLAVE_RDCOILS_DUFFUNIT ctx s with
    | error o1 =>
      rw [hu] at h
      have : o1 = o := by simpa [bind, Except.bind] using h
      subst this
      exact duffUnit_error ctx s o1 hu
    | ok s1 =>
      rw [hu] at h
      have h2 : duffUnits ctx n s1 = .error o := by simpa [bind, Except.bind] using h
      have := ih s1 o h2
      rw [(duffUnit_ok ctx s s1 hu).2] at this
      exact this

theorem duffUnits_ok {α σ : Type} (ctx : MBSLAVE_READCOILS_CTX α σ) :
    ∀ (n : Nat) (s s' : Frame σ), duffUnits ctx n s = .ok s' →
      n ≤ s.coilQuantity → s.coilQuantity < 65536 →
      s'.coilQuantity = s.coilQuantity - n ∧ s'.emitter = s.emitter := by
  intro n
  induction n with
  | zero => intro s s' h _ _; simp [duffUnits] at h; subst h; simp
  | succ n ih =>
    intro s s' h hn hq
    simp only [duffUnits] at h
    cases hu : MBSLAVE_RDCOILS_DUFFUNIT ctx s with
    | error o1 =>
      rw [hu] at h
      simp [bind, Except.bind] at h
    | ok s1 =>
      rw [hu] at h
      have h2 : duffUnits ctx n s1 = .ok s' := by simpa [bind, Except.bind] using h
      obtain ⟨hq1, he1⟩ := duffUnit_ok ctx s s1 hu
      have := ih s1 s' h2 (by omega) (by omega)
      constructor
      · omega
      · rw [this.2, he1]

/-! ## The loop, for arbitrary callbacks -/

theorem writeUInt8_cases (e : MB_BUFFEREMITTER) (b : Nat) :
    (e.data.length < e.capacity ∧
        MBBufEmitter_WriteUInt8 e b =
          ({ e with data := e.data ++ [b], stored := e.stored ++ [b] }, MB_ERROR_NONE)) ∨
      (e.capacity ≤ e.data.length ∧
        MBBufEmitter_WriteUInt8 e b = (e, MB_ERROR_BUFEMITTER_BUFFEREND)) := by
  unfold MBBufEmitter_WriteUInt8
  by_cases h : e.data.length < e.capacity
  · left; simp [h]
  · right; simp [h]; omega

theorem whileCoilQuantity_step {α σ : Type} (ctx : MBSLAVE_READCOILS_CTX α σ) (fuel : Nat)
    (s : Frame σ) (hq : s.coilQuantity ≠ 0) (hq16 : s.coilQuantity < 65536) :
    whileCoilQuantity ctx (fuel + 1) s =
      match duffUnits ctx (min 8 s.coilQuantity) { s with duffByte := 0, duffBitMask := 1 } with
      | .error o => some (.error o)
      | .ok s1 =>
        if (MBBufEmitter_WriteUInt8 s1.emitter s1.duffByte).2 ≠ MB_ERROR_NONE then
          some (.error (returnWith
            (emitterError (MBBufEmitter_WriteUInt8 s1.emitter s1.duffByte).2)
            (MBBufEmitter_WriteUInt8 s1.emitter s1.duffByte).1 s1.dev s1.calls))
        else
          whileCoilQuantity ctx fuel
            { s1 with emitter := (MBBufEmitter_WriteUInt8 s1.emitter s1.duffByte).1 } := by
  have hn : (if s.coilQuantity > 8 then 8 else s.coilQuantity % 256) = min 8 s.coilQuantity := by
    split <;> omega
  conv_lhs => unfold whileCoilQuantity
  simp only [hq, if_false]
  rw [hn, duffSwitch_eq_duffUnits ctx _ (by omega)]

theorem whileCoilQuantity_zero {α σ : Type} (ctx : MBSLAVE_READCOILS_CTX α σ) (fuel : Nat)
    (s : Frame σ) (hq : s.coilQuantity = 0) :
    whileCoilQuantity ctx fuel s = some (.ok s) := by
  unfold whileCoilQuantity
  simp [hq]

/-- The loop ends within the fuel it is given, whatever the callbacks do: it
either returns early with one of two errors and no output variable written, or
runs to completion having added at least one byte per iteration. -/
theorem whileCoilQuantity_total {α σ : Type} (ctx : MBSLAVE_READCOILS_CTX α σ) :
    ∀ (fuel : Nat) (s : Frame σ), s.coilQuantity ≤ fuel → s.coilQuantity < 65536 →
      ∃ r, whileCoilQuantity ctx fuel s = some r ∧
        (∀ o, r = .error o →
          (o.p_error = MB_ERROR_SLAVE_CALLBACKFAILED ∨
            o.p_error = MB_ERROR_SLAVE_RESPONSETRUNCATED) ∧
          o.p_response_fncode = none ∧ o.p_response_data_size = none) ∧
        (∀ s', r = .ok s' →
          s'.coilQuantity = 0 ∧ s.emitter.data.length ≤ s'.emitter.data.length ∧
          (s.coilQuantity ≠ 0 → s.emitter.data.length < s'.emitter.data.length)) := by
  intro fuel
  induction fuel with
  | zero =>
    intro s h0 _
    refine ⟨.ok s, whileCoilQuantity_zero ctx 0 s (by omega), ?_, ?_⟩
    · intro o h; cases h
    · intro s' h
      cases h
      exact ⟨by omega, le_refl _, fun h => absurd (by omega) h⟩
  | succ fuel ih =>
    intro s hf hq16
    by_cases hq : s.coilQuantity = 0
    · refine ⟨.ok s, whileCoilQuantity_zero ctx _ s hq, ?_, ?_⟩
      · intro o h; cases h
      · intro s' h
        cases h
        exact ⟨hq, le_refl _, fun h => absurd hq h⟩
    · rw [whileCoilQuantity_step ctx fuel s hq hq16]
      cases hu : duffUnits ctx (min 8 s.coilQuantity) { s with duffByte := 0, duffBitMask := 1 } with
      | error o1 =>
        refine ⟨.error o1, rfl, ?_, ?_⟩
        · intro o h
          cases h
          have := duffUnits_error ctx _ _ _ hu
          exact ⟨Or.inl this.1, this.2.1, this.2.2.1⟩
        · intro s' h; cases h
      | ok s1 =>
        obtain ⟨hq1, he1⟩ := duffUnits_ok ctx _ _ _ hu (by simp) (by simpa using hq16)
        simp only at hq1 he1 ⊢
        rcases writeUInt8_cases s1.emitter s1.duffByte with ⟨hlt, hw⟩ | ⟨hge, hw⟩
        · rw [hw]
          simp only [ne_eq, not_true_eq_false, if_false]
          obtain ⟨r, hr, herr, hok⟩ := ih { s1 with emitter :=
            { s1.emitter with data := s1.emitter.data ++ [s1.duffByte],
                              stored := s1.emitter.stored ++ [s1.duffByte] } }
            (by simp only; omega) (by simp only; omega)
          refine ⟨r, hr, herr, ?_⟩
          intro s' hsd
          obtain ⟨h1, h2, _⟩ := hok s' hsd
          simp only [List.length_append, List.length_singleton, he1] at h2
          exact ⟨h1, by omega, fun _ => by omega⟩
        · rw [hw]
          simp only [ne_eq, reduceCtorEq, not_false_eq_true, if_true]
          refine ⟨_, rfl, ?_, ?_⟩
          · intro o h
            cases h
            simp [returnWith, emitterError]
          · intro s' h; cases h

/-! ## Decoding the request -/

theorem requestField_lt (req : List Nat) (i : Nat) : requestField req i < 65536 := by
  unfold requestField
  omega

theorem requestField_of_decodes (req : List Nat) (s q : Nat) (h : DecodesTo req s q) :
    4 ≤ req.length ∧ requestField req 0 = s ∧ requestField req 2 = q := by
  obtain ⟨hlen, h0, h1, h2, h3, rfl, rfl⟩ := h
  refine ⟨hlen, ?_, ?_⟩
  · simp only [requestField, Nat.zero_add]
    omega
  · simp only [requestField, Nat.reduceAdd]
    omega

/-- A call with a payload of at least four bytes reaches the quantity check
with the two decoded fields and an empty writer. -/
theorem readCoils_eq_serveRequest {α σ : Type} (f : Nat) (req : List Nat) (cap : Nat)
    (ctx : MBSLAVE_READCOILS_CTX α σ) (dev : σ) (hlen : 4 ≤ req.length) :
    MBSlave_CmdLet_ReadCoils (requestCall f req cap ctx) dev =
      serveRequest f ctx (requestField req 0) (requestField req 2) (freshEmitter cap) dev := by
  have h1 : ¬ (req.length < 2) := by omega
  have h2 : ¬ (req.length - 2 < 2) := by omega
  simp [MBSlave_CmdLet_ReadCoils, requestCall, MBBufEmitter_Initialize, MBBufFetcher_Initialize,
    MBBufFetcher_ReadUInt16BE, h1, h2, requestField, freshEmitter]

/-- A call with a payload of fewer than four bytes returns at once with the
request-truncated error. -/
theorem readCoils_truncated {α σ : Type} (f : Nat) (req : List Nat) (cap : Nat)
    (ctx : MBSLAVE_READCOILS_CTX α σ) (dev : σ) (hlen : req.length < 4) :
    MBSlave_CmdLet_ReadCoils (requestCall f req cap ctx) dev =
      some (returnWith MB_ERROR_SLAVE_REQUESTTRUNCATED (freshEmitter cap) dev []) := by
  by_cases h1 : req.length < 2
  · simp [MBSlave_CmdLet_ReadCoils, requestCall, MBBufEmitter_Initialize,
      MBBufFetcher_Initialize, MBBufFetcher_ReadUInt16BE, h1, fetcherError, freshEmitter]
  · have h2 : req.length - 2 < 2 := by omega
    simp [MBSlave_CmdLet_ReadCoils, requestCall, MBBufEmitter_Initialize,
      MBBufFetcher_Initialize, MBBufFetcher_ReadUInt16BE, h1, h2, fetcherError, freshEmitter]

/-! ## The exception exit -/

theorem catchFinally_fresh_pos {σ : Type} (f ec cap : Nat) (dev : σ) (calls : List CbCall)
    (hcap : 1 ≤ cap) :
    MBSLAVE_RDCOILS_CATCH_FINALLY f ec (freshEmitter cap) dev calls =
      { p_error := MB_ERROR_NONE, p_response_fncode := some ((f + 0x80) % 256),
        p_response_data_size := some 1,
        emitter := { data := [ec], capacity := cap, stored := [ec] },
        dev := dev, calls := calls } := by
  have : 0 < cap := hcap
  simp [MBSLAVE_RDCOILS_CATCH_FINALLY, MBBufEmitter_Reset, MBBufEmitter_WriteUInt8,
    MBSLAVE_RDCOILS_FINALLY, MBBufEmitter_GetWrittenLength, freshEmitter, this]

theorem catchFinally_fresh_zero {σ : Type} (f ec : Nat) (dev : σ) (calls : List CbCall) :
    MBSLAVE_RDCOILS_CATCH_FINALLY f ec (freshEmitter 0) dev calls =
      { p_error := MB_ERROR_SLAVE_RESPONSETRUNCATED, p_response_fncode := some ((f + 0x80) % 256),
        p_response_data_size := none, emitter := freshEmitter 0, dev := dev, calls := calls } := by
  simp [MBSLAVE_RDCOILS_CATCH_FINALLY, MBBufEmitter_Reset, MBBufEmitter_WriteUInt8,
    emitterError, freshEmitter]

/-! ## The three ways the handler can end after decoding -/

/-- After decoding, the handler ends in exactly one of three ways: through the
exception exit with one of the two exception codes and only validity calls
logged, through an early return with a callback or response-truncation error
and no output variable written, or through the success exit with at least two
payload bytes. -/
theorem serveRequest_classify {α σ : Type} (f : Nat) (ctx : MBSLAVE_READCOILS_CTX α σ)
    (s q cap : Nat) (dev : σ) (hq : q < 65536) :
    ∃ out, serveRequest f ctx s q (freshEmitter cap) dev = some out ∧
      ((∃ ec d c, (ec = MB_APUEC_ILLEGALDATAVALUE ∨ ec = MB_APUEC_ILLEGALDATAADDRESS) ∧
          (∀ x ∈ c, x.isRead = false) ∧
          out = MBSLAVE_RDCOILS_CATCH_FINALLY f ec (freshEmitter cap) d c) ∨
        ((out.p_error = MB_ERROR_SLAVE_CALLBACKFAILED ∨
            out.p_error = MB_ERROR_SLAVE_RESPONSETRUNCATED) ∧
          out.p_response_fncode = none ∧ out.p_response_data_size = none) ∨
        (∃ e d c, out = MBSLAVE_RDCOILS_FINALLY f e d c ∧ 2 ≤ e.data.length)) := by
  unfold serveRequest
  simp only []
  split_ifs with h1 h2 h3 h4 h5 h6 h7
  any_goals first
    | exact ⟨_, rfl, Or.inl ⟨_, _, _, Or.inl rfl, by simp [CbCall.isRead], rfl⟩⟩
    | exact ⟨_, rfl, Or.inl ⟨_, _, _, Or.inr rfl, by simp [CbCall.isRead], rfl⟩⟩
    | exact ⟨_, rfl, Or.inr (Or.inl ⟨Or.inl rfl, rfl, rfl⟩)⟩
    | skip
  · refine ⟨_, rfl, Or.inr (Or.inl ⟨?_, rfl, rfl⟩)⟩
    rcases writeUInt8_cases (freshEmitter cap) (outByteCount q % 256) with ⟨_, hw⟩ | ⟨_, hw⟩
    · rw [hw] at h7; simp at h7
    · rw [hw]; simp [returnWith, emitterError]
  · rcases writeUInt8_cases (freshEmitter cap) (outByteCount q % 256) with ⟨_, hw⟩ | ⟨_, hw⟩
    · obtain ⟨r, hr, herr, hok⟩ := whileCoilQuantity_total ctx q
        { coilQuantity := q, coilCurrentAddress := s, duffBitMask := 0, duffByte := 0,
          emitter := (MBBufEmitter_WriteUInt8 (freshEmitter cap) (outByteCount q % 256)).1,
          dev := (ctx.cbValidateCoil ((s + q + 65535) % 65536) ctx.cbArg
            (ctx.cbValidateCoil s ctx.cbArg dev).dev).dev,
          calls := [CbCall.validate s (ctx.cbValidateCoil s ctx.cbArg dev).value
              (ctx.cbValidateCoil s ctx.cbArg dev).error] ++
            [CbCall.validate ((s + q + 65535) % 65536)
              (ctx.cbValidateCoil ((s + q + 65535) % 65536) ctx.cbArg
                (ctx.cbValidateCoil s ctx.cbArg dev).dev).value
              (ctx.cbValidateCoil ((s + q + 65535) % 65536) ctx.cbArg
                (ctx.cbValidateCoil s ctx.cbArg dev).dev).error] }
        (le_refl _) hq
      rw [hr]
      cases r with
      | error o => exact ⟨o, rfl, Or.inr (Or.inl (herr o rfl))⟩
      | ok s' =>
        refine ⟨_, rfl, Or.inr (Or.inr ⟨_, _, _, rfl, ?_⟩)⟩
        obtain ⟨_, _, hlt⟩ := hok s' rfl
        have hq0 : q ≠ 0 := by
          intro h0; exact h1 (Or.inl h0)
        have := hlt hq0
        rw [hw] at this
        simp [freshEmitter] at this
        omega
    · rw [hw] at h7; simp at h7

/-! ## The loop when no read fails -/

theorem readCalls_nil (a : Nat) : readCalls a [] = [] := rfl

theorem readCalls_cons (a : Nat) (v : Bool) (vs : List Bool) :
    readCalls a (v :: vs) = CbCall.read a v MB_ERROR_NONE :: readCalls (a + 1) vs := by
  simp [readCalls, List.range'_succ]

theorem readCalls_append (a : Nat) (vs ws : List Bool) :
    readCalls a (vs ++ ws) = readCalls a vs ++ readCalls (a + vs.length) ws := by
  induction vs generalizing a with
  | nil => simp [readCalls_nil]
  | cons v vs ih =>
    simp only [List.cons_append, readCalls_cons, ih, List.length_cons]
    rw [show a + 1 + vs.length = a + (vs.length + 1) by omega]

theorem readCalls_length (a : Nat) (vs : List Bool) : (readCalls a vs).length = vs.length := by
  simp [readCalls]

theorem testBit_setBit (byte k : Nat) (v : Bool) (pre : List Bool) (hpre : pre.length = k)
    (h : ∀ i, byte.testBit i = pre.getD i false) (i : Nat) :
    (if v = true then byte ||| 2 ^ k else byte).testBit i = (pre ++ [v]).getD i false := by
  rcases Nat.lt_trichotomy i k with hlt | heq | hgt
  · rw [List.getD_append _ _ _ _ (by omega)]
    cases v
    · simpa using h i
    · simp only [if_true, Nat.testBit_lor, Nat.testBit_two_pow, h i]
      have : ¬ k = i := by omega
      simp [this]
  · subst heq
    rw [List.getD_append_right _ _ _ _ (by omega)]
    have hb : byte.testBit i = false := by
      rw [h i, List.getD_eq_default _ _ (by omega)]
    cases v
    · simp [hpre, hb]
    · simp [hpre, Nat.testBit_lor, Nat.testBit_two_pow]
  · rw [List.getD_eq_default _ _ (by simp; omega)]
    have hb : byte.testBit i = false := by
      rw [h i, List.getD_eq_default _ _ (by omega)]
    cases v
    · simpa using hb
    · simp only [if_true, Nat.testBit_lor, Nat.testBit_two_pow, hb]
      have : ¬ k = i := by omega
      simp [this]

theorem duffUnit_success {α σ : Type} (ctx : MBSLAVE_READCOILS_CTX α σ) (s : Frame σ)
    (hread : (ctx.cbReadCoil s.coilCurrentAddress ctx.cbArg s.dev).error = MB_ERROR_NONE) :
    ∃ s1, MBSLAVE_RDCOILS_DUFFUNIT ctx s = .ok s1 ∧
      s1.coilQuantity = (s.coilQuantity + 65535) % 65536 ∧
      s1.coilCurrentAddress = (s.coilCurrentAddress + 1) % 65536 ∧
      s1.duffBitMask = (s.duffBitMask <<< 1) % 256 ∧
      s1.duffByte =
        (if (ctx.cbReadCoil s.coilCurrentAddress ctx.cbArg s.dev).value = true then
          s.duffByte ||| s.duffBitMask
        else s.duffByte) ∧
      s1.emitter = s.emitter ∧
      s1.calls = s.calls ++ [CbCall.read s.coilCurrentAddress
        (ctx.cbReadCoil s.coilCurrentAddress ctx.cbArg s.dev).value MB_ERROR_NONE] := by
  refine ⟨{ coilQuantity := (s.coilQuantity + 65535) % 65536,
             coilCurrentAddress := (s.coilCurrentAddress + 1) % 65536,
             duffBitMask := (s.duffBitMask <<< 1) % 256,
             duffByte :=
               if (ctx.cbReadCoil s.coilCurrentAddress ctx.cbArg s.dev).value = true then
                 s.duffByte ||| s.duffBitMask
               else s.duffByte,
             emitter := s.emitter,
             dev := (ctx.cbReadCoil s.coilCurrentAddress ctx.cbArg s.dev).dev,
             calls := s.calls ++ [CbCall.read s.coilCurrentAddress
               (ctx.cbReadCoil s.coilCurrentAddress ctx.cbArg s.dev).value MB_ERROR_NONE] },
    ?_, rfl, rfl, rfl, rfl, rfl, rfl⟩
  unfold MBSLAVE_RDCOILS_DUFFUNIT
  simp only [hread, ne_eq, not_true_eq_false, if_false]

/-- With a read callback that never reports an error, `n` units entered with
the mask on bit `k` read `n` consecutive coils and put their states in bits
`k .. k+n-1` of the byte under construction. -/
theorem duffUnits_success {α σ : Type} (ctx : MBSLAVE_READCOILS_CTX α σ)
    (hread : ∀ a d, (ctx.cbReadCoil a ctx.cbArg d).error = MB_ERROR_NONE) :
    ∀ (n : Nat) (s : Frame σ) (k : Nat) (pre : List Bool),
      s.duffBitMask = 2 ^ k % 256 → k + n ≤ 8 → pre.length = k →
      (∀ i, s.duffByte.testBit i = pre.getD i false) →
      n ≤ s.coilQuantity → s.coilQuantity < 65536 →
      s.coilCurrentAddress < 65536 → s.coilCurrentAddress + n ≤ 65536 →
      ∃ s' vs, duffUnits ctx n s = .ok s' ∧ vs.length = n ∧
        s'.coilQuantity = s.coilQuantity - n ∧
        s'.coilCurrentAddress = (s.coilCurrentAddress + n) % 65536 ∧
        s'.emitter = s.emitter ∧
        s'.calls = s.calls ++ readCalls s.coilCurrentAddress vs ∧
        (∀ i, s'.duffByte.testBit i = (pre ++ vs).getD i false) := by
  intro n
  induction n with
  | zero =>
    intro s k pre _ _ _ hbits _ _ hc _
    refine ⟨s, [], rfl, rfl, by simp, ?_, rfl, by simp [readCalls_nil], by simpa using hbits⟩
    simp only [Nat.add_zero]
    omega
  | succ n ih =>
    intro s k pre hmask hk hpre hbits hn hq hc hcur
    have hk7 : k ≤ 7 := by omega
    have hpow : 2 ^ k % 256 = 2 ^ k := by
      interval_cases k <;> rfl
    obtain ⟨s1, hs1, h1q, h1c, h1m, h1b, h1e, h1l⟩ := duffUnit_success ctx s (hread _ _)
    rw [duffUnits_succ, hs1]
    simp only [bind, Except.bind]
    have hm1 : s1.duffBitMask = 2 ^ (k + 1) % 256 := by
      rw [h1m, hmask, hpow, Nat.shiftLeft_eq, pow_succ 2 k, pow_one]
    have hb1 : ∀ i, s1.duffByte.testBit i =
        (pre ++ [(ctx.cbReadCoil s.coilCurrentAddress ctx.cbArg s.dev).value]).getD i false := by
      rw [h1b, hmask, hpow]
      exact testBit_setBit _ _ _ _ hpre hbits
    obtain ⟨s', vs, hrun, hlen, hqd, hcur', hem', hcalls', hbits'⟩ :=
      ih s1 (k + 1) (pre ++ [(ctx.cbReadCoil s.coilCurrentAddress ctx.cbArg s.dev).value])
        hm1 (by omega) (by simp [hpre]) hb1 (by omega) (by omega) (by omega) (by omega)
    refine ⟨s', (ctx.cbReadCoil s.coilCurrentAddress ctx.cbArg s.dev).value :: vs, hrun,
      by simp [hlen], by omega, by omega, by rw [hem', h1e], ?_, ?_⟩
    · rw [hcalls', h1l, readCalls_cons, List.append_assoc, List.singleton_append]
      cases vs with
      | nil => simp [readCalls_nil]
      | cons w ws =>
        have : n ≠ 0 := by
          intro h0; simp [h0] at hlen
        rw [h1c, Nat.mod_eq_of_lt (by omega)]
    · intro i
      rw [hbits' i, List.append_assoc, List.singleton_append]

/-- With a read callback that never reports an error and room for every output
byte, the loop runs to completion: it reads the coils at consecutive addresses
once each and appends one byte per group of eight, coil `8*j + i` of the run
in bit `i` of byte `j`. -/
theorem whileCoilQuantity_success {α σ : Type} (ctx : MBSLAVE_READCOILS_CTX α σ)
    (hread : ∀ a d, (ctx.cbReadCoil a ctx.cbArg d).error = MB_ERROR_NONE) :
    ∀ (fuel : Nat) (s : Frame σ), s.coilQuantity ≤ fuel → s.coilQuantity < 65536 →
      s.coilCurrentAddress < 65536 → s.coilCurrentAddress + s.coilQuantity ≤ 65536 →
      s.emitter.data.length + (s.coilQuantity + 7) / 8 ≤ s.emitter.capacity →
      ∃ s' vs bytes, whileCoilQuantity ctx fuel s = some (.ok s') ∧
        vs.length = s.coilQuantity ∧ bytes.length = (s.coilQuantity + 7) / 8 ∧
        s'.emitter.data = s.emitter.data ++ bytes ∧
        s'.emitter.stored = s.emitter.stored ++ bytes ∧
        s'.emitter.capacity = s.emitter.capacity ∧
        s'.calls = s.calls ++ readCalls s.coilCurrentAddress vs ∧
        (∀ j i, i < 8 → (bytes.getD j 0).testBit i = vs.getD (8 * j + i) false) := by
  intro fuel
  induction fuel with
  | zero =>
    intro s hf _ _ _ _
    have hq : s.coilQuantity = 0 := by omega
    refine ⟨s, [], [], whileCoilQuantity_zero ctx 0 s hq, by simp [hq], by simp [hq],
      by simp, by simp, rfl, by simp [readCalls_nil], ?_⟩
    intro j i _
    simp
  | succ fuel ih =>
    intro s hf hq16 hc hcq hcap
    by_cases hq : s.coilQuantity = 0
    · refine ⟨s, [], [], whileCoilQuantity_zero ctx _ s hq, by simp [hq], by simp [hq],
        by simp, by simp, rfl, by simp [readCalls_nil], ?_⟩
      intro j i _
      simp
    · obtain ⟨s1, vs1, hrun, hlen1, hq1, hc1, he1, hl1, hb1⟩ :=
        duffUnits_success ctx hread (min 8 s.coilQuantity)
          { s with duffByte := 0, duffBitMask := 1 } 0 [] rfl (by omega) rfl
          (by intro i; simp) (by simp) (by simpa using hq16) (by simpa using hc)
          (by simp only; omega)
      simp only [List.nil_append] at hq1 hc1 he1 hl1 hb1
      rw [whileCoilQuantity_step ctx fuel s hq hq16, hrun]
      simp only
      rcases writeUInt8_cases s1.emitter s1.duffByte with ⟨_, hw⟩ | ⟨hge, _⟩
      · rw [hw]
        simp only [ne_eq, not_true_eq_false, if_false]
        obtain ⟨s', vs2, bytes2, hrun2, hlen2, hblen2, hd2, hs2, hcap2, hl2, hb2⟩ :=
          ih { s1 with emitter :=
            { s1.emitter with data := s1.emitter.data ++ [s1.duffByte],
                              stored := s1.emitter.stored ++ [s1.duffByte] } }
            (by simp only; omega) (by simp only; omega) (by simp only; omega)
            (by simp only; omega)
            (by
              simp only [List.length_append, List.length_singleton, he1]
              omega)
        simp only at hlen2 hblen2 hd2 hs2 hcap2 hl2
        refine ⟨s', vs1 ++ vs2, s1.duffByte :: bytes2, hrun2, ?_, ?_, ?_, ?_, ?_, ?_, ?_⟩
        · simp only [List.length_append, hlen1, hlen2, hq1]; omega
        · simp only [List.length_cons, hblen2, hq1]; omega
        · rw [hd2, he1]; simp
        · rw [hs2, he1]; simp
        · rw [hcap2, he1]
        · rw [hl2, hl1, readCalls_append, List.append_assoc]
          cases vs2 with
          | nil => simp [readCalls_nil]
          | cons w ws =>
            have hpos : s1.coilQuantity ≠ 0 := by
              intro h0; simp [h0] at hlen2
            rw [hc1, hlen1, Nat.mod_eq_of_lt (by omega)]
        · intro j i hi
          cases j with
          | zero =>
            simp only [List.getD_cons_zero, Nat.mul_zero, Nat.zero_add, hb1 i]
            by_cases hin : i < vs1.length
            · rw [List.getD_append _ _ _ _ hin]
            · have hv2 : vs2 = [] := by
                apply List.eq_nil_of_length_eq_zero
                omega
              rw [hv2, List.append_nil]
          | succ j =>
            simp only [List.getD_cons_succ, hb2 j i hi]
            by_cases h8 : vs1.length = 8
            · rw [List.getD_append_right _ _ _ _ (by omega)]
              congr 1
              omega
            · have hv2 : vs2 = [] := by
                apply List.eq_nil_of_length_eq_zero
                omega
              rw [hv2, List.append_nil, List.getD_nil, List.getD_eq_default _ _ (by omega)]
      · exfalso
        rw [he1] at hge
        omega

theorem outByteCount_eq (q : Nat) (hq1 : 1 ≤ q) (hq2 : q ≤ 2000) :
    outByteCount q = (q + 7) / 8 ∧ outByteCount q % 256 = (q + 7) / 8 := by
  unfold outByteCount
  omega

/-- The success path in full: a valid request whose two end points are accepted,
served by a read callback that never reports an error into a buffer with room
for the whole response. -/
theorem serveRequest_success {α σ : Type} (f : Nat) (ctx : MBSLAVE_READCOILS_CTX α σ)
    (s q cap : Nat) (dev : σ) (hq1 : 1 ≤ q) (hq2 : q ≤ 2000) (hov : s + q - 1 ≤ 0xFFFF)
    (hv1e : (ctx.cbValidateCoil s ctx.cbArg dev).error = MB_ERROR_NONE)
    (hv1 : (ctx.cbValidateCoil s ctx.cbArg dev).value = true)
    (hv2e : (ctx.cbValidateCoil (s + q - 1) ctx.cbArg
      (ctx.cbValidateCoil s ctx.cbArg dev).dev).error = MB_ERROR_NONE)
    (hv2 : (ctx.cbValidateCoil (s + q - 1) ctx.cbArg
      (ctx.cbValidateCoil s ctx.cbArg dev).dev).value = true)
    (hread : ∀ a d, (ctx.cbReadCoil a ctx.cbArg d).error = MB_ERROR_NONE)
    (hcap : 1 + (q + 7) / 8 ≤ cap) :
    ∃ out vs bytes, serveRequest f ctx s q (freshEmitter cap) dev = some out ∧
      out.p_error = MB_ERROR_NONE ∧ out.p_response_fncode = some f ∧
      out.p_response_data_size = some (1 + (q + 7) / 8) ∧
      out.emitter.data = (q + 7) / 8 :: bytes ∧ out.emitter.stored = (q + 7) / 8 :: bytes ∧
      bytes.length = (q + 7) / 8 ∧ vs.length = q ∧
      out.calls = [CbCall.validate s true MB_ERROR_NONE,
        CbCall.validate (s + q - 1) true MB_ERROR_NONE] ++ readCalls s vs ∧
      (∀ j i, i < 8 → (bytes.getD j 0).testBit i = vs.getD (8 * j + i) false) := by
  have hend : (s + q + 65535) % 65536 = s + q - 1 := by omega
  have hq0 : ¬ (q = 0 ∨ q > 2000) := by omega
  have hlt : ¬ (s + q - 1 < s) := by omega
  obtain ⟨s', vs, bytes, hrun, hlen, hblen, hd, hst, _, hl, hb⟩ :=
    whileCoilQuantity_success ctx hread q
      { coilQuantity := q, coilCurrentAddress := s, duffBitMask := 0, duffByte := 0,
        emitter := { data := [(q + 7) / 8], capacity := cap, stored := [(q + 7) / 8] },
        dev := (ctx.cbValidateCoil (s + q - 1) ctx.cbArg
          (ctx.cbValidateCoil s ctx.cbArg dev).dev).dev,
        calls := [CbCall.validate s true MB_ERROR_NONE,
          CbCall.validate (s + q - 1) true MB_ERROR_NONE] }
      (le_refl _) (by simp only; omega) (by simp only; omega) (by simp only; omega)
      (by simp only [List.length_singleton]; omega)
  simp only at hlen hblen hd hst hl
  have hcap0 : 0 < cap := by omega
  refine ⟨MBSLAVE_RDCOILS_FINALLY f s'.emitter s'.dev s'.calls, vs, bytes, ?_, rfl, rfl, ?_,
    by rw [← List.singleton_append]; exact hd, by rw [← List.singleton_append]; exact hst,
    hblen, hlen, hl, hb⟩
  · unfold serveRequest
    simp only [hq0, if_false, hv1e, hv1, hend, hlt, hv2e, hv2, ne_eq, not_true_eq_false,
      MBBufEmitter_WriteUInt8, freshEmitter, List.length_nil, hcap0, if_true,
      (outByteCount_eq q hq1 hq2).2, List.nil_append, List.singleton_append, hrun]
  · simp only [MBSLAVE_RDCOILS_FINALLY, MBBufEmitter_GetWrittenLength, hd,
      List.length_append, List.length_singleton, hblen]

/-- Whatever the callbacks do, and however the loop ends, the writer only ever
grows: what it held when the loop was entered is still the start of what it
holds when the loop is left. -/
theorem whileCoilQuantity_appends {α σ : Type} (ctx : MBSLAVE_READCOILS_CTX α σ) :
    ∀ (fuel : Nat) (s : Frame σ) (r : Except (Outcome σ) (Frame σ)),
      s.coilQuantity < 65536 → whileCoilQuantity ctx fuel s = some r →
      (∀ o, r = .error o →
        ∃ t, o.emitter.data = s.emitter.data ++ t ∧ o.emitter.stored = s.emitter.stored ++ t) ∧
      (∀ s', r = .ok s' →
        ∃ t, s'.emitter.data = s.emitter.data ++ t ∧
          s'.emitter.stored = s.emitter.stored ++ t) := by
  intro fuel
  induction fuel with
  | zero =>
    intro s r _ h
    by_cases hq : s.coilQuantity = 0
    · rw [whileCoilQuantity_zero ctx 0 s hq] at h
      cases h
      refine ⟨fun o h => (by cases h), fun s' h => ?_⟩
      cases h
      exact ⟨[], by simp, by simp⟩
    · unfold whileCoilQuantity at h
      simp [hq] at h
  | succ fuel ih =>
    intro s r hq16 h
    by_cases hq : s.coilQuantity = 0
    · rw [whileCoilQuantity_zero ctx _ s hq] at h
      cases h
      refine ⟨fun o h => (by cases h), fun s' h => ?_⟩
      cases h
      exact ⟨[], by simp, by simp⟩
    · rw [whileCoilQuantity_step ctx fuel s hq hq16] at h
      cases hu : duffUnits ctx (min 8 s.coilQuantity) { s with duffByte := 0, duffBitMask := 1 } with
      | error o1 =>
        rw [hu] at h
        cases h
        refine ⟨fun o ho => ?_, fun s' h => by cases h⟩
        cases ho
        have he := (duffUnits_error ctx _ _ _ hu).2.2.2
        simp only at he
        exact ⟨[], by rw [he]; simp, by rw [he]; simp⟩
      | ok s1 =>
        rw [hu] at h
        obtain ⟨hq1, he1⟩ := duffUnits_ok ctx _ _ _ hu (by simp) (by simpa using hq16)
        simp only at hq1 he1 h
        rcases writeUInt8_cases s1.emitter s1.duffByte with ⟨_, hw⟩ | ⟨_, hw⟩
        · rw [hw] at h
          simp only [ne_eq, not_true_eq_false, if_false] at h
          obtain ⟨herr, hok⟩ := ih _ r (by simp only; omega) h
          simp only [he1] at herr hok
          constructor
          · intro o ho
            obtain ⟨t, h1, h2⟩ := herr o ho
            exact ⟨s1.duffByte :: t, by rw [h1]; simp, by rw [h2]; simp⟩
          · intro s' hs
            obtain ⟨t, h1, h2⟩ := hok s' hs
            exact ⟨s1.duffByte :: t, by rw [h1]; simp, by rw [h2]; simp⟩
        · rw [hw] at h
          simp only [ne_eq, reduceCtorEq, not_false_eq_true, if_true] at h
          cases h
          refine ⟨fun o ho => ?_, fun s' h => by cases h⟩
          cases ho
          simp only [returnWith, he1]
          exact ⟨[], by simp, by simp⟩

/-- Once both end points are accepted and the buffer has room for one byte, the
first byte the handler stores is the count byte `⌈q/8⌉`, however the reads and
the later writes go. -/
theorem serveRequest_first_byte {α σ : Type} (f : Nat) (ctx : MBSLAVE_READCOILS_CTX α σ)
    (s q cap : Nat) (dev : σ) (hq1 : 1 ≤ q) (hq2 : q ≤ 2000) (hov : s + q - 1 ≤ 0xFFFF)
    (hv1e : (ctx.cbValidateCoil s ctx.cbArg dev).error = MB_ERROR_NONE)
    (hv1 : (ctx.cbValidateCoil s ctx.cbArg dev).value = true)
    (hv2e : (ctx.cbValidateCoil (s + q - 1) ctx.cbArg
      (ctx.cbValidateCoil s ctx.cbArg dev).dev).error = MB_ERROR_NONE)
    (hv2 : (ctx.cbValidateCoil (s + q - 1) ctx.cbArg
      (ctx.cbValidateCoil s ctx.cbArg dev).dev).value = true)
    (hcap : 1 ≤ cap) :
    ∃ out rest, serveRequest f ctx s q (freshEmitter cap) dev = some out ∧
      out.emitter.stored = (q + 7) / 8 :: rest := by
  have hend : (s + q + 65535) % 65536 = s + q - 1 := by omega
  have hq0 : ¬ (q = 0 ∨ q > 2000) := by omega
  have hlt : ¬ (s + q - 1 < s) := by omega
  have hcap0 : 0 < cap := hcap
  obtain ⟨r, hr, _, _⟩ := whileCoilQuantity_total ctx q
    { coilQuantity := q, coilCurrentAddress := s, duffBitMask := 0, duffByte := 0,
      emitter := { data := [(q + 7) / 8], capacity := cap, stored := [(q + 7) / 8] },
      dev := (ctx.cbValidateCoil (s + q - 1) ctx.cbArg
        (ctx.cbValidateCoil s ctx.cbArg dev).dev).dev,
      calls := [CbCall.validate s true MB_ERROR_NONE,
        CbCall.validate (s + q - 1) true MB_ERROR_NONE] }
    (le_refl _) (by simp only; omega)
  obtain ⟨herr, hok⟩ := whileCoilQuantity_appends ctx q _ r (by simp only; omega) hr
  simp only at herr hok
  unfold serveRequest
  simp only [hq0, if_false, hv1e, hv1, hend, hlt, hv2e, hv2, ne_eq, not_true_eq_false,
    MBBufEmitter_WriteUInt8, freshEmitter, List.length_nil, hcap0, if_true,
    (outByteCount_eq q hq1 hq2).2, List.nil_append, List.singleton_append, hr]
  cases r with
  | error o =>
    obtain ⟨t, _, h2⟩ := herr o rfl
    exact ⟨o, t, rfl, by rw [h2]; rfl⟩
  | ok s' =>
    obtain ⟨t, _, h2⟩ := hok s' rfl
    exact ⟨_, t, rfl, by simp only [MBSLAVE_RDCOILS_FINALLY]; rw [h2]; rfl⟩

/-! ## Every call, classified -/

theorem readUInt16BE_lt (f : MB_BUFFERFETCHER) : (MBBufFetcher_ReadUInt16BE f).1.1 < 65536 := by
  unfold MBBufFetcher_ReadUInt16BE
  split
  · simp
  · simp only
    omega

theorem readUInt16BE_error (f : MB_BUFFERFETCHER) :
    (MBBufFetcher_ReadUInt16BE f).2 = MB_ERROR_NONE ∨
      (MBBufFetcher_ReadUInt16BE f).2 = MB_ERROR_BUFFETCHER_BUFFEREND := by
  unfold MBBufFetcher_ReadUInt16BE
  split
  · right; rfl
  · left; rfl

/-- Every call of the handler returns, in one of three ways: through the
exception exit (one of the two exception codes, only validity calls logged),
through an early return (an error, neither output variable written), or
through the success exit (at least two payload bytes). -/
theorem readCoils_classify {α σ : Type} (a : Args α σ) (dev : σ) :
    ∃ out, MBSlave_CmdLet_ReadCoils a dev = some out ∧
      ((∃ ec d c, (ec = MB_APUEC_ILLEGALDATAVALUE ∨ ec = MB_APUEC_ILLEGALDATAADDRESS) ∧
          (∀ x ∈ c, x.isRead = false) ∧
          out = MBSLAVE_RDCOILS_CATCH_FINALLY a.request_fncode ec
            (freshEmitter a.response_buffer_size) d c) ∨
        (out.p_error ≠ MB_ERROR_NONE ∧ out.p_response_fncode = none ∧
          out.p_response_data_size = none) ∨
        (∃ e d c, out = MBSLAVE_RDCOILS_FINALLY a.request_fncode e d c ∧ 2 ≤ e.data.length)) := by
  have early : ∀ (e : MB_ERROR) (em : MB_BUFFEREMITTER), e ≠ MB_ERROR_NONE →
      ∃ out, some (returnWith e em dev []) = some out ∧
        ((∃ ec d c, (ec = MB_APUEC_ILLEGALDATAVALUE ∨ ec = MB_APUEC_ILLEGALDATAADDRESS) ∧
            (∀ x ∈ c, x.isRead = false) ∧
            out = MBSLAVE_RDCOILS_CATCH_FINALLY a.request_fncode ec
              (freshEmitter a.response_buffer_size) d c) ∨
          (out.p_error ≠ MB_ERROR_NONE ∧ out.p_response_fncode = none ∧
            out.p_response_data_size = none) ∨
          (∃ e d c, out = MBSLAVE_RDCOILS_FINALLY a.request_fncode e d c ∧
            2 ≤ e.data.length)) :=
    fun e em he => ⟨_, rfl, Or.inr (Or.inl ⟨he, rfl, rfl⟩)⟩
  unfold MBSlave_CmdLet_ReadCoils
  simp only []
  split
  · exact early _ _ (by simp)
  split
  · exact early _ _ (by simp)
  split
  · exact early _ _ (by simp)
  split
  · exact early _ _ (by simp)
  split
  · exact early _ _ (by simp)
  rename_i ctx hctx
  split
  · rename_i h; exact absurd rfl h
  split
  · rename_i h; exact absurd rfl h
  split
  · rename_i h5
    apply early
    rcases readUInt16BE_error (MBBufFetcher_Initialize a.p_request_data a.request_data_size).1
      with h | h
    · exact absurd h h5
    · simp [fetcherError, h]
  split
  · rename_i h6
    apply early
    rcases readUInt16BE_error (MBBufFetcher_ReadUInt16BE
      (MBBufFetcher_Initialize a.p_request_data a.request_data_size).1).1.2 with h | h
    · exact absurd h h6
    · simp [fetcherError, h]
  obtain ⟨out, hout, hcls⟩ := serveRequest_classify a.request_fncode ctx
    (MBBufFetcher_ReadUInt16BE
      (MBBufFetcher_Initialize a.p_request_data a.request_data_size).1).1.1
    (MBBufFetcher_ReadUInt16BE (MBBufFetcher_ReadUInt16BE
      (MBBufFetcher_Initialize a.p_request_data a.request_data_size).1).1.2).1.1
    a.response_buffer_size dev (readUInt16BE_lt _)
  refine ⟨out, hout, ?_⟩
  rcases hcls with h | ⟨h, h', h3'⟩ | h
  · exact Or.inl h
  · refine Or.inr (Or.inl ⟨?_, h', h3'⟩)
    rcases h with h | h <;> simp [h]
  · exact Or.inr (Or.inr h)

theorem catchFinally_fresh_exception {σ : Type} (f ec cap : Nat) (dev : σ) (calls : List CbCall)
    (h : (MBSLAVE_RDCOILS_CATCH_FINALLY f ec (freshEmitter cap) dev calls).p_error =
      MB_ERROR_NONE) :
    MBSLAVE_RDCOILS_CATCH_FINALLY f ec (freshEmitter cap) dev calls =
      { p_error := MB_ERROR_NONE, p_response_fncode := some ((f + 0x80) % 256),
        p_response_data_size := some 1,
        emitter := { data := [ec], capacity := cap, stored := [ec] },
        dev := dev, calls := calls } := by
  cases cap with
  | zero =>
    rw [catchFinally_fresh_zero] at h
    simp at h
  | succ n => exact catchFinally_fresh_pos f ec (n + 1) dev calls (by omega)

theorem lor_0x80_of_lt (f : Nat) (hf : f < 0x80) : f ||| 0x80 = f + 0x80 := by
  have h : ∀ g < 0x80, g ||| 0x80 = g + 0x80 := by decide
  exact h f hf

/-! ## The claims -/

/-- C1: for a request that decodes to start address `s` and quantity `q` with
`1 ≤ q ≤ 2000` and `s + q - 1 ≤ 0xFFFF`, callbacks that never report an error
and accept `s` and `s + q - 1`, and a response capacity of at least
`1 + ⌈q/8⌉`, the payload is the count byte followed by `⌈q/8⌉` data bytes; the
read callback is invoked on `s, s+1, ..., s+q-1`, returning the states `vs`, and
bit `i` of data byte `j` is the state returned for address `s + 8*j + i` when
`8*j + i < q` and is zero otherwise. -/
theorem readCoils_packed_layout {α σ : Type} (f : Nat) (req : List Nat) (cap : Nat)
    (ctx : MBSLAVE_READCOILS_CTX α σ) (dev : σ) (s q : Nat) (hdec : DecodesTo req s q)
    (hq1 : 1 ≤ q) (hq2 : q ≤ 2000) (hov : s + q - 1 ≤ 0xFFFF)
    (hvalid : ∀ a d, (ctx.cbValidateCoil a ctx.cbArg d).error = MB_ERROR_NONE)
    (hread : ∀ a d, (ctx.cbReadCoil a ctx.cbArg d).error = MB_ERROR_NONE)
    (hstart : (ctx.cbValidateCoil s ctx.cbArg dev).value = true)
    (hend : (ctx.cbValidateCoil (s + q - 1) ctx.cbArg
      (ctx.cbValidateCoil s ctx.cbArg dev).dev).value = true)
    (hcap : 1 + (q + 7) / 8 ≤ cap) :
    ∃ out vs bytes, MBSlave_CmdLet_ReadCoils (requestCall f req cap ctx) dev = some out ∧
      out.payload = (q + 7) / 8 :: bytes ∧ bytes.length = (q + 7) / 8 ∧ vs.length = q ∧
      out.calls = [CbCall.validate s true MB_ERROR_NONE,
        CbCall.validate (s + q - 1) true MB_ERROR_NONE] ++ readCalls s vs ∧
      ∀ j i, j < (q + 7) / 8 → i < 8 →
        (bytes.getD j 0).testBit i = (if 8 * j + i < q then vs.getD (8 * j + i) false else false) := by
  obtain ⟨hlen, hs, hq⟩ := requestField_of_decodes req s q hdec
  obtain ⟨out, vs, bytes, hrun, _, _, _, hd, _, hbl, hvl, hcalls, hbits⟩ :=
    serveRequest_success f ctx s q cap dev hq1 hq2 hov (hvalid _ _) hstart (hvalid _ _) hend
      hread hcap
  refine ⟨out, vs, bytes, ?_, hd, hbl, hvl, hcalls, ?_⟩
  · rw [readCoils_eq_serveRequest f req cap ctx dev hlen, hs, hq, hrun]
  · intro j i _ hi
    rw [hbits j i hi]
    split
    · rfl
    · exact List.getD_eq_default _ _ (by omega)

/-- C1, witness: the request `00 0A 00 0D` against coils that alternate on/off
from address 10 on yields count 2 and data bytes `0x55`, `0x15`. -/
theorem readCoils_packed_layout_witness :
    (MBSlave_CmdLet_ReadCoils (requestCall 1 [0x00, 0x0A, 0x00, 0x0D] 3 (alternatingDevice 10))
        0).map Outcome.payload = some [2, 0x55, 0x15] ∧
      ∃ out vs bytes,
        MBSlave_CmdLet_ReadCoils (requestCall 1 [0x00, 0x0A, 0x00, 0x0D] 3
          (alternatingDevice 10)) 0 = some out ∧
        out.payload = (13 + 7) / 8 :: bytes ∧ bytes.length = (13 + 7) / 8 ∧ vs.length = 13 ∧
        out.calls = [CbCall.validate 10 true MB_ERROR_NONE,
          CbCall.validate (10 + 13 - 1) true MB_ERROR_NONE] ++ readCalls 10 vs ∧
        ∀ j i, j < (13 + 7) / 8 → i < 8 →
          (bytes.getD j 0).testBit i =
            (if 8 * j + i < 13 then vs.getD (8 * j + i) false else false) :=
  ⟨by decide!,
    readCoils_packed_layout 1 [0x00, 0x0A, 0x00, 0x0D] 3 (alternatingDevice 10) 0 10 13
      (by decide)
      (by decide) (by decide) (by decide) (fun _ _ => rfl) (fun _ _ => rfl) rfl rfl
      (by decide)⟩

/-- C2: for `1 ≤ q ≤ 2000` the count byte, computed in 16-bit arithmetic as
`(q - 1) / 8 + 1` and narrowed to 8 bits, is `⌈q/8⌉`, the least `c` with
`q ≤ 8 * c`; it is at most 250, so the narrowing loses nothing.  It is the
first byte the handler stores in the response buffer as soon as both end
points have been accepted and the buffer has room for it, however the reads
and the later writes go. -/
theorem outByteCount_is_ceiling (q : Nat) (hq1 : 1 ≤ q) (hq2 : q ≤ 2000) :
    outByteCount q % 256 = (q + 7) / 8 ∧ outByteCount q % 256 = outByteCount q ∧
      outByteCount q ≤ 250 ∧ q ≤ 8 * (outByteCount q % 256) ∧
      8 * (outByteCount q % 256) < q + 8 ∧
      ∀ (α σ : Type) (f : Nat) (req : List Nat) (cap : Nat) (ctx : MBSLAVE_READCOILS_CTX α σ)
        (dev : σ) (s : Nat),
        DecodesTo req s q → s + q - 1 ≤ 0xFFFF →
        (ctx.cbValidateCoil s ctx.cbArg dev).error = MB_ERROR_NONE →
        (ctx.cbValidateCoil s ctx.cbArg dev).value = true →
        (ctx.cbValidateCoil (s + q - 1) ctx.cbArg
          (ctx.cbValidateCoil s ctx.cbArg dev).dev).error = MB_ERROR_NONE →
        (ctx.cbValidateCoil (s + q - 1) ctx.cbArg
          (ctx.cbValidateCoil s ctx.cbArg dev).dev).value = true →
        1 ≤ cap →
        ∃ out rest, MBSlave_CmdLet_ReadCoils (requestCall f req cap ctx) dev = some out ∧
          out.emitter.stored = outByteCount q % 256 :: rest := by
  obtain ⟨h1, h2⟩ := outByteCount_eq q hq1 hq2
  refine ⟨h2, by omega, by omega, by omega, by omega, ?_⟩
  intro α σ f req cap ctx dev s hdec hov hv1e hv1 hv2e hv2 hcap
  obtain ⟨hlen, hs, hq⟩ := requestField_of_decodes req s q hdec
  obtain ⟨out, rest, hrun, hst⟩ :=
    serveRequest_first_byte f ctx s q cap dev hq1 hq2 hov hv1e hv1 hv2e hv2 hcap
  refine ⟨out, rest, ?_, ?_⟩
  · rw [readCoils_eq_serveRequest f req cap ctx dev hlen, hs, hq, hrun]
  · rw [hst, h2]

/-- C2, witness: quantity 2000 gives the count byte 250. -/
theorem outByteCount_is_ceiling_witness :
    outByteCount 2000 % 256 = 250 ∧
      (outByteCount 2000 % 256 = (2000 + 7) / 8 ∧ outByteCount 2000 % 256 = outByteCount 2000 ∧
        outByteCount 2000 ≤ 250 ∧ 2000 ≤ 8 * (outByteCount 2000 % 256) ∧
        8 * (outByteCount 2000 % 256) < 2000 + 8 ∧
        ∀ (α σ : Type) (f : Nat) (req : List Nat) (cap : Nat)
          (ctx : MBSLAVE_READCOILS_CTX α σ) (dev : σ) (s : Nat),
          DecodesTo req s 2000 → s + 2000 - 1 ≤ 0xFFFF →
          (ctx.cbValidateCoil s ctx.cbArg dev).error = MB_ERROR_NONE →
          (ctx.cbValidateCoil s ctx.cbArg dev).value = true →
          (ctx.cbValidateCoil (s + 2000 - 1) ctx.cbArg
            (ctx.cbValidateCoil s ctx.cbArg dev).dev).error = MB_ERROR_NONE →
          (ctx.cbValidateCoil (s + 2000 - 1) ctx.cbArg
            (ctx.cbValidateCoil s ctx.cbArg dev).dev).value = true →
          1 ≤ cap →
          ∃ out rest, MBSlave_CmdLet_ReadCoils (requestCall f req cap ctx) dev = some out ∧
            out.emitter.stored = outByteCount 2000 % 256 :: rest) :=
  ⟨by decide, outByteCount_is_ceiling 2000 (by decide) (by decide)⟩

/-- C3: for a request of at least four bytes whose decoded quantity is 0 or
greater than 2000, a response capacity of at least 1 and any callbacks
whatsoever, the handler returns `MB_ERROR_NONE` with the payload `[0x03]`
(illegal data value), and invokes no callback. -/
theorem readCoils_illegal_quantity {α σ : Type} (f : Nat) (req : List Nat) (cap : Nat)
    (ctx : MBSLAVE_READCOILS_CTX α σ) (dev : σ) (s q : Nat) (hdec : DecodesTo req s q)
    (hq : q = 0 ∨ 2000 < q) (hcap : 1 ≤ cap) :
    ∃ out, MBSlave_CmdLet_ReadCoils (requestCall f req cap ctx) dev = some out ∧
      out.p_error = MB_ERROR_NONE ∧ out.payload = [0x03] ∧ out.calls = [] := by
  obtain ⟨hlen, hs, hqd⟩ := requestField_of_decodes req s q hdec
  have hq0 : q = 0 ∨ q > 2000 := hq
  refine ⟨MBSLAVE_RDCOILS_CATCH_FINALLY f MB_APUEC_ILLEGALDATAVALUE (freshEmitter cap) dev [],
    ?_, ?_, ?_, ?_⟩
  · rw [readCoils_eq_serveRequest f req cap ctx dev hlen, hs, hqd]
    unfold serveRequest
    simp only [hq0, if_true, MBSLAVE_RDCOILS_CATCH_INVALIDVALUE]
  · rw [catchFinally_fresh_pos f _ cap dev [] hcap]
  · rw [catchFinally_fresh_pos f _ cap dev [] hcap]
    rfl
  · rw [catchFinally_fresh_pos f _ cap dev [] hcap]

/-- C3, witness: quantity `0x07D1` (2001). -/
theorem readCoils_illegal_quantity_witness :
    ∃ out, MBSlave_CmdLet_ReadCoils (requestCall 1 [0x00, 0x00, 0x07, 0xD1] 1
        (alternatingDevice 0)) 0 = some out ∧
      out.p_error = MB_ERROR_NONE ∧ out.payload = [0x03] ∧ out.calls = [] :=
  readCoils_illegal_quantity 1 [0x00, 0x00, 0x07, 0xD1] 1 (alternatingDevice 0) 0 0 0x07D1
    (by decide)
    (Or.inr (by decide)) (by decide)

/-- C4, as stated, fails: start `0xFFFF` with quantity 2001 overflows the end
address, yet the quantity check comes first and the payload is `[0x03]`. -/
theorem readCoils_overflow_counterexample :
    0xFFFF < 0xFFFF + 2001 - 1 ∧
      (MBSlave_CmdLet_ReadCoils (requestCall 1 [0xFF, 0xFF, 0x07, 0xD1] 8
          (alternatingDevice 0)) 0).map Outcome.payload = some [0x03] ∧
      (MBSlave_CmdLet_ReadCoils (requestCall 1 [0xFF, 0xFF, 0x07, 0xD1] 8
          (alternatingDevice 0)) 0).map Outcome.payload ≠ some [0x02] := by
  decide!

/-- C4, amended: for a request with `1 ≤ q ≤ 2000` whose end address
`s + q - 1` exceeds `0xFFFF`, a validity callback that reports no error for the
start address (whether it accepts it or not) and a response capacity of at
least 1, the handler returns `MB_ERROR_NONE` with the payload `[0x02]` (illegal
data address); the end address is never submitted to the callback. -/
theorem readCoils_overflow_illegal_address {α σ : Type} (f : Nat) (req : List Nat) (cap : Nat)
    (ctx : MBSLAVE_READCOILS_CTX α σ) (dev : σ) (s q : Nat) (hdec : DecodesTo req s q)
    (hq1 : 1 ≤ q) (hq2 : q ≤ 2000) (hov : 0xFFFF < s + q - 1)
    (hnoerr : (ctx.cbValidateCoil s ctx.cbArg dev).error = MB_ERROR_NONE) (hcap : 1 ≤ cap) :
    ∃ out, MBSlave_CmdLet_ReadCoils (requestCall f req cap ctx) dev = some out ∧
      out.p_error = MB_ERROR_NONE ∧ out.payload = [0x02] ∧
      out.calls = [CbCall.validate s (ctx.cbValidateCoil s ctx.cbArg dev).value
        MB_ERROR_NONE] := by
  obtain ⟨hlen, hs, hqd⟩ := requestField_of_decodes req s q hdec
  have hs16 : s < 65536 := by rw [← hs]; exact requestField_lt req 0
  have hq0 : ¬ (q = 0 ∨ q > 2000) := by omega
  have hlt : (s + q + 65535) % 65536 < s := by omega
  refine ⟨MBSLAVE_RDCOILS_CATCH_FINALLY f MB_APUEC_ILLEGALDATAADDRESS (freshEmitter cap)
    (ctx.cbValidateCoil s ctx.cbArg dev).dev
    [CbCall.validate s (ctx.cbValidateCoil s ctx.cbArg dev).value MB_ERROR_NONE], ?_, ?_, ?_, ?_⟩
  · rw [readCoils_eq_serveRequest f req cap ctx dev hlen, hs, hqd]
    unfold serveRequest
    by_cases hv : (ctx.cbValidateCoil s ctx.cbArg dev).value = true
    · simp only [hq0, if_false, hnoerr, ne_eq, not_true_eq_false, hv, hlt, if_true,
        MBSLAVE_RDCOILS_CATCH_INVALIDADDR]
    · have hv' : (ctx.cbValidateCoil s ctx.cbArg dev).value = false := by simpa using hv
      simp [hq0, hnoerr, hv', MBSLAVE_RDCOILS_CATCH_INVALIDADDR]
  · rw [catchFinally_fresh_pos f _ cap _ _ hcap]
  · rw [catchFinally_fresh_pos f _ cap _ _ hcap]
    rfl
  · rw [catchFinally_fresh_pos f _ cap _ _ hcap]

/-- C4, witness: start `0xFFFF`, quantity 2, on a device that accepts every
address. -/
theorem readCoils_overflow_illegal_address_witness :
    ∃ out, MBSlave_CmdLet_ReadCoils (requestCall 1 [0xFF, 0xFF, 0x00, 0x02] 1
        (alternatingDevice 0)) 0 = some out ∧
      out.p_error = MB_ERROR_NONE ∧ out.payload = [0x02] ∧
      out.calls = [CbCall.validate 0xFFFF
        ((alternatingDevice 0).cbValidateCoil 0xFFFF (alternatingDevice 0).cbArg 0).value
        MB_ERROR_NONE] :=
  readCoils_overflow_illegal_address 1 [0xFF, 0xFF, 0x00, 0x02] 1 (alternatingDevice 0) 0
    0xFFFF 2
    (by decide)
    (by decide) (by decide) (by decide) rfl (by decide)

/-- C5: for a request with `1 ≤ q ≤ 2000`, a response capacity of at least 1
and a validity callback that never reports an error: if the callback answers
no for the start address, or answers yes for it, `s + q - 1 ≤ 0xFFFF`, and it
answers no for the end address `s + q - 1`, then the handler returns
`MB_ERROR_NONE` with the payload `[0x02]` (illegal data address) and the
read-coil callback is never invoked. -/
theorem readCoils_rejected_address {α σ : Type} (f : Nat) (req : List Nat) (cap : Nat)
    (ctx : MBSLAVE_READCOILS_CTX α σ) (dev : σ) (s q : Nat) (hdec : DecodesTo req s q)
    (hq1 : 1 ≤ q) (hq2 : q ≤ 2000) (hcap : 1 ≤ cap)
    (hnoerr : ∀ a d, (ctx.cbValidateCoil a ctx.cbArg d).error = MB_ERROR_NONE)
    (hrej : (ctx.cbValidateCoil s ctx.cbArg dev).value = false ∨
      ((ctx.cbValidateCoil s ctx.cbArg dev).value = true ∧ s + q - 1 ≤ 0xFFFF ∧
        (ctx.cbValidateCoil (s + q - 1) ctx.cbArg
          (ctx.cbValidateCoil s ctx.cbArg dev).dev).value = false)) :
    ∃ out, MBSlave_CmdLet_ReadCoils (requestCall f req cap ctx) dev = some out ∧
      out.p_error = MB_ERROR_NONE ∧ out.payload = [0x02] ∧
      ∀ c ∈ out.calls, c.isRead = false := by
  obtain ⟨hlen, hs, hqd⟩ := requestField_of_decodes req s q hdec
  have hq0 : ¬ (q = 0 ∨ q > 2000) := by omega
  rw [readCoils_eq_serveRequest f req cap ctx dev hlen, hs, hqd]
  rcases hrej with hv | ⟨hv, hov, hv2⟩
  · refine ⟨MBSLAVE_RDCOILS_CATCH_FINALLY f MB_APUEC_ILLEGALDATAADDRESS (freshEmitter cap)
      (ctx.cbValidateCoil s ctx.cbArg dev).dev
      [CbCall.validate s false MB_ERROR_NONE], ?_, ?_, ?_, ?_⟩
    · unfold serveRequest
      simp [hq0, hnoerr, hv, MBSLAVE_RDCOILS_CATCH_INVALIDADDR]
    · rw [catchFinally_fresh_pos f _ cap _ _ hcap]
    · rw [catchFinally_fresh_pos f _ cap _ _ hcap]
      rfl
    · rw [catchFinally_fresh_pos f _ cap _ _ hcap]
      simp [CbCall.isRead]
  · have hend : (s + q + 65535) % 65536 = s + q - 1 := by omega
    have hlt : ¬ (s + q - 1 < s) := by omega
    refine ⟨MBSLAVE_RDCOILS_CATCH_FINALLY f MB_APUEC_ILLEGALDATAADDRESS (freshEmitter cap)
      (ctx.cbValidateCoil (s + q - 1) ctx.cbArg (ctx.cbValidateCoil s ctx.cbArg dev).dev).dev
      [CbCall.validate s true MB_ERROR_NONE, CbCall.validate (s + q - 1) false MB_ERROR_NONE],
      ?_, ?_, ?_, ?_⟩
    · unfold serveRequest
      simp [hq0, hnoerr, hv, hend, hlt, hv2, MBSLAVE_RDCOILS_CATCH_INVALIDADDR]
    · rw [catchFinally_fresh_pos f _ cap _ _ hcap]
    · rw [catchFinally_fresh_pos f _ cap _ _ hcap]
      rfl
    · rw [catchFinally_fresh_pos f _ cap _ _ hcap]
      simp [CbCall.isRead]

/-- C5, witness: start 10, quantity 13 on a device whose valid addresses are
`0 .. 15`: the start is accepted, the end address 22 is not. -/
theorem readCoils_rejected_address_witness :
    ∃ out, MBSlave_CmdLet_ReadCoils (requestCall 1 [0x00, 0x0A, 0x00, 0x0D] 1
        (rangeDevice 0 15)) 0 = some out ∧
      out.p_error = MB_ERROR_NONE ∧ out.payload = [0x02] ∧
      ∀ c ∈ out.calls, c.isRead = false :=
  readCoils_rejected_address 1 [0x00, 0x0A, 0x00, 0x0D] 1 (rangeDevice 0 15) 0 10 13
    (by decide)
    (by decide) (by decide) (by decide) (fun _ _ => rfl)
    (Or.inr ⟨by decide, by decide, by decide⟩)

/-- C6, as stated, fails: for the request function code `0x81` an exception
response reports the function code `0x01`, not `0x81 | 0x80 = 0x81`. -/
theorem readCoils_exception_fncode_counterexample :
    (MBSlave_CmdLet_ReadCoils (requestCall 0x81 [0x00, 0x00, 0x00, 0x00] 1
        (alternatingDevice 0)) 0).map
        (fun o => (o.p_error, o.payload, o.p_response_fncode)) =
      some (MB_ERROR_NONE, [0x03], some 0x01) ∧ (0x81 ||| 0x80) = 0x81 := by
  decide!

/-- C6, amended: on every call that ends in an exception response the reported
response function code is the request function code plus `0x80` modulo 256,
which is the request function code with bit `0x80` set whenever that code is
below `0x80`; on every call that ends successfully without an exception
response it is the request function code unchanged. -/
theorem readCoils_response_fncode {α σ : Type} (a : Args α σ) (dev : σ) :
    ∃ out, MBSlave_CmdLet_ReadCoils a dev = some out ∧
      (out.isException →
        out.p_response_fncode = some ((a.request_fncode + 0x80) % 256) ∧
        (a.request_fncode < 0x80 →
          out.p_response_fncode = some (a.request_fncode ||| 0x80))) ∧
      (out.p_error = MB_ERROR_NONE → ¬ out.isException →
        out.p_response_fncode = some a.request_fncode) := by
  obtain ⟨out, hrun, hcls⟩ := readCoils_classify a dev
  refine ⟨out, hrun, ?_, ?_⟩
  · intro hex
    have key : out.p_response_fncode = some ((a.request_fncode + 0x80) % 256) := by
      rcases hcls with ⟨ec, d, c, _, _, rfl⟩ | ⟨hne, _, _⟩ | ⟨e, d, c, rfl, hlen⟩
      · rw [catchFinally_fresh_exception _ _ _ _ _ hex.1]
      · exact absurd hex.1 hne
      · obtain ⟨_, hp | hp⟩ := hex <;>
          · simp only [Outcome.payload, MBSLAVE_RDCOILS_FINALLY] at hp
            rw [hp] at hlen
            simp at hlen
    refine ⟨key, fun hf => ?_⟩
    rw [key, lor_0x80_of_lt _ hf, Nat.mod_eq_of_lt (by omega)]
  · intro hnone hnex
    rcases hcls with ⟨ec, d, c, hec, _, rfl⟩ | ⟨hne, _, _⟩ | ⟨e, d, c, rfl, _⟩
    · exfalso
      apply hnex
      refine ⟨hnone, ?_⟩
      rw [catchFinally_fresh_exception _ _ _ _ _ hnone]
      rcases hec with rfl | rfl
      · left; rfl
      · right; rfl
    · exact absurd hnone hne
    · rfl

/-- C7: for a valid request (`1 ≤ q ≤ 2000`, no end-address overflow, both end
points accepted, no callback error) served with sufficient response capacity,
the handler returns `MB_ERROR_NONE` and reports the result length
`1 + ⌈q/8⌉`, which is the number of bytes stored in the response buffer: the
count byte `⌈q/8⌉` followed by that many data bytes. -/
theorem readCoils_success_length {α σ : Type} (f : Nat) (req : List Nat) (cap : Nat)
    (ctx : MBSLAVE_READCOILS_CTX α σ) (dev : σ) (s q : Nat) (hdec : DecodesTo req s q)
    (hq1 : 1 ≤ q) (hq2 : q ≤ 2000) (hov : s + q - 1 ≤ 0xFFFF)
    (hvalid : ∀ a d, (ctx.cbValidateCoil a ctx.cbArg d).error = MB_ERROR_NONE)
    (hread : ∀ a d, (ctx.cbReadCoil a ctx.cbArg d).error = MB_ERROR_NONE)
    (hstart : (ctx.cbValidateCoil s ctx.cbArg dev).value = true)
    (hend : (ctx.cbValidateCoil (s + q - 1) ctx.cbArg
      (ctx.cbValidateCoil s ctx.cbArg dev).dev).value = true)
    (hcap : 1 + (q + 7) / 8 ≤ cap) :
    ∃ out bytes, MBSlave_CmdLet_ReadCoils (requestCall f req cap ctx) dev = some out ∧
      out.p_error = MB_ERROR_NONE ∧
      out.p_response_data_size = some (1 + (q + 7) / 8) ∧
      out.emitter.stored.length = 1 + (q + 7) / 8 ∧
      out.payload = (q + 7) / 8 :: bytes ∧ bytes.length = (q + 7) / 8 := by
  obtain ⟨hlen, hs, hq⟩ := requestField_of_decodes req s q hdec
  obtain ⟨out, vs, bytes, hrun, herr, _, hsize, hd, hst, hbl, _, _, _⟩ :=
    serveRequest_success f ctx s q cap dev hq1 hq2 hov (hvalid _ _) hstart (hvalid _ _) hend
      hread hcap
  refine ⟨out, bytes, ?_, herr, hsize, ?_, hd, hbl⟩
  · rw [readCoils_eq_serveRequest f req cap ctx dev hlen, hs, hq, hrun]
  · rw [hst, List.length_cons, hbl]
    omega

/-- C7, witness: 16 coils from address 0 give the count byte 2, two data bytes
and the reported length 3. -/
theorem readCoils_success_length_witness :
    ∃ out bytes, MBSlave_CmdLet_ReadCoils (requestCall 1 [0x00, 0x00, 0x00, 0x10] 3
        (alternatingDevice 0)) 0 = some out ∧
      out.p_error = MB_ERROR_NONE ∧
      out.p_response_data_size = some (1 + (16 + 7) / 8) ∧
      out.emitter.stored.length = 1 + (16 + 7) / 8 ∧
      out.payload = (16 + 7) / 8 :: bytes ∧ bytes.length = (16 + 7) / 8 :=
  readCoils_success_length 1 [0x00, 0x00, 0x00, 0x10] 3 (alternatingDevice 0) 0 0 16
    (by decide)
    (by decide) (by decide) (by decide) (fun _ _ => rfl) (fun _ _ => rfl) rfl rfl
    (by decide)

/-- C8, as stated, fails: an exception response reports the result length 1,
not 2. -/
theorem readCoils_exception_length_counterexample :
    (MBSlave_CmdLet_ReadCoils (requestCall 0x01 [0x00, 0x00, 0x07, 0xD1] 8
        (alternatingDevice 0)) 0).map
        (fun o => (o.p_error, o.payload, o.p_response_data_size)) =
      some (MB_ERROR_NONE, [0x03], some 1) := by
  decide!

/-- C8, amended: on every call that ends in an exception response the reported
result length is 1, the number of payload bytes (the exception code alone; the
response function code is reported separately). -/
theorem readCoils_exception_length {α σ : Type} (a : Args α σ) (dev : σ) :
    ∃ out, MBSlave_CmdLet_ReadCoils a dev = some out ∧
      (out.isException →
        out.p_response_data_size = some 1 ∧ out.payload.length = 1) := by
  obtain ⟨out, hrun, hcls⟩ := readCoils_classify a dev
  refine ⟨out, hrun, ?_⟩
  intro hex
  rcases hcls with ⟨ec, d, c, _, _, rfl⟩ | ⟨hne, _, _⟩ | ⟨e, d, c, rfl, hlen⟩
  · rw [catchFinally_fresh_exception _ _ _ _ _ hex.1]
    exact ⟨rfl, rfl⟩
  · exact absurd hex.1 hne
  · obtain ⟨_, hp | hp⟩ := hex <;>
      · simp only [Outcome.payload, MBSLAVE_RDCOILS_FINALLY] at hp
        rw [hp] at hlen
        simp at hlen

/-- C9: a call with a request payload shorter than 4 bytes ends with
`MB_ERROR_SLAVE_REQUESTTRUNCATED` whatever the payload's contents, the
response capacity and the callbacks, and a call with a payload of 4 or more
bytes never ends with that error. -/
theorem readCoils_request_truncated {α σ : Type} (f : Nat) (req : List Nat) (cap : Nat)
    (ctx : MBSLAVE_READCOILS_CTX α σ) (dev : σ) :
    ∃ out, MBSlave_CmdLet_ReadCoils (requestCall f req cap ctx) dev = some out ∧
      (req.length < 4 → out.p_error = MB_ERROR_SLAVE_REQUESTTRUNCATED) ∧
      (4 ≤ req.length → out.p_error ≠ MB_ERROR_SLAVE_REQUESTTRUNCATED) := by
  by_cases hlen : req.length < 4
  · refine ⟨_, readCoils_truncated f req cap ctx dev hlen, fun _ => rfl, fun h => ?_⟩
    omega
  · have h4 : 4 ≤ req.length := by omega
    obtain ⟨out, hrun, hcls⟩ := serveRequest_classify f ctx (requestField req 0)
      (requestField req 2) cap dev (requestField_lt req 2)
    refine ⟨out, ?_, fun h => absurd h hlen, fun _ => ?_⟩
    · rw [readCoils_eq_serveRequest f req cap ctx dev h4, hrun]
    · rcases hcls with ⟨ec, d, c, _, _, rfl⟩ | ⟨h | h, _, _⟩ | ⟨e, d, c, rfl, _⟩
      · cases cap with
        | zero => rw [catchFinally_fresh_zero]; simp
        | succ n => rw [catchFinally_fresh_pos _ _ _ _ _ (by omega)]; simp
      · rw [h]; simp
      · rw [h]; simp
      · simp [MBSLAVE_RDCOILS_FINALLY, MBBufEmitter_GetWrittenLength]

/-- C10: extra request bytes are ignored.  For a payload `b0 b1 b2 b3` followed
by any further bytes, the complete outcome (error, response function code,
response bytes, reported length, device state and callback log) is that for the
payload cut to its first four bytes, and it is the outcome of serving start
address `256*b0 + b1` and quantity `256*b2 + b3`. -/
theorem readCoils_extra_bytes_ignored {α σ : Type} (f : Nat) (b0 b1 b2 b3 : Nat)
    (rest : List Nat) (cap : Nat) (ctx : MBSLAVE_READCOILS_CTX α σ) (dev : σ)
    (h0 : b0 < 256) (h1 : b1 < 256) (h2 : b2 < 256) (h3 : b3 < 256) :
    MBSlave_CmdLet_ReadCoils (requestCall f (b0 :: b1 :: b2 :: b3 :: rest) cap ctx) dev =
        MBSlave_CmdLet_ReadCoils (requestCall f [b0, b1, b2, b3] cap ctx) dev ∧
      MBSlave_CmdLet_ReadCoils (requestCall f (b0 :: b1 :: b2 :: b3 :: rest) cap ctx) dev =
        serveRequest f ctx (256 * b0 + b1) (256 * b2 + b3) (freshEmitter cap) dev := by
  have hd : DecodesTo (b0 :: b1 :: b2 :: b3 :: rest) (256 * b0 + b1) (256 * b2 + b3) :=
    ⟨by simp, h0, h1, h2, h3, rfl, rfl⟩
  have hdd : DecodesTo [b0, b1, b2, b3] (256 * b0 + b1) (256 * b2 + b3) :=
    ⟨by simp, h0, h1, h2, h3, rfl, rfl⟩
  obtain ⟨hl, hs, hq⟩ := requestField_of_decodes _ _ _ hd
  obtain ⟨hld, hsd, hqd⟩ := requestField_of_decodes _ _ _ hdd
  rw [readCoils_eq_serveRequest f _ cap ctx dev hl, readCoils_eq_serveRequest f _ cap ctx dev hld,
    hs, hq, hsd, hqd]
  exact ⟨rfl, rfl⟩

/-- C10, witness: the request `00 0A 00 0D` followed by three stray bytes. -/
theorem readCoils_extra_bytes_ignored_witness :
    MBSlave_CmdLet_ReadCoils
        (requestCall 1 (0x00 :: 0x0A :: 0x00 :: 0x0D :: [0xDE, 0xAD, 0xFF]) 3
          (alternatingDevice 10)) 0 =
        MBSlave_CmdLet_ReadCoils (requestCall 1 [0x00, 0x0A, 0x00, 0x0D] 3
          (alternatingDevice 10)) 0 ∧
      MBSlave_CmdLet_ReadCoils
        (requestCall 1 (0x00 :: 0x0A :: 0x00 :: 0x0D :: [0xDE, 0xAD, 0xFF]) 3
          (alternatingDevice 10)) 0 =
        serveRequest 1 (alternatingDevice 10) (256 * 0x00 + 0x0A) (256 * 0x00 + 0x0D)
          (freshEmitter 3) 0 :=
  readCoils_extra_bytes_ignored 1 0x00 0x0A 0x00 0x0D [0xDE, 0xAD, 0xFF] 3
    (alternatingDevice 10) 0 (by decide) (by decide) (by decide) (by decide)

/-! ## The callback log, for arbitrary callbacks -/

theorem duffUnit_cases {α σ : Type} (ctx : MBSLAVE_READCOILS_CTX α σ) (s : Frame σ) :
    (∃ s1 v, MBSLAVE_RDCOILS_DUFFUNIT ctx s = .ok s1 ∧
        s1.calls = s.calls ++ [CbCall.read s.coilCurrentAddress v MB_ERROR_NONE] ∧
        s1.emitter = s.emitter ∧ s1.coilQuantity = (s.coilQuantity + 65535) % 65536 ∧
        s1.coilCurrentAddress = (s.coilCurrentAddress + 1) % 65536) ∨
      (∃ o v e, MBSLAVE_RDCOILS_DUFFUNIT ctx s = .error o ∧ e ≠ MB_ERROR_NONE ∧
        o.p_error = MB_ERROR_SLAVE_CALLBACKFAILED ∧ o.p_response_fncode = none ∧
        o.p_response_data_size = none ∧ o.emitter = s.emitter ∧
        o.calls = s.calls ++ [CbCall.read s.coilCurrentAddress v e]) := by
  by_cases he : (ctx.cbReadCoil s.coilCurrentAddress ctx.cbArg s.dev).error = MB_ERROR_NONE
  · left
    obtain ⟨s1, h, hq, hc, _, _, hem, hl⟩ := duffUnit_success ctx s he
    exact ⟨s1, _, h, hl, hem, hq, hc⟩
  · right
    refine ⟨returnWith MB_ERROR_SLAVE_CALLBACKFAILED s.emitter
      (ctx.cbReadCoil s.coilCurrentAddress ctx.cbArg s.dev).dev
      (s.calls ++ [CbCall.read s.coilCurrentAddress
        (ctx.cbReadCoil s.coilCurrentAddress ctx.cbArg s.dev).value
        (ctx.cbReadCoil s.coilCurrentAddress ctx.cbArg s.dev).error]), _, _, ?_, he,
      rfl, rfl, rfl, rfl, rfl⟩
    unfold MBSLAVE_RDCOILS_DUFFUNIT
    simp only [ne_eq, he, not_false_eq_true, if_true]

/-- What `n` units leave in the log: if all of them complete, `n` error-free
read entries; if one returns, read entries of which one carries an error. -/
theorem duffUnits_calls {α σ : Type} (ctx : MBSLAVE_READCOILS_CTX α σ) :
    ∀ (n : Nat) (s : Frame σ),
      (∃ s' L, duffUnits ctx n s = .ok s' ∧ s'.calls = s.calls ++ L ∧ L.length = n ∧
          (∀ c ∈ L, c.isRead = true ∧ c.error = MB_ERROR_NONE) ∧ s'.emitter = s.emitter) ∨
        (∃ o L, duffUnits ctx n s = .error o ∧ o.calls = s.calls ++ L ∧
          (∀ c ∈ L, c.isRead = true) ∧ (∃ c ∈ L, c.error ≠ MB_ERROR_NONE) ∧
          o.p_error = MB_ERROR_SLAVE_CALLBACKFAILED ∧ o.p_response_fncode = none ∧
          o.p_response_data_size = none ∧ o.emitter = s.emitter) := by
  intro n
  induction n with
  | zero =>
    intro s
    exact Or.inl ⟨s, [], rfl, by simp, rfl, by simp, rfl⟩
  | succ n ih =>
    intro s
    rcases duffUnit_cases ctx s with ⟨s1, v, h1, hl1, he1, _, _⟩ | ⟨o, v, e, h1, hne, hp, hf, hd, hem, hl⟩
    · rw [duffUnits_succ, h1]
      simp only [bind, Except.bind]
      rcases ih s1 with ⟨s', L, h2, hl2, hlen, hall, he2⟩ | ⟨o, L, h2, hl2, hall, hex, hp, hf, hd, hem⟩
      · refine Or.inl ⟨s', CbCall.read s.coilCurrentAddress v MB_ERROR_NONE :: L, h2, ?_, ?_, ?_, ?_⟩
        · rw [hl2, hl1]; simp
        · simp [hlen]
        · intro c hc
          rcases List.mem_cons.1 hc with rfl | hc
          · exact ⟨rfl, rfl⟩
          · exact hall c hc
        · rw [he2, he1]
      · refine Or.inr ⟨o, CbCall.read s.coilCurrentAddress v MB_ERROR_NONE :: L, h2, ?_, ?_, ?_,
          hp, hf, hd, by rw [hem, he1]⟩
        · rw [hl2, hl1]; simp
        · intro c hc
          rcases List.mem_cons.1 hc with rfl | hc
          · rfl
          · exact hall c hc
        · obtain ⟨c, hc, hce⟩ := hex
          exact ⟨c, List.mem_cons_of_mem _ hc, hce⟩
    · rw [duffUnits_succ, h1]
      simp only [bind, Except.bind]
      refine Or.inr ⟨o, [CbCall.read s.coilCurrentAddress v e], rfl, hl, ?_, ?_, hp, hf, hd, hem⟩
      · intro c hc
        rw [List.mem_singleton.1 hc]; rfl
      · exact ⟨_, List.mem_singleton.2 rfl, hne⟩

/-- What the loop leaves in the log, however it ends: only read entries are
added; they are all error-free unless the loop returned with
`MB_ERROR_SLAVE_CALLBACKFAILED`, in which case one of them carries an error.
An early return leaves both output variables unwritten. -/
theorem whileCoilQuantity_calls {α σ : Type} (ctx : MBSLAVE_READCOILS_CTX α σ) :
    ∀ (fuel : Nat) (s : Frame σ) (r : Except (Outcome σ) (Frame σ)),
      s.coilQuantity < 65536 → whileCoilQuantity ctx fuel s = some r →
      (∀ s', r = .ok s' →
        ∃ L, s'.calls = s.calls ++ L ∧ ∀ c ∈ L, c.isRead = true ∧ c.error = MB_ERROR_NONE) ∧
      (∀ o, r = .error o →
        o.p_response_fncode = none ∧ o.p_response_data_size = none ∧
        ∃ L, o.calls = s.calls ++ L ∧ (∀ c ∈ L, c.isRead = true) ∧
          ((o.p_error = MB_ERROR_SLAVE_RESPONSETRUNCATED ∧ ∀ c ∈ L, c.error = MB_ERROR_NONE) ∨
            (o.p_error = MB_ERROR_SLAVE_CALLBACKFAILED ∧ ∃ c ∈ L, c.error ≠ MB_ERROR_NONE))) := by
  intro fuel
  induction fuel with
  | zero =>
    intro s r _ h
    by_cases hq : s.coilQuantity = 0
    · rw [whileCoilQuantity_zero ctx 0 s hq] at h
      cases h
      refine ⟨fun s' h => ?_, fun o h => (by cases h)⟩
      cases h
      exact ⟨[], by simp, by simp⟩
    · unfold whileCoilQuantity at h
      simp [hq] at h
  | succ fuel ih =>
    intro s r hq16 h
    by_cases hq : s.coilQuantity = 0
    · rw [whileCoilQuantity_zero ctx _ s hq] at h
      cases h
      refine ⟨fun s' h => ?_, fun o h => (by cases h)⟩
      cases h
      exact ⟨[], by simp, by simp⟩
    · rw [whileCoilQuantity_step ctx fuel s hq hq16] at h
      rcases duffUnits_calls ctx (min 8 s.coilQuantity) { s with duffByte := 0, duffBitMask := 1 }
        with ⟨s1, L, hu, hl1, _, hall1, he1⟩ | ⟨o1, L, hu, hl1, hall1, hex1, hp1, hf1, hd1, _⟩
      · rw [hu] at h
        obtain ⟨hq1, _⟩ := duffUnits_ok ctx _ _ _ hu (by simp) (by simpa using hq16)
        simp only at hq1 hl1 h
        rcases writeUInt8_cases s1.emitter s1.duffByte with ⟨_, hw⟩ | ⟨_, hw⟩
        · rw [hw] at h
          simp only [ne_eq, not_true_eq_false, if_false] at h
          obtain ⟨hok, herr⟩ := ih _ r (by simp only; omega) h
          simp only [hl1] at hok herr
          constructor
          · intro s' hs
            obtain ⟨L2, h2, hall2⟩ := hok s' hs
            refine ⟨L ++ L2, by rw [h2, List.append_assoc], ?_⟩
            intro c hc
            rcases List.mem_append.1 hc with hc | hc
            · exact hall1 c hc
            · exact hall2 c hc
          · intro o ho
            obtain ⟨hf, hd, L2, h2, hall2, hcase⟩ := herr o ho
            refine ⟨hf, hd, L ++ L2, by rw [h2, List.append_assoc], ?_, ?_⟩
            · intro c hc
              rcases List.mem_append.1 hc with hc | hc
              · exact (hall1 c hc).1
              · exact hall2 c hc
            · rcases hcase with ⟨hp, hn⟩ | ⟨hp, c, hc, hce⟩
              · refine Or.inl ⟨hp, ?_⟩
                intro c hc
                rcases List.mem_append.1 hc with hc | hc
                · exact (hall1 c hc).2
                · exact hn c hc
              · exact Or.inr ⟨hp, c, List.mem_append_right _ hc, hce⟩
        · rw [hw] at h
          simp only [ne_eq, reduceCtorEq, not_false_eq_true, if_true] at h
          cases h
          refine ⟨fun s' h => (by cases h), fun o ho => ?_⟩
          cases ho
          refine ⟨rfl, rfl, L, hl1, fun c hc => (hall1 c hc).1, Or.inl ⟨?_, fun c hc => (hall1 c hc).2⟩⟩
          simp [returnWith, emitterError]
      · rw [hu] at h
        cases h
        refine ⟨fun s' h => (by cases h), fun o ho => ?_⟩
        cases ho
        simp only at hl1
        exact ⟨hf1, hd1, L, hl1, hall1, Or.inr ⟨hp1, hex1⟩⟩

/-! ## The paths through the handler -/

/-- The handler after decoding, path by path, for arbitrary callbacks: which
conditions on the request and on the callbacks' answers lead to which exit,
with which log. -/
theorem serveRequest_paths {α σ : Type} (f : Nat) (ctx : MBSLAVE_READCOILS_CTX α σ)
    (s q cap : Nat) (dev : σ) (hs16 : s < 65536) :
    ∃ out, serveRequest f ctx s q (freshEmitter cap) dev = some out ∧
      (((q = 0 ∨ 2000 < q) ∧
          out = MBSLAVE_RDCOILS_CATCH_FINALLY f MB_APUEC_ILLEGALDATAVALUE (freshEmitter cap)
            dev []) ∨
        (1 ≤ q ∧ q ≤ 2000 ∧ (startCheck ctx s dev).error ≠ MB_ERROR_NONE ∧
          out = returnWith MB_ERROR_SLAVE_CALLBACKFAILED (freshEmitter cap)
            (startCheck ctx s dev).dev
            [CbCall.validate s (startCheck ctx s dev).value (startCheck ctx s dev).error]) ∨
        (1 ≤ q ∧ q ≤ 2000 ∧ (startCheck ctx s dev).error = MB_ERROR_NONE ∧
          (startCheck ctx s dev).value = false ∧
          out = MBSLAVE_RDCOILS_CATCH_FINALLY f MB_APUEC_ILLEGALDATAADDRESS (freshEmitter cap)
            (startCheck ctx s dev).dev [CbCall.validate s false MB_ERROR_NONE]) ∨
        (1 ≤ q ∧ q ≤ 2000 ∧ (startCheck ctx s dev).error = MB_ERROR_NONE ∧
          (startCheck ctx s dev).value = true ∧ 0xFFFF < s + q - 1 ∧
          out = MBSLAVE_RDCOILS_CATCH_FINALLY f MB_APUEC_ILLEGALDATAADDRESS (freshEmitter cap)
            (startCheck ctx s dev).dev [CbCall.validate s true MB_ERROR_NONE]) ∨
        (1 ≤ q ∧ q ≤ 2000 ∧ (startCheck ctx s dev).error = MB_ERROR_NONE ∧
          (startCheck ctx s dev).value = true ∧ s + q - 1 ≤ 0xFFFF ∧
          (endCheck ctx s q dev).error ≠ MB_ERROR_NONE ∧
          out = returnWith MB_ERROR_SLAVE_CALLBACKFAILED (freshEmitter cap)
            (endCheck ctx s q dev).dev
            [CbCall.validate s true MB_ERROR_NONE,
              CbCall.validate (s + q - 1) (endCheck ctx s q dev).value
                (endCheck ctx s q dev).error]) ∨
        (1 ≤ q ∧ q ≤ 2000 ∧ (startCheck ctx s dev).error = MB_ERROR_NONE ∧
          (startCheck ctx s dev).value = true ∧ s + q - 1 ≤ 0xFFFF ∧
          (endCheck ctx s q dev).error = MB_ERROR_NONE ∧ (endCheck ctx s q dev).value = false ∧
          out = MBSLAVE_RDCOILS_CATCH_FINALLY f MB_APUEC_ILLEGALDATAADDRESS (freshEmitter cap)
            (endCheck ctx s q dev).dev
            [CbCall.validate s true MB_ERROR_NONE,
              CbCall.validate (s + q - 1) false MB_ERROR_NONE]) ∨
        (1 ≤ q ∧ q ≤ 2000 ∧ (startCheck ctx s dev).error = MB_ERROR_NONE ∧
          (startCheck ctx s dev).value = true ∧ s + q - 1 ≤ 0xFFFF ∧
          (endCheck ctx s q dev).error = MB_ERROR_NONE ∧ (endCheck ctx s q dev).value = true ∧
          cap = 0 ∧
          out = returnWith MB_ERROR_SLAVE_RESPONSETRUNCATED (freshEmitter cap)
            (endCheck ctx s q dev).dev
            [CbCall.validate s true MB_ERROR_NONE,
              CbCall.validate (s + q - 1) true MB_ERROR_NONE]) ∨
        (1 ≤ q ∧ q ≤ 2000 ∧ (startCheck ctx s dev).error = MB_ERROR_NONE ∧
          (startCheck ctx s dev).value = true ∧ s + q - 1 ≤ 0xFFFF ∧
          (endCheck ctx s q dev).error = MB_ERROR_NONE ∧ (endCheck ctx s q dev).value = true ∧
          1 ≤ cap ∧
          ∃ r, whileCoilQuantity ctx q
              (loopEntry s q cap ((q + 7) / 8) (endCheck ctx s q dev).dev
                [CbCall.validate s true MB_ERROR_NONE,
                  CbCall.validate (s + q - 1) true MB_ERROR_NONE]) = some r ∧
            ((∃ o, r = .error o ∧ out = o) ∨
              (∃ s', r = .ok s' ∧
                out = MBSLAVE_RDCOILS_FINALLY f s'.emitter s'.dev s'.calls)))) := by
  unfold serveRequest endCheck startCheck
  simp only []
  split
  · rename_i h
    exact ⟨_, rfl, Or.inl ⟨h, rfl⟩⟩
  rename_i hq
  have hq1 : 1 ≤ q := by omega
  have hq2 : q ≤ 2000 := by omega
  split
  · rename_i h
    exact ⟨_, rfl, Or.inr (Or.inl ⟨hq1, hq2, h, rfl⟩)⟩
  rename_i he1
  have he1 : (ctx.cbValidateCoil s ctx.cbArg dev).error = MB_ERROR_NONE := by
    simpa using he1
  split
  · rename_i h
    have hv : (ctx.cbValidateCoil s ctx.cbArg dev).value = false := by simpa using h
    refine ⟨_, rfl, Or.inr (Or.inr (Or.inl ⟨hq1, hq2, he1, hv, ?_⟩))⟩
    rw [MBSLAVE_RDCOILS_CATCH_INVALIDADDR, hv, he1]
  rename_i hv1
  have hv1 : (ctx.cbValidateCoil s ctx.cbArg dev).value = true := by simpa using hv1
  split
  · rename_i h
    refine ⟨_, rfl, Or.inr (Or.inr (Or.inr (Or.inl ⟨hq1, hq2, he1, hv1, by omega, ?_⟩)))⟩
    rw [MBSLAVE_RDCOILS_CATCH_INVALIDADDR, hv1, he1]
  rename_i hov
  have hend : (s + q + 65535) % 65536 = s + q - 1 := by omega
  have hov : s + q - 1 ≤ 0xFFFF := by omega
  rw [hend]
  split
  · rename_i h
    refine ⟨_, rfl, Or.inr (Or.inr (Or.inr (Or.inr (Or.inl ⟨hq1, hq2, he1, hv1, hov, h, ?_⟩))))⟩
    rw [hv1, he1]; rfl
  rename_i he2
  have he2 : (ctx.cbValidateCoil (s + q - 1) ctx.cbArg
      (ctx.cbValidateCoil s ctx.cbArg dev).dev).error = MB_ERROR_NONE := by
    simpa using he2
  split
  · rename_i h
    have hv : (ctx.cbValidateCoil (s + q - 1) ctx.cbArg
        (ctx.cbValidateCoil s ctx.cbArg dev).dev).value = false := by simpa using h
    refine ⟨_, rfl, Or.inr (Or.inr (Or.inr (Or.inr (Or.inr (Or.inl
      ⟨hq1, hq2, he1, hv1, hov, he2, hv, ?_⟩)))))⟩
    rw [MBSLAVE_RDCOILS_CATCH_INVALIDADDR, hv1, he1, hv, he2]; rfl
  rename_i hv2
  have hv2 : (ctx.cbValidateCoil (s + q - 1) ctx.cbArg
      (ctx.cbValidateCoil s ctx.cbArg dev).dev).value = true := by simpa using hv2
  rw [(outByteCount_eq q hq1 hq2).2, hv1, he1, hv2, he2]
  rcases writeUInt8_cases (freshEmitter cap) ((q + 7) / 8) with ⟨hlt, hw⟩ | ⟨hge, hw⟩
  · have hcap : 1 ≤ cap := by simpa [freshEmitter] using hlt
    rw [hw]
    simp only [ne_eq, not_true_eq_false, if_false]
    obtain ⟨r, hr, _, _⟩ := whileCoilQuantity_total ctx q
      (loopEntry s q cap ((q + 7) / 8)
        (ctx.cbValidateCoil (s + q - 1) ctx.cbArg (ctx.cbValidateCoil s ctx.cbArg dev).dev).dev
        [CbCall.validate s true MB_ERROR_NONE, CbCall.validate (s + q - 1) true MB_ERROR_NONE])
      (le_refl _) (by simp only [loopEntry]; omega)
    have hr2 := hr
    simp only [loopEntry] at hr2
    simp only [freshEmitter, List.nil_append, List.singleton_append, hr2]
    cases r with
    | error o =>
      exact ⟨o, rfl, Or.inr (Or.inr (Or.inr (Or.inr (Or.inr (Or.inr (Or.inr
        ⟨hq1, hq2, trivial, trivial, hov, trivial, trivial, hcap, _, hr, Or.inl ⟨o, rfl, rfl⟩⟩))))))⟩
    | ok s' =>
      exact ⟨_, rfl, Or.inr (Or.inr (Or.inr (Or.inr (Or.inr (Or.inr (Or.inr
        ⟨hq1, hq2, trivial, trivial, hov, trivial, trivial, hcap, _, hr, Or.inr ⟨s', rfl, rfl⟩⟩))))))⟩
  · have hcap : cap = 0 := by simpa [freshEmitter] using hge
    rw [hw]
    simp only [ne_eq, reduceCtorEq, not_false_eq_true, if_true]
    refine ⟨_, rfl, Or.inr (Or.inr (Or.inr (Or.inr (Or.inr (Or.inr (Or.inl
      ⟨hq1, hq2, trivial, trivial, hov, trivial, trivial, hcap, ?_⟩))))))⟩
    simp [emitterError]

/-- Every call either fails the argument check, or finds the request
truncated, or reaches the quantity check with two decoded 16-bit fields. -/
theorem readCoils_cases {α σ : Type} (a : Args α σ) (dev : σ) :
    (((a.p_request_data = none ∧ a.request_data_size ≠ 0) ∨ a.p_response_fncode = Ptr.null ∨
          (a.p_response_buffer = Ptr.null ∧ a.response_buffer_size ≠ 0) ∨
          a.p_response_data_size = Ptr.null ∨ a.p_cmdlet_ctx = none) ∧
        MBSlave_CmdLet_ReadCoils a dev =
          some (returnWith MB_ERROR_NULLREFERENCE (freshEmitter a.response_buffer_size) dev [])) ∨
      (¬ ((a.p_request_data = none ∧ a.request_data_size ≠ 0) ∨ a.p_response_fncode = Ptr.null ∨
          (a.p_response_buffer = Ptr.null ∧ a.response_buffer_size ≠ 0) ∨
          a.p_response_data_size = Ptr.null ∨ a.p_cmdlet_ctx = none) ∧
        (MBSlave_CmdLet_ReadCoils a dev =
            some (returnWith MB_ERROR_SLAVE_REQUESTTRUNCATED
              (freshEmitter a.response_buffer_size) dev []) ∨
          ∃ ctx s q, a.p_cmdlet_ctx = some ctx ∧ s < 65536 ∧ q < 65536 ∧
            MBSlave_CmdLet_ReadCoils a dev =
              serveRequest a.request_fncode ctx s q (freshEmitter a.response_buffer_size)
                dev)) := by
  unfold MBSlave_CmdLet_ReadCoils
  simp only []
  split
  · rename_i h
    exact Or.inl ⟨Or.inl h, rfl⟩
  rename_i h1
  split
  · rename_i h
    exact Or.inl ⟨Or.inr (Or.inl h), rfl⟩
  rename_i h2
  split
  · rename_i h
    exact Or.inl ⟨Or.inr (Or.inr (Or.inl h)), rfl⟩
  rename_i h3
  split
  · rename_i h
    exact Or.inl ⟨Or.inr (Or.inr (Or.inr (Or.inl h))), rfl⟩
  rename_i h4
  split
  · rename_i h
    exact Or.inl ⟨Or.inr (Or.inr (Or.inr (Or.inr h))), rfl⟩
  rename_i ctx hctx
  have hno : ¬ ((a.p_request_data = none ∧ a.request_data_size ≠ 0) ∨
      a.p_response_fncode = Ptr.null ∨
      (a.p_response_buffer = Ptr.null ∧ a.response_buffer_size ≠ 0) ∨
      a.p_response_data_size = Ptr.null ∨ a.p_cmdlet_ctx = none) := by
    rintro (h | h | h | h | h)
    · exact h1 h
    · exact h2 h
    · exact h3 h
    · exact h4 h
    · rw [hctx] at h; cases h
  refine Or.inr ⟨hno, ?_⟩
  split
  · rename_i h; exact absurd rfl h
  split
  · rename_i h; exact absurd rfl h
  split
  · rename_i h5
    left
    rcases readUInt16BE_error (MBBufFetcher_Initialize a.p_request_data a.request_data_size).1
      with h | h
    · exact absurd h h5
    · rw [h]; rfl
  split
  · rename_i h6
    left
    rcases readUInt16BE_error (MBBufFetcher_ReadUInt16BE
      (MBBufFetcher_Initialize a.p_request_data a.request_data_size).1).1.2 with h | h
    · exact absurd h h6
    · rw [h]; rfl
  exact Or.inr ⟨ctx, _, _, hctx, readUInt16BE_lt _, readUInt16BE_lt _, rfl⟩

theorem catchFinally_fresh_error {σ : Type} (f ec cap : Nat) (dev : σ) (calls : List CbCall) :
    ((MBSLAVE_RDCOILS_CATCH_FINALLY f ec (freshEmitter cap) dev calls).p_error = MB_ERROR_NONE ∨
      (MBSLAVE_RDCOILS_CATCH_FINALLY f ec (freshEmitter cap) dev calls).p_error =
        MB_ERROR_SLAVE_RESPONSETRUNCATED) ∧
      (MBSLAVE_RDCOILS_CATCH_FINALLY f ec (freshEmitter cap) dev calls).calls = calls ∧
      (MBSLAVE_RDCOILS_CATCH_FINALLY f ec (freshEmitter cap) dev calls).p_response_data_size =
        (if cap = 0 then none else some 1) ∧
      (MBSLAVE_RDCOILS_CATCH_FINALLY f ec (freshEmitter cap) dev calls).p_response_fncode =
        some ((f + 0x80) % 256) ∧
      ((MBSLAVE_RDCOILS_CATCH_FINALLY f ec (freshEmitter cap) dev calls).p_error =
        MB_ERROR_SLAVE_RESPONSETRUNCATED ↔ cap = 0) := by
  cases cap with
  | zero => rw [catchFinally_fresh_zero]; simp
  | succ n => rw [catchFinally_fresh_pos _ _ _ _ _ (by omega)]; simp

/-- The callback log and the error of the handler after decoding: a logged
error and `MB_ERROR_SLAVE_CALLBACKFAILED` go together, and with that error
neither output variable is written. -/
theorem serveRequest_callback_failure {α σ : Type} (f : Nat) (ctx : MBSLAVE_READCOILS_CTX α σ)
    (s q cap : Nat) (dev : σ) (hs16 : s < 65536) :
    ∃ out, serveRequest f ctx s q (freshEmitter cap) dev = some out ∧
      ((∃ c ∈ out.calls, c.error ≠ MB_ERROR_NONE) →
        out.p_error = MB_ERROR_SLAVE_CALLBACKFAILED ∧ out.p_response_fncode = none ∧
        out.p_response_data_size = none) ∧
      (out.p_error = MB_ERROR_SLAVE_CALLBACKFAILED → ∃ c ∈ out.calls, c.error ≠ MB_ERROR_NONE) := by
  obtain ⟨out, hrun, hp⟩ := serveRequest_paths f ctx s q cap dev hs16
  refine ⟨out, hrun, ?_⟩
  rcases hp with ⟨_, rfl⟩ | ⟨_, _, he, rfl⟩ | ⟨_, _, _, _, rfl⟩ | ⟨_, _, _, _, _, rfl⟩ |
    ⟨_, _, _, _, _, he, rfl⟩ | ⟨_, _, _, _, _, _, _, rfl⟩ | ⟨_, _, _, _, _, _, _, _, rfl⟩ |
    ⟨hq1, hq2, _, _, _, _, _, _, r, hr, hcase⟩
  · obtain ⟨herr, hc, _⟩ := catchFinally_fresh_error f MB_APUEC_ILLEGALDATAVALUE cap dev []
    rw [hc]
    refine ⟨fun ⟨c, hc, _⟩ => absurd hc (List.not_mem_nil c), fun h => ?_⟩
    rcases herr with h' | h' <;> rw [h'] at h <;> cases h
  · refine ⟨fun _ => ⟨rfl, rfl, rfl⟩, fun _ => ⟨_, List.mem_singleton.2 rfl, he⟩⟩
  · obtain ⟨herr, hc, _⟩ := catchFinally_fresh_error f MB_APUEC_ILLEGALDATAADDRESS cap
      (startCheck ctx s dev).dev [CbCall.validate s false MB_ERROR_NONE]
    rw [hc]
    refine ⟨fun ⟨c, hc, hne⟩ => ?_, fun h => ?_⟩
    · rw [List.mem_singleton.1 hc] at hne; exact absurd rfl hne
    · rcases herr with h' | h' <;> rw [h'] at h <;> cases h
  · obtain ⟨herr, hc, _⟩ := catchFinally_fresh_error f MB_APUEC_ILLEGALDATAADDRESS cap
      (startCheck ctx s dev).dev [CbCall.validate s true MB_ERROR_NONE]
    rw [hc]
    refine ⟨fun ⟨c, hc, hne⟩ => ?_, fun h => ?_⟩
    · rw [List.mem_singleton.1 hc] at hne; exact absurd rfl hne
    · rcases herr with h' | h' <;> rw [h'] at h <;> cases h
  · refine ⟨fun _ => ⟨rfl, rfl, rfl⟩, fun _ => ⟨_, List.mem_cons_of_mem _ (List.mem_singleton.2 rfl), he⟩⟩
  · obtain ⟨herr, hc, _⟩ := catchFinally_fresh_error f MB_APUEC_ILLEGALDATAADDRESS cap
      (endCheck ctx s q dev).dev
      [CbCall.validate s true MB_ERROR_NONE, CbCall.validate (s + q - 1) false MB_ERROR_NONE]
    rw [hc]
    refine ⟨fun ⟨c, hc, hne⟩ => ?_, fun h => ?_⟩
    · simp only [List.mem_cons, List.mem_singleton, List.not_mem_nil, or_false] at hc
      rcases hc with rfl | rfl <;> exact absurd rfl hne
    · rcases herr with h' | h' <;> rw [h'] at h <;> cases h
  · refine ⟨fun ⟨c, hc, hne⟩ => ?_, fun h => (by cases h)⟩
    simp only [returnWith, List.mem_cons, List.mem_singleton, List.not_mem_nil, or_false] at hc
    rcases hc with rfl | rfl <;> exact absurd rfl hne
  · obtain ⟨hok, herr⟩ := whileCoilQuantity_calls ctx q _ r (by simp only [loopEntry]; omega) hr
    simp only [loopEntry] at hok herr
    rcases hcase with ⟨o, rfl, rfl⟩ | ⟨s', rfl, rfl⟩
    · obtain ⟨hf, hd, L, hL, _, hc⟩ := herr out rfl
      rcases hc with ⟨hp, hn⟩ | ⟨hp, c, hc, hce⟩
      · refine ⟨fun ⟨c, hc, hne⟩ => ?_, fun h => ?_⟩
        · exfalso
          rw [hL] at hc
          simp only [List.mem_append, List.mem_cons, List.mem_singleton, List.not_mem_nil,
            or_false] at hc
          rcases hc with (rfl | rfl) | hc
          · exact hne rfl
          · exact hne rfl
          · exact hne (hn c hc)
        · rw [hp] at h; cases h
      · refine ⟨fun _ => ⟨hp, hf, hd⟩, fun _ => ⟨c, ?_, hce⟩⟩
        rw [hL]
        exact List.mem_append_right _ hc
    · obtain ⟨L, hL, hn⟩ := hok s' rfl
      refine ⟨fun ⟨c, hc, hne⟩ => ?_, fun h => ?_⟩
      · exfalso
        simp only [MBSLAVE_RDCOILS_FINALLY, hL, List.mem_append, List.mem_cons,
          List.mem_singleton, List.not_mem_nil, or_false] at hc
        rcases hc with (rfl | rfl) | hc
        · exact hne rfl
        · exact hne rfl
        · exact hne (hn c hc).2
      · simp [MBSLAVE_RDCOILS_FINALLY, MBBufEmitter_GetWrittenLength] at h

/-! ## The log of a completed run, and a buffer that is too small -/

theorem readAddresses_readCalls (a : Nat) (vs : List Bool) :
    readAddresses (readCalls a vs) = List.range' a vs.length := by
  induction vs generalizing a with
  | nil => rfl
  | cons v vs ih =>
    rw [readCalls_cons, List.length_cons, List.range'_succ]
    simp only [readAddresses, List.filterMap_cons]
    exact congrArg _ (ih (a + 1))

theorem readAddresses_append (l m : List CbCall) :
    readAddresses (l ++ m) = readAddresses l ++ readAddresses m := by
  simp [readAddresses, List.filterMap_append]

theorem validateAddresses_append (l m : List CbCall) :
    validateAddresses (l ++ m) = validateAddresses l ++ validateAddresses m := by
  simp [validateAddresses, List.filterMap_append]

theorem validateAddresses_reads (l : List CbCall) (h : ∀ c ∈ l, c.isRead = true) :
    validateAddresses l = [] := by
  induction l with
  | nil => rfl
  | cons c l ih =>
    have hc := h c (List.mem_cons_self _ _)
    cases c with
    | validate a v e => simp [CbCall.isRead] at hc
    | read a v e =>
      simp only [validateAddresses, List.filterMap_cons]
      exact ih (fun c hc => h c (List.mem_cons_of_mem _ hc))

theorem isRead_readCalls (a : Nat) (vs : List Bool) :
    ∀ c ∈ readCalls a vs, c.isRead = true ∧ c.error = MB_ERROR_NONE := by
  induction vs generalizing a with
  | nil => simp [readCalls_nil]
  | cons v vs ih =>
    rw [readCalls_cons]
    intro c hc
    rcases List.mem_cons.1 hc with rfl | hc
    · exact ⟨rfl, rfl⟩
    · exact ih (a + 1) c hc

/-- With a read callback that never reports an error and a buffer that cannot
take every output byte, the loop returns with
`MB_ERROR_SLAVE_RESPONSETRUNCATED` once the buffer is full. -/
theorem whileCoilQuantity_truncated {α σ : Type} (ctx : MBSLAVE_READCOILS_CTX α σ)
    (hread : ∀ a d, (ctx.cbReadCoil a ctx.cbArg d).error = MB_ERROR_NONE) :
    ∀ (fuel : Nat) (s : Frame σ), s.coilQuantity ≤ fuel → s.coilQuantity < 65536 →
      s.coilCurrentAddress < 65536 → s.coilCurrentAddress + s.coilQuantity ≤ 65536 →
      s.emitter.data.length ≤ s.emitter.capacity →
      s.emitter.capacity < s.emitter.data.length + (s.coilQuantity + 7) / 8 →
      ∃ o t, whileCoilQuantity ctx fuel s = some (.error o) ∧
        o.p_error = MB_ERROR_SLAVE_RESPONSETRUNCATED ∧
        o.emitter.stored = s.emitter.stored ++ t ∧
        s.emitter.data.length + t.length = s.emitter.capacity := by
  intro fuel
  induction fuel with
  | zero =>
    intro s hf _ _ _ hle hlt
    omega
  | succ fuel ih =>
    intro s hf hq16 hc hcq hle hlt
    have hq : s.coilQuantity ≠ 0 := by omega
    obtain ⟨s1, vs1, hrun, hlen1, hq1, hc1, he1, _, _⟩ :=
      duffUnits_success ctx hread (min 8 s.coilQuantity)
        { s with duffByte := 0, duffBitMask := 1 } 0 [] rfl (by omega) rfl
        (by intro i; simp) (by simp) (by simpa using hq16) (by simpa using hc)
        (by simp only; omega)
    simp only at hq1 hc1 he1
    rw [whileCoilQuantity_step ctx fuel s hq hq16, hrun]
    simp only
    rcases writeUInt8_cases s1.emitter s1.duffByte with ⟨hroom, hw⟩ | ⟨hfull, hw⟩
    · rw [hw]
      simp only [ne_eq, not_true_eq_false, if_false]
      rw [he1] at hroom
      obtain ⟨o, t, hrun2, hp, hst, hl⟩ :=
        ih { s1 with emitter :=
          { s1.emitter with data := s1.emitter.data ++ [s1.duffByte],
                            stored := s1.emitter.stored ++ [s1.duffByte] } }
          (by simp only; omega) (by simp only; omega) (by simp only; omega)
          (by simp only; omega)
          (by simp only [List.length_append, List.length_singleton, he1]; omega)
          (by simp only [List.length_append, List.length_singleton, he1]; omega)
      simp only [he1, List.length_append, List.length_singleton] at hst hl
      refine ⟨o, s1.duffByte :: t, hrun2, hp, by rw [hst]; simp, ?_⟩
      simp only [List.length_cons]
      omega
    · rw [hw]
      simp only [ne_eq, reduceCtorEq, not_false_eq_true, if_true]
      rw [he1] at hfull
      refine ⟨_, [], rfl, by simp [returnWith, emitterError], by simp [returnWith, he1], ?_⟩
      simp only [List.length_nil]
      omega

/-! ## The claims, continued -/

/-- C12: if any callback invocation the handler makes (the validation of the
start address, of the end address, or the read of any coil) reports an error,
the call ends with `MB_ERROR_SLAVE_CALLBACKFAILED` and neither the response
function code nor the response data size is written; conversely the handler
ends with that error only if a logged invocation reported an error. -/
theorem readCoils_callback_failed {α σ : Type} (a : Args α σ) (dev : σ) :
    ∃ out, MBSlave_CmdLet_ReadCoils a dev = some out ∧
      ((∃ c ∈ out.calls, c.error ≠ MB_ERROR_NONE) →
        out.p_error = MB_ERROR_SLAVE_CALLBACKFAILED ∧ out.p_response_fncode = none ∧
        out.p_response_data_size = none) ∧
      (out.p_error = MB_ERROR_SLAVE_CALLBACKFAILED → ∃ c ∈ out.calls, c.error ≠ MB_ERROR_NONE) := by
  rcases readCoils_cases a dev with ⟨_, h⟩ | ⟨_, h | ⟨ctx, s, q, _, hs, _, h⟩⟩
  · refine ⟨_, h, fun ⟨c, hc, _⟩ => absurd hc (List.not_mem_nil c), fun h => (by cases h)⟩
  · refine ⟨_, h, fun ⟨c, hc, _⟩ => absurd hc (List.not_mem_nil c), fun h => (by cases h)⟩
  · rw [h]
    exact serveRequest_callback_failure a.request_fncode ctx s q a.response_buffer_size dev hs

/-- C12, witness: 16 coils from address 0 on a device whose read of coil 9
fails: two validations and ten reads are logged, the last with an error, and
the handler ends with `MB_ERROR_SLAVE_CALLBACKFAILED` and no output variable
written. -/
theorem readCoils_callback_failed_witness :
    (MBSlave_CmdLet_ReadCoils (requestCall 1 [0x00, 0x00, 0x00, 0x10] 8 (faultyDevice 9)) 0).map
        (fun o => (o.p_error, o.p_response_fncode, o.p_response_data_size, o.calls.length,
          o.calls.getLast?)) =
      some (MB_ERROR_SLAVE_CALLBACKFAILED, none, none, 12,
        some (CbCall.read 9 true (MB_ERROR_OTHER 7))) ∧
      ∃ out, MBSlave_CmdLet_ReadCoils (requestCall 1 [0x00, 0x00, 0x00, 0x10] 8
          (faultyDevice 9)) 0 = some out ∧
        ((∃ c ∈ out.calls, c.error ≠ MB_ERROR_NONE) →
          out.p_error = MB_ERROR_SLAVE_CALLBACKFAILED ∧ out.p_response_fncode = none ∧
          out.p_response_data_size = none) ∧
        (out.p_error = MB_ERROR_SLAVE_CALLBACKFAILED →
          ∃ c ∈ out.calls, c.error ≠ MB_ERROR_NONE) :=
  ⟨by decide!, readCoils_callback_failed _ _⟩

/-- C13, the failing input: an exception path (quantity 0) into a response
buffer of capacity 0 ends with `MB_ERROR_SLAVE_RESPONSETRUNCATED`, yet the
response function code has been written (`0x81`); only the response data size
is left unwritten. -/
theorem readCoils_truncated_exception_fncode :
    (MBSlave_CmdLet_ReadCoils (requestCall 0x01 [0x00, 0x00, 0x00, 0x00] 0
        (alternatingDevice 0)) 0).map
        (fun o => (o.p_error, o.p_response_fncode, o.p_response_data_size)) =
      some (MB_ERROR_SLAVE_RESPONSETRUNCATED, some 0x81, none) := by
  decide!

/-- What does hold of the truncation errors: with
`MB_ERROR_SLAVE_REQUESTTRUNCATED` neither output variable is written; with
`MB_ERROR_SLAVE_RESPONSETRUNCATED` the response data size is never written, and
the response function code is written only if no read-coil invocation was made
and nothing was stored in the buffer, that is on the exception exit. -/
theorem readCoils_truncation_outputs {α σ : Type} (a : Args α σ) (dev : σ) :
    ∃ out, MBSlave_CmdLet_ReadCoils a dev = some out ∧
      (out.p_error = MB_ERROR_SLAVE_REQUESTTRUNCATED →
        out.p_response_fncode = none ∧ out.p_response_data_size = none) ∧
      (out.p_error = MB_ERROR_SLAVE_RESPONSETRUNCATED →
        out.p_response_data_size = none ∧
        (out.p_response_fncode = none ∨
          (out.p_response_fncode = some ((a.request_fncode + 0x80) % 256) ∧
            a.response_buffer_size = 0 ∧ ∀ c ∈ out.calls, c.isRead = false))) := by
  obtain ⟨out, hrun, hcls⟩ := readCoils_classify a dev
  refine ⟨out, hrun, ?_, ?_⟩
  · intro h
    rcases hcls with ⟨ec, d, c, _, _, rfl⟩ | ⟨_, hf, hd⟩ | ⟨e, d, c, rfl, _⟩
    · obtain ⟨herr, _⟩ := catchFinally_fresh_error a.request_fncode ec a.response_buffer_size d c
      rcases herr with h' | h' <;> rw [h'] at h <;> cases h
    · exact ⟨hf, hd⟩
    · simp [MBSLAVE_RDCOILS_FINALLY, MBBufEmitter_GetWrittenLength] at h
  · intro h
    rcases hcls with ⟨ec, d, c, _, hc, rfl⟩ | ⟨_, hf, hd⟩ | ⟨e, d, c, rfl, _⟩
    · obtain ⟨_, hcalls, hsize, hfn, hiff⟩ :=
        catchFinally_fresh_error a.request_fncode ec a.response_buffer_size d c
      have hcap := hiff.1 h
      refine ⟨by rw [hsize, if_pos hcap], Or.inr ⟨hfn, hcap, ?_⟩⟩
      rw [hcalls]
      exact hc
    · exact ⟨hd, Or.inl hf⟩
    · simp [MBSLAVE_RDCOILS_FINALLY, MBBufEmitter_GetWrittenLength] at h

/-- C15: with argument checking enabled, the handler ends with
`MB_ERROR_NULLREFERENCE` if and only if the request data pointer is null while
the request size is not zero, or the response function code pointer is null,
or the response buffer pointer is null while the buffer size is not zero, or
the response data size pointer is null, or the command context pointer is
null; and then no callback has been invoked, the device is untouched, nothing
has been stored in the response buffer and no output variable is written.  A
null request or response buffer pointer paired with size 0 is therefore not an
argument error. -/
theorem readCoils_argument_check {α σ : Type} (a : Args α σ) (dev : σ) :
    ∃ out, MBSlave_CmdLet_ReadCoils a dev = some out ∧
      (out.p_error = MB_ERROR_NULLREFERENCE ↔
        ((a.p_request_data = none ∧ a.request_data_size ≠ 0) ∨ a.p_response_fncode = Ptr.null ∨
          (a.p_response_buffer = Ptr.null ∧ a.response_buffer_size ≠ 0) ∨
          a.p_response_data_size = Ptr.null ∨ a.p_cmdlet_ctx = none)) ∧
      (out.p_error = MB_ERROR_NULLREFERENCE →
        out.calls = [] ∧ out.dev = dev ∧ out.emitter.stored = [] ∧
        out.p_response_fncode = none ∧ out.p_response_data_size = none) := by
  rcases readCoils_cases a dev with ⟨hc, h⟩ | ⟨hc, h | ⟨ctx, s, q, _, _, hq, h⟩⟩
  · exact ⟨_, h, ⟨fun _ => hc, fun _ => rfl⟩, fun _ => ⟨rfl, rfl, rfl, rfl, rfl⟩⟩
  · exact ⟨_, h, ⟨fun h => (by cases h), fun h => absurd h hc⟩, fun h => (by cases h)⟩
  · obtain ⟨out, hrun, hcls⟩ := serveRequest_classify a.request_fncode ctx s q
      a.response_buffer_size dev hq
    have hne : out.p_error ≠ MB_ERROR_NULLREFERENCE := by
      rcases hcls with ⟨ec, d, c, _, _, rfl⟩ | ⟨h | h, _, _⟩ | ⟨e, d, c, rfl, _⟩
      · obtain ⟨herr, _⟩ := catchFinally_fresh_error a.request_fncode ec a.response_buffer_size d c
        rcases herr with h' | h' <;> rw [h'] <;> simp
      · rw [h]; simp
      · rw [h]; simp
      · simp [MBSLAVE_RDCOILS_FINALLY, MBBufEmitter_GetWrittenLength]
    rw [h]
    exact ⟨out, hrun, ⟨fun h => absurd h hne, fun h => absurd h hc⟩, fun h => absurd h hne⟩

/-- C15, witness: a null request pointer and a null response buffer pointer,
both with size 0, pass the argument check (the call ends with
`MB_ERROR_SLAVE_REQUESTTRUNCATED`), while a null request pointer with size 4
does not. -/
theorem readCoils_argument_check_witness :
    (MBSlave_CmdLet_ReadCoils
        { request_fncode := 1, p_request_data := none, request_data_size := 0,
          p_response_fncode := Ptr.valid, p_response_buffer := Ptr.null,
          response_buffer_size := 0, p_response_data_size := Ptr.valid,
          p_cmdlet_ctx := some (alternatingDevice 0) } 0).map (fun o => o.p_error) =
      some MB_ERROR_SLAVE_REQUESTTRUNCATED ∧
      (MBSlave_CmdLet_ReadCoils
        { request_fncode := 1, p_request_data := none, request_data_size := 4,
          p_response_fncode := Ptr.valid, p_response_buffer := Ptr.valid,
          response_buffer_size := 8, p_response_data_size := Ptr.valid,
          p_cmdlet_ctx := some (alternatingDevice 0) } 0).map (fun o => o.p_error) =
      some MB_ERROR_NULLREFERENCE ∧
      ∃ out, MBSlave_CmdLet_ReadCoils (requestCall 1 [0x00, 0x0A, 0x00, 0x0D] 3
          (alternatingDevice 10)) 0 = some out ∧
        (out.p_error = MB_ERROR_NULLREFERENCE ↔
          (((requestCall 1 [0x00, 0x0A, 0x00, 0x0D] 3 (alternatingDevice 10)).p_request_data =
                none ∧
              (requestCall 1 [0x00, 0x0A, 0x00, 0x0D] 3
                (alternatingDevice 10)).request_data_size ≠ 0) ∨
            (requestCall 1 [0x00, 0x0A, 0x00, 0x0D] 3 (alternatingDevice 10)).p_response_fncode =
              Ptr.null ∨
            ((requestCall 1 [0x00, 0x0A, 0x00, 0x0D] 3 (alternatingDevice 10)).p_response_buffer =
                Ptr.null ∧
              (requestCall 1 [0x00, 0x0A, 0x00, 0x0D] 3
                (alternatingDevice 10)).response_buffer_size ≠ 0) ∨
            (requestCall 1 [0x00, 0x0A, 0x00, 0x0D] 3
              (alternatingDevice 10)).p_response_data_size = Ptr.null ∨
            (requestCall 1 [0x00, 0x0A, 0x00, 0x0D] 3 (alternatingDevice 10)).p_cmdlet_ctx =
              none)) ∧
        (out.p_error = MB_ERROR_NULLREFERENCE →
          out.calls = [] ∧ out.dev = 0 ∧ out.emitter.stored = [] ∧
          out.p_response_fncode = none ∧ out.p_response_data_size = none) :=
  ⟨by decide!, by decide!, readCoils_argument_check _ _⟩

/-- C11: for a valid request the handler ends with
`MB_ERROR_SLAVE_RESPONSETRUNCATED` if and only if the response capacity is
smaller than `1 + ⌈q/8⌉`, and for a request that takes an exception path it
ends with that error if and only if the capacity is 0. -/
theorem readCoils_response_truncated {α σ : Type} (f : Nat) (req : List Nat) (cap : Nat)
    (ctx : MBSLAVE_READCOILS_CTX α σ) (dev : σ) (s q : Nat) (hdec : DecodesTo req s q) :
    ∃ out, MBSlave_CmdLet_ReadCoils (requestCall f req cap ctx) dev = some out ∧
      (ValidRequest ctx s q dev →
        (out.p_error = MB_ERROR_SLAVE_RESPONSETRUNCATED ↔ cap < 1 + (q + 7) / 8)) ∧
      (TakesExceptionPath ctx s q dev →
        (out.p_error = MB_ERROR_SLAVE_RESPONSETRUNCATED ↔ cap = 0)) := by
  obtain ⟨hlen, hs, hq⟩ := requestField_of_decodes req s q hdec
  have hs16 : s < 65536 := by rw [← hs]; exact requestField_lt req 0
  rw [readCoils_eq_serveRequest f req cap ctx dev hlen, hs, hq]
  obtain ⟨out, hrun, hp⟩ := serveRequest_paths f ctx s q cap dev hs16
  refine ⟨out, hrun, ?_, ?_⟩
  · rintro ⟨hq1, hq2, hov, hvalid, hread, hv1, hv2⟩
    by_cases hcap : 1 + (q + 7) / 8 ≤ cap
    · obtain ⟨out', _, _, hrun', herr, _⟩ :=
        serveRequest_success f ctx s q cap dev hq1 hq2 hov (hvalid _ _) hv1 (hvalid _ _) hv2
          hread hcap
      have : out = out' := Option.some.inj (hrun.symm.trans hrun')
      rw [this, herr]
      constructor
      · intro h; cases h
      · intro h; omega
    · refine ⟨fun _ => by omega, fun _ => ?_⟩
      rcases hp with ⟨h, _⟩ | ⟨_, _, he, _⟩ | ⟨_, _, _, hv, _⟩ | ⟨_, _, _, _, ho, _⟩ |
        ⟨_, _, _, _, _, he, _⟩ | ⟨_, _, _, _, _, _, hv, _⟩ | ⟨_, _, _, _, _, _, _, _, rfl⟩ |
        ⟨_, _, _, _, _, _, _, hc1, r, hr, hcase⟩
      · omega
      · exact absurd (hvalid _ _) he
      · rw [hv1] at hv; cases hv
      · omega
      · exact absurd (hvalid _ _) he
      · rw [hv2] at hv; cases hv
      · rfl
      · obtain ⟨o, t, hrun2, hpo, _, _⟩ := whileCoilQuantity_truncated ctx hread q
          (loopEntry s q cap ((q + 7) / 8) (endCheck ctx s q dev).dev
            [CbCall.validate s true MB_ERROR_NONE,
              CbCall.validate (s + q - 1) true MB_ERROR_NONE])
          (le_refl _) (by simp only [loopEntry]; omega) (by simp only [loopEntry]; omega)
          (by simp only [loopEntry]; omega)
          (by simp only [loopEntry, List.length_singleton]; omega)
          (by simp only [loopEntry, List.length_singleton]; omega)
        rw [hrun2] at hr
        have hr' : r = .error o := (Option.some.inj hr).symm
        rcases hcase with ⟨o', ho', rfl⟩ | ⟨s', hs', _⟩
        · rw [hr'] at ho'
          cases ho'
          exact hpo
        · rw [hr'] at hs'
          cases hs'
  · intro hex
    rcases hp with ⟨_, rfl⟩ | ⟨hq1, hq2, he, _⟩ | ⟨_, _, _, _, rfl⟩ | ⟨_, _, _, _, _, rfl⟩ |
      ⟨hq1, hq2, _, hv, ho, he, _⟩ | ⟨_, _, _, _, _, _, _, rfl⟩ |
      ⟨hq1, hq2, _, hv, ho, _, hv2, _⟩ | ⟨hq1, hq2, _, hv, ho, _, hv2, _⟩
    · exact (catchFinally_fresh_error _ _ _ _ _).2.2.2.2
    · exfalso
      rcases hex with h | ⟨h, _⟩
      · omega
      · exact he h
    · exact (catchFinally_fresh_error _ _ _ _ _).2.2.2.2
    · exact (catchFinally_fresh_error _ _ _ _ _).2.2.2.2
    · exfalso
      rcases hex with h | ⟨_, h | h | ⟨h, _⟩⟩
      · omega
      · rw [hv] at h; cases h
      · omega
      · exact he h
    · exact (catchFinally_fresh_error _ _ _ _ _).2.2.2.2
    · exfalso
      rcases hex with h | ⟨_, h | h | ⟨_, h⟩⟩
      · omega
      · rw [hv] at h; cases h
      · omega
      · rw [hv2] at h; cases h
    · exfalso
      rcases hex with h | ⟨_, h | h | ⟨_, h⟩⟩
      · omega
      · rw [hv] at h; cases h
      · omega
      · rw [hv2] at h; cases h

/-- C11, witness: 16 coils into a buffer of capacity 1: the count byte is
stored, eight coils are read, and the write of the first data byte fails. -/
theorem readCoils_response_truncated_witness :
    (MBSlave_CmdLet_ReadCoils (requestCall 1 [0x00, 0x00, 0x00, 0x10] 1
        (alternatingDevice 0)) 0).map
        (fun o => (o.p_error, o.emitter.stored, readAddresses o.calls)) =
      some (MB_ERROR_SLAVE_RESPONSETRUNCATED, [2], [0, 1, 2, 3, 4, 5, 6, 7]) ∧
      ValidRequest (alternatingDevice 0) 0 16 0 ∧
      ∃ out, MBSlave_CmdLet_ReadCoils (requestCall 1 [0x00, 0x00, 0x00, 0x10] 1
          (alternatingDevice 0)) 0 = some out ∧
        (ValidRequest (alternatingDevice 0) 0 16 0 →
          (out.p_error = MB_ERROR_SLAVE_RESPONSETRUNCATED ↔ 1 < 1 + (16 + 7) / 8)) ∧
        (TakesExceptionPath (alternatingDevice 0) 0 16 0 →
          (out.p_error = MB_ERROR_SLAVE_RESPONSETRUNCATED ↔ 1 = 0)) :=
  ⟨by decide!,
    ⟨by decide, by decide, by decide, fun _ _ => rfl, fun _ _ => rfl, rfl, rfl⟩,
    readCoils_response_truncated 1 [0x00, 0x00, 0x00, 0x10] 1 (alternatingDevice 0) 0 0 16
      (by decide)⟩

/-- C14: for a valid request served with sufficient capacity, the addresses
passed to the read-coil callback are exactly `s, s+1, ..., s+q-1`: each address
of the range once, in strictly increasing order, none outside the range. -/
theorem readCoils_read_addresses {α σ : Type} (f : Nat) (req : List Nat) (cap : Nat)
    (ctx : MBSLAVE_READCOILS_CTX α σ) (dev : σ) (s q : Nat) (hdec : DecodesTo req s q)
    (hvalid : ValidRequest ctx s q dev) (hcap : 1 + (q + 7) / 8 ≤ cap) :
    ∃ out, MBSlave_CmdLet_ReadCoils (requestCall f req cap ctx) dev = some out ∧
      readAddresses out.calls = List.range' s q ∧
      (readAddresses out.calls).length = q ∧
      (∀ k, k < q → (readAddresses out.calls).getD k 0 = s + k) ∧
      (readAddresses out.calls).Pairwise (· < ·) ∧
      ∀ a ∈ readAddresses out.calls, s ≤ a ∧ a ≤ s + q - 1 := by
  obtain ⟨hq1, hq2, hov, hval, hread, hv1, hv2⟩ := hvalid
  obtain ⟨hlen, hs, hq⟩ := requestField_of_decodes req s q hdec
  obtain ⟨out, vs, bytes, hrun, _, _, _, _, _, _, hvl, hcalls, _⟩ :=
    serveRequest_success f ctx s q cap dev hq1 hq2 hov (hval _ _) hv1 (hval _ _) hv2 hread hcap
  have hra : readAddresses out.calls = List.range' s q := by
    rw [hcalls, readAddresses_append, readAddresses_readCalls, hvl]
    rfl
  refine ⟨out, ?_, hra, ?_, ?_, ?_, ?_⟩
  · rw [readCoils_eq_serveRequest f req cap ctx dev hlen, hs, hq, hrun]
  · rw [hra, List.length_range']
  · intro k hk
    rw [hra, List.getD_eq_getElem _ _ (by rw [List.length_range']; exact hk),
      List.getElem_range']
    omega
  · rw [hra]
    exact List.pairwise_lt_range' s q
  · intro a ha
    rw [hra, List.mem_range'_1] at ha
    omega

/-- C14, witness: 13 coils from address 10 are read at `10, 11, ..., 22`. -/
theorem readCoils_read_addresses_witness :
    (MBSlave_CmdLet_ReadCoils (requestCall 1 [0x00, 0x0A, 0x00, 0x0D] 3
        (alternatingDevice 10)) 0).map (fun o => readAddresses o.calls) =
      some [10, 11, 12, 13, 14, 15, 16, 17, 18, 19, 20, 21, 22] ∧
      ∃ out, MBSlave_CmdLet_ReadCoils (requestCall 1 [0x00, 0x0A, 0x00, 0x0D] 3
          (alternatingDevice 10)) 0 = some out ∧
        readAddresses out.calls = List.range' 10 13 ∧
        (readAddresses out.calls).length = 13 ∧
        (∀ k, k < 13 → (readAddresses out.calls).getD k 0 = 10 + k) ∧
        (readAddresses out.calls).Pairwise (· < ·) ∧
        ∀ a ∈ readAddresses out.calls, 10 ≤ a ∧ a ≤ 10 + 13 - 1 :=
  ⟨by decide!,
    readCoils_read_addresses 1 [0x00, 0x0A, 0x00, 0x0D] 3 (alternatingDevice 10) 0 10 13
      (by decide)
      ⟨by decide, by decide, by decide, fun _ _ => rfl, fun _ _ => rfl, rfl, rfl⟩
      (by decide)⟩

/-- The validity calls of the handler after decoding, for a quantity in range:
the start address is validated first; the end address is validated next
exactly when the start address was accepted without error and the end address
does not overflow; whatever follows in the log is a read-coil invocation. -/
theorem serveRequest_validate_log {α σ : Type} (f : Nat) (ctx : MBSLAVE_READCOILS_CTX α σ)
    (s q cap : Nat) (dev : σ) (hs16 : s < 65536) (hq1 : 1 ≤ q) (hq2 : q ≤ 2000) :
    ∃ out, serveRequest f ctx s q (freshEmitter cap) dev = some out ∧
      (((startCheck ctx s dev).error = MB_ERROR_NONE ∧
          (startCheck ctx s dev).value = true ∧ s + q - 1 ≤ 0xFFFF) →
        validateAddresses out.calls = [s, s + q - 1] ∧
        ∃ reads, (∀ c ∈ reads, c.isRead = true) ∧
          out.calls = CbCall.validate s true MB_ERROR_NONE ::
            CbCall.validate (s + q - 1) (endCheck ctx s q dev).value
              (endCheck ctx s q dev).error :: reads) ∧
      (¬ ((startCheck ctx s dev).error = MB_ERROR_NONE ∧
          (startCheck ctx s dev).value = true ∧ s + q - 1 ≤ 0xFFFF) →
        out.calls = [CbCall.validate s (startCheck ctx s dev).value
          (startCheck ctx s dev).error]) := by
  obtain ⟨out, hrun, hp⟩ := serveRequest_paths f ctx s q cap dev hs16
  refine ⟨out, hrun, ?_⟩
  rcases hp with ⟨hbad, rfl⟩ | ⟨_, _, he, rfl⟩ | ⟨_, _, he, hv, rfl⟩ |
    ⟨_, _, he, hv, ho, rfl⟩ | ⟨_, _, he, hv, ho, he2, rfl⟩ |
    ⟨_, _, he, hv, ho, he2, hv2, rfl⟩ | ⟨_, _, he, hv, ho, he2, hv2, _, rfl⟩ |
    ⟨_, _, he, hv, ho, he2, hv2, _, r, hr, hcase⟩
  · have hno : ¬ (q = 0 ∨ 2000 < q) := by omega
    exact absurd hbad hno
  · exact ⟨fun h => absurd h.1 he, fun _ => rfl⟩
  · refine ⟨fun h => ?_, fun _ => ?_⟩
    · rw [hv] at h; cases h.2.1
    · rw [(catchFinally_fresh_error _ _ _ _ _).2.1, hv, he]
  · refine ⟨fun h => by omega, fun _ => ?_⟩
    rw [(catchFinally_fresh_error _ _ _ _ _).2.1, hv, he]
  · exact ⟨fun _ => ⟨rfl, [], by simp, rfl⟩, fun h => absurd ⟨he, hv, ho⟩ h⟩
  · refine ⟨fun _ => ?_, fun h => absurd ⟨he, hv, ho⟩ h⟩
    rw [(catchFinally_fresh_error _ _ _ _ _).2.1, hv2, he2]
    exact ⟨rfl, [], by simp, rfl⟩
  · refine ⟨fun _ => ?_, fun h => absurd ⟨he, hv, ho⟩ h⟩
    rw [hv2, he2]
    exact ⟨rfl, [], by simp, rfl⟩
  · refine ⟨fun _ => ?_, fun h => absurd ⟨he, hv, ho⟩ h⟩
    obtain ⟨hok, herr⟩ := whileCoilQuantity_calls ctx q _ r (by simp only [loopEntry]; omega) hr
    simp only [loopEntry] at hok herr
    rw [hv2, he2]
    rcases hcase with ⟨o, rfl, rfl⟩ | ⟨s', rfl, rfl⟩
    · obtain ⟨_, _, L, hL, hall, _⟩ := herr out rfl
      refine ⟨?_, L, hall, by rw [hL]; rfl⟩
      rw [hL, validateAddresses_append, validateAddresses_reads L hall]
      rfl
    · obtain ⟨L, hL, hall⟩ := hok s' rfl
      refine ⟨?_, L, fun c hc => (hall c hc).1, by simp only [MBSLAVE_RDCOILS_FINALLY, hL]; rfl⟩
      simp only [MBSLAVE_RDCOILS_FINALLY, hL]
      rw [validateAddresses_append, validateAddresses_reads L (fun c hc => (hall c hc).1)]
      rfl

theorem serveRequest_illegal_quantity_log {α σ : Type} (f : Nat)
    (ctx : MBSLAVE_READCOILS_CTX α σ) (s q cap : Nat) (dev : σ) (hq : q = 0 ∨ 2000 < q) :
    ∃ out, serveRequest f ctx s q (freshEmitter cap) dev = some out ∧ out.calls = [] := by
  have hq0 : q = 0 ∨ q > 2000 := hq
  refine ⟨MBSLAVE_RDCOILS_CATCH_FINALLY f MB_APUEC_ILLEGALDATAVALUE (freshEmitter cap) dev [],
    ?_, (catchFinally_fresh_error _ _ _ _ _).2.1⟩
  unfold serveRequest
  simp only [hq0, if_true, MBSLAVE_RDCOILS_CATCH_INVALIDVALUE]

/-- C19: the handler invokes no callback at all when the request is truncated
or the quantity is 0 or above 2000; otherwise its log starts with the
validation of the start address, followed by the validation of the end
address exactly when the start address was accepted without error and the end
address does not overflow, and after those two entries only read-coil
invocations are logged.  On a call that ends in an exception response no
read-coil invocation is logged and the exception code is the only byte ever
stored in the response buffer. -/
theorem readCoils_callback_discipline {α σ : Type} (f : Nat) (req : List Nat) (cap : Nat)
    (ctx : MBSLAVE_READCOILS_CTX α σ) (dev : σ) :
    ∃ out, MBSlave_CmdLet_ReadCoils (requestCall f req cap ctx) dev = some out ∧
      (req.length < 4 → out.calls = []) ∧
      (∀ s q, DecodesTo req s q →
        ((q = 0 ∨ 2000 < q) → out.calls = []) ∧
        (1 ≤ q → q ≤ 2000 →
          (((startCheck ctx s dev).error = MB_ERROR_NONE ∧
              (startCheck ctx s dev).value = true ∧ s + q - 1 ≤ 0xFFFF) →
            validateAddresses out.calls = [s, s + q - 1] ∧
            ∃ reads, (∀ c ∈ reads, c.isRead = true) ∧
              out.calls = CbCall.validate s true MB_ERROR_NONE ::
                CbCall.validate (s + q - 1) (endCheck ctx s q dev).value
                  (endCheck ctx s q dev).error :: reads) ∧
          (¬ ((startCheck ctx s dev).error = MB_ERROR_NONE ∧
              (startCheck ctx s dev).value = true ∧ s + q - 1 ≤ 0xFFFF) →
            out.calls = [CbCall.validate s (startCheck ctx s dev).value
              (startCheck ctx s dev).error]))) ∧
      (out.isException →
        (∀ c ∈ out.calls, c.isRead = false) ∧ out.emitter.stored = out.payload ∧
        out.emitter.stored.length = 1) := by
  obtain ⟨out, hrun, hcls⟩ := readCoils_classify (requestCall f req cap ctx) dev
  refine ⟨out, hrun, ?_, ?_, ?_⟩
  · intro hlen
    rw [readCoils_truncated f req cap ctx dev hlen] at hrun
    rw [← Option.some.inj hrun]
    rfl
  · intro s q hdec
    obtain ⟨hlen, hs, hq⟩ := requestField_of_decodes req s q hdec
    have hs16 : s < 65536 := by rw [← hs]; exact requestField_lt req 0
    rw [readCoils_eq_serveRequest f req cap ctx dev hlen, hs, hq] at hrun
    refine ⟨fun hbad => ?_, fun hq1 hq2 => ?_⟩
    · obtain ⟨o, ho, hc⟩ := serveRequest_illegal_quantity_log f ctx s q cap dev hbad
      rw [← Option.some.inj (ho.symm.trans hrun)]
      exact hc
    · obtain ⟨o, ho, hc⟩ := serveRequest_validate_log f ctx s q cap dev hs16 hq1 hq2
      rw [← Option.some.inj (ho.symm.trans hrun)]
      exact hc
  · intro hex
    rcases hcls with ⟨ec, d, c, _, hc, rfl⟩ | ⟨hne, _, _⟩ | ⟨e, d, c, rfl, hlen⟩
    · rw [catchFinally_fresh_exception _ _ _ _ _ hex.1]
      exact ⟨hc, rfl, rfl⟩
    · exact absurd hex.1 hne
    · obtain ⟨_, hp | hp⟩ := hex <;>
        · simp only [Outcome.payload, MBSLAVE_RDCOILS_FINALLY] at hp
          rw [hp] at hlen
          simp at hlen

/-- C19, witness: on a device whose valid addresses are `0 .. 15`, a request for
13 coils from address 10 is answered with an exception after exactly two
validity calls, on 10 and on 22, no read, and one stored byte. -/
theorem readCoils_callback_discipline_witness :
    (MBSlave_CmdLet_ReadCoils (requestCall 1 [0x00, 0x0A, 0x00, 0x0D] 3
        (rangeDevice 0 15)) 0).map (fun o => (o.calls, o.emitter.stored)) =
      some ([CbCall.validate 10 true MB_ERROR_NONE, CbCall.validate 22 false MB_ERROR_NONE],
        [0x02]) ∧
      ∃ out, MBSlave_CmdLet_ReadCoils (requestCall 1 [0x00, 0x0A, 0x00, 0x0D] 3
          (rangeDevice 0 15)) 0 = some out ∧
        (([0x00, 0x0A, 0x00, 0x0D] : List Nat).length < 4 → out.calls = []) ∧
        (∀ s q, DecodesTo [0x00, 0x0A, 0x00, 0x0D] s q →
          ((q = 0 ∨ 2000 < q) → out.calls = []) ∧
          (1 ≤ q → q ≤ 2000 →
            (((startCheck (rangeDevice 0 15) s 0).error = MB_ERROR_NONE ∧
                (startCheck (rangeDevice 0 15) s 0).value = true ∧ s + q - 1 ≤ 0xFFFF) →
              validateAddresses out.calls = [s, s + q - 1] ∧
              ∃ reads, (∀ c ∈ reads, c.isRead = true) ∧
                out.calls = CbCall.validate s true MB_ERROR_NONE ::
                  CbCall.validate (s + q - 1) (endCheck (rangeDevice 0 15) s q 0).value
                    (endCheck (rangeDevice 0 15) s q 0).error :: reads) ∧
            (¬ ((startCheck (rangeDevice 0 15) s 0).error = MB_ERROR_NONE ∧
                (startCheck (rangeDevice 0 15) s 0).value = true ∧ s + q - 1 ≤ 0xFFFF) →
              out.calls = [CbCall.validate s (startCheck (rangeDevice 0 15) s 0).value
                (startCheck (rangeDevice 0 15) s 0).error]))) ∧
        (out.isException →
          (∀ c ∈ out.calls, c.isRead = false) ∧ out.emitter.stored = out.payload ∧
          out.emitter.stored.length = 1) :=
  ⟨by decide!, readCoils_callback_discipline 1 [0x00, 0x0A, 0x00, 0x0D] 3 (rangeDevice 0 15) 0⟩

/-- C17: for a 16-bit start address `s` and a quantity `1 ≤ q ≤ 2000`, the end
address computed modulo `2^16` is less than `s` if and only if `s + q - 1`
exceeds `0xFFFF`; when the test does not fire the computed end address is
`s + q - 1` exactly and is not below `s`.  In the handler, once the start
address is accepted, the test decides whether a second validity call is made,
and that call is made on the computed end address. -/
theorem coilEndAddress_overflow_exact (s q : Nat) (hs : s ≤ 0xFFFF) (hq1 : 1 ≤ q)
    (hq2 : q ≤ 2000) :
    (coilEndAddress s q < s ↔ 0xFFFF < s + q - 1) ∧
      (¬ coilEndAddress s q < s → coilEndAddress s q = s + q - 1 ∧ s ≤ coilEndAddress s q) ∧
      ∀ (α σ : Type) (f : Nat) (req : List Nat) (cap : Nat) (ctx : MBSLAVE_READCOILS_CTX α σ)
        (dev : σ),
        DecodesTo req s q → (startCheck ctx s dev).error = MB_ERROR_NONE →
        (startCheck ctx s dev).value = true →
        ∃ out, MBSlave_CmdLet_ReadCoils (requestCall f req cap ctx) dev = some out ∧
          (coilEndAddress s q < s → validateAddresses out.calls = [s]) ∧
          (¬ coilEndAddress s q < s →
            validateAddresses out.calls = [s, coilEndAddress s q]) := by
  have h1 : coilEndAddress s q < s ↔ 0xFFFF < s + q - 1 := by
    unfold coilEndAddress
    omega
  have h2 : ¬ coilEndAddress s q < s → coilEndAddress s q = s + q - 1 ∧ s ≤ coilEndAddress s q := by
    unfold coilEndAddress
    omega
  refine ⟨h1, h2, ?_⟩
  intro α σ f req cap ctx dev hdec he hv
  obtain ⟨hlen, hsd, hqd⟩ := requestField_of_decodes req s q hdec
  obtain ⟨out, hrun, hyes, hno⟩ :=
    serveRequest_validate_log f ctx s q cap dev (by omega) hq1 hq2
  refine ⟨out, ?_, fun hlt => ?_, fun hge => ?_⟩
  · rw [readCoils_eq_serveRequest f req cap ctx dev hlen, hsd, hqd, hrun]
  · have hov : 0xFFFF < s + q - 1 := h1.1 hlt
    rw [hno (fun h => by omega), hv, he]
    rfl
  · have hle : s + q - 1 ≤ 0xFFFF := by
      by_contra hc
      exact hge (h1.2 (by omega))
    rw [(h2 hge).1]
    exact (hyes ⟨he, hv, hle⟩).1

/-- C17, witness: start `0xFFFF` with quantity 2 wraps to end address 0, below
the start; start `0xFFFE` with quantity 2 ends at `0xFFFF` without wrapping. -/
theorem coilEndAddress_overflow_exact_witness :
    coilEndAddress 0xFFFF 2 = 0 ∧ coilEndAddress 0xFFFE 2 = 0xFFFF ∧
      ((coilEndAddress 0xFFFF 2 < 0xFFFF ↔ 0xFFFF < 0xFFFF + 2 - 1) ∧
        (¬ coilEndAddress 0xFFFF 2 < 0xFFFF →
          coilEndAddress 0xFFFF 2 = 0xFFFF + 2 - 1 ∧ 0xFFFF ≤ coilEndAddress 0xFFFF 2) ∧
        ∀ (α σ : Type) (f : Nat) (req : List Nat) (cap : Nat)
          (ctx : MBSLAVE_READCOILS_CTX α σ) (dev : σ),
          DecodesTo req 0xFFFF 2 → (startCheck ctx 0xFFFF dev).error = MB_ERROR_NONE →
          (startCheck ctx 0xFFFF dev).value = true →
          ∃ out, MBSlave_CmdLet_ReadCoils (requestCall f req cap ctx) dev = some out ∧
            (coilEndAddress 0xFFFF 2 < 0xFFFF → validateAddresses out.calls = [0xFFFF]) ∧
            (¬ coilEndAddress 0xFFFF 2 < 0xFFFF →
              validateAddresses out.calls = [0xFFFF, coilEndAddress 0xFFFF 2])) :=
  ⟨by decide, by decide, coilEndAddress_overflow_exact 0xFFFF 2 (by decide) (by decide) (by decide)⟩

/-! ## Fuel and termination of the loop -/

/-- More fuel never changes what the loop returns. -/
theorem whileCoilQuantity_fuel_succ {α σ : Type} (ctx : MBSLAVE_READCOILS_CTX α σ) :
    ∀ (fuel : Nat) (s : Frame σ) (r : Except (Outcome σ) (Frame σ)),
      s.coilQuantity < 65536 → whileCoilQuantity ctx fuel s = some r →
      whileCoilQuantity ctx (fuel + 1) s = some r := by
  intro fuel
  induction fuel with
  | zero =>
    intro s r _ h
    by_cases hq : s.coilQuantity = 0
    · rw [whileCoilQuantity_zero ctx 0 s hq] at h
      rw [whileCoilQuantity_zero ctx 1 s hq, ← Option.some.inj h]
    · unfold whileCoilQuantity at h
      simp [hq] at h
  | succ fuel ih =>
    intro s r hq16 h
    by_cases hq : s.coilQuantity = 0
    · rw [whileCoilQuantity_zero ctx _ s hq] at h
      rw [whileCoilQuantity_zero ctx _ s hq, ← Option.some.inj h]
    · rw [whileCoilQuantity_step ctx fuel s hq hq16] at h
      rw [whileCoilQuantity_step ctx (fuel + 1) s hq hq16]
      cases hu : duffUnits ctx (min 8 s.coilQuantity) { s with duffByte := 0, duffBitMask := 1 } with
      | error o1 =>
        rw [hu] at h
        exact h
      | ok s1 =>
        rw [hu] at h
        obtain ⟨hq1, _⟩ := duffUnits_ok ctx _ _ _ hu (by simp) (by simpa using hq16)
        simp only at hq1 h ⊢
        split
        · rename_i hw
          rw [if_pos hw] at h
          exact h
        · rename_i hw
          rw [if_neg hw] at h
          exact ih _ r (by simp only; omega) h

theorem whileCoilQuantity_fuel_le {α σ : Type} (ctx : MBSLAVE_READCOILS_CTX α σ)
    (s : Frame σ) (r : Except (Outcome σ) (Frame σ)) (hq16 : s.coilQuantity < 65536)
    (fuel fuel' : Nat) (hle : fuel ≤ fuel') (h : whileCoilQuantity ctx fuel s = some r) :
    whileCoilQuantity ctx fuel' s = some r := by
  induction fuel' with
  | zero =>
    have : fuel = 0 := by omega
    rw [← this]; exact h
  | succ n ih =>
    by_cases hn : fuel ≤ n
    · exact whileCoilQuantity_fuel_succ ctx n s r hq16 (ih hn)
    · have : fuel = n + 1 := by omega
      rw [← this]; exact h

/-- One unit of fuel per output byte is enough, whatever the callbacks do. -/
theorem whileCoilQuantity_total_ceil {α σ : Type} (ctx : MBSLAVE_READCOILS_CTX α σ) :
    ∀ (fuel : Nat) (s : Frame σ), (s.coilQuantity + 7) / 8 ≤ fuel → s.coilQuantity < 65536 →
      ∃ r, whileCoilQuantity ctx fuel s = some r := by
  intro fuel
  induction fuel with
  | zero =>
    intro s h0 _
    exact ⟨.ok s, whileCoilQuantity_zero ctx 0 s (by omega)⟩
  | succ fuel ih =>
    intro s hf hq16
    by_cases hq : s.coilQuantity = 0
    · exact ⟨.ok s, whileCoilQuantity_zero ctx _ s hq⟩
    · rw [whileCoilQuantity_step ctx fuel s hq hq16]
      cases hu : duffUnits ctx (min 8 s.coilQuantity) { s with duffByte := 0, duffBitMask := 1 } with
      | error o1 => exact ⟨_, rfl⟩
      | ok s1 =>
        obtain ⟨hq1, _⟩ := duffUnits_ok ctx _ _ _ hu (by simp) (by simpa using hq16)
        simp only at hq1 ⊢
        split
        · exact ⟨_, rfl⟩
        · exact ih _ (by simp only; omega) (by simp only; omega)

/-- When no read and no write fails, the loop needs one unit of fuel per output
byte: with less it does not reach its end. -/
theorem whileCoilQuantity_fuel_short {α σ : Type} (ctx : MBSLAVE_READCOILS_CTX α σ)
    (hread : ∀ a d, (ctx.cbReadCoil a ctx.cbArg d).error = MB_ERROR_NONE) :
    ∀ (fuel : Nat) (s : Frame σ), fuel < (s.coilQuantity + 7) / 8 → s.coilQuantity < 65536 →
      s.coilCurrentAddress < 65536 → s.coilCurrentAddress + s.coilQuantity ≤ 65536 →
      s.emitter.data.length + (s.coilQuantity + 7) / 8 ≤ s.emitter.capacity →
      whileCoilQuantity ctx fuel s = none := by
  intro fuel
  induction fuel with
  | zero =>
    intro s hf _ _ _ _
    have hq : s.coilQuantity ≠ 0 := by omega
    unfold whileCoilQuantity
    simp [hq]
  | succ fuel ih =>
    intro s hf hq16 hc hcq hcap
    have hq : s.coilQuantity ≠ 0 := by omega
    obtain ⟨s1, vs1, hrun, _, hq1, hc1, he1, _, _⟩ :=
      duffUnits_success ctx hread (min 8 s.coilQuantity)
        { s with duffByte := 0, duffBitMask := 1 } 0 [] rfl (by omega) rfl
        (by intro i; simp) (by simp) (by simpa using hq16) (by simpa using hc)
        (by simp only; omega)
    simp only at hq1 hc1 he1
    rw [whileCoilQuantity_step ctx fuel s hq hq16, hrun]
    simp only
    rcases writeUInt8_cases s1.emitter s1.duffByte with ⟨_, hw⟩ | ⟨hfull, _⟩
    · rw [hw]
      simp only [ne_eq, not_true_eq_false, if_false]
      exact ih _ (by simp only; omega) (by simp only; omega) (by simp only; omega)
        (by simp only; omega)
        (by simp only [List.length_append, List.length_singleton, he1]; omega)
    · exfalso
      rw [he1] at hfull
      omega

/-- C20: for a remaining quantity `1 ≤ q ≤ 2000` the packing loop terminates,
whatever the callbacks do: one unit of fuel per output byte is enough and more
fuel changes nothing.  Each pass through the switch lowers the remaining
quantity by exactly `min 8 q`, which is at least 1 and at most `q`, so the
16-bit counter never wraps.  When no read and no write fails the loop makes
exactly `⌈q/8⌉` iterations (less fuel does not reach the end), ends with
quantity 0, and the addresses passed to the read callback are
`cur, cur+1, ..., cur+q-1` as plain sums, none above `0xFFFF`. -/
theorem whileCoilQuantity_terminates {α σ : Type} (ctx : MBSLAVE_READCOILS_CTX α σ)
    (s : Frame σ) (hq1 : 1 ≤ s.coilQuantity) (hq2 : s.coilQuantity ≤ 2000) :
    (∀ fuel, (s.coilQuantity + 7) / 8 ≤ fuel →
        ∃ r, whileCoilQuantity ctx fuel s = some r ∧
          whileCoilQuantity ctx s.coilQuantity s = some r) ∧
      (∀ s1, duffSwitch ctx (if s.coilQuantity > 8 then 8 else s.coilQuantity % 256)
          { s with duffByte := 0x00, duffBitMask := 0x01 } = .ok s1 →
        s1.coilQuantity = s.coilQuantity - min 8 s.coilQuantity ∧
        1 ≤ min 8 s.coilQuantity ∧ min 8 s.coilQuantity ≤ s.coilQuantity ∧
        s1.coilQuantity < s.coilQuantity) ∧
      ((∀ a d, (ctx.cbReadCoil a ctx.cbArg d).error = MB_ERROR_NONE) →
        s.emitter.data.length + (s.coilQuantity + 7) / 8 ≤ s.emitter.capacity →
        s.coilCurrentAddress + s.coilQuantity - 1 ≤ 0xFFFF →
        (∀ fuel, fuel < (s.coilQuantity + 7) / 8 → whileCoilQuantity ctx fuel s = none) ∧
        ∃ s' vs, whileCoilQuantity ctx ((s.coilQuantity + 7) / 8) s = some (.ok s') ∧
          s'.coilQuantity = 0 ∧
          s'.emitter.data.length = s.emitter.data.length + (s.coilQuantity + 7) / 8 ∧
          vs.length = s.coilQuantity ∧
          s'.calls = s.calls ++ readCalls s.coilCurrentAddress vs ∧
          readAddresses (readCalls s.coilCurrentAddress vs) =
            List.range' s.coilCurrentAddress s.coilQuantity ∧
          ∀ a ∈ List.range' s.coilCurrentAddress s.coilQuantity, a ≤ 0xFFFF) := by
  have hq16 : s.coilQuantity < 65536 := by omega
  refine ⟨?_, ?_, ?_⟩
  · intro fuel hf
    obtain ⟨r, hr⟩ := whileCoilQuantity_total_ceil ctx _ s (le_refl _) hq16
    exact ⟨r, whileCoilQuantity_fuel_le ctx s r hq16 _ fuel hf hr,
      whileCoilQuantity_fuel_le ctx s r hq16 _ s.coilQuantity (by omega) hr⟩
  · intro s1 h
    have hn : (if s.coilQuantity > 8 then 8 else s.coilQuantity % 256) = min 8 s.coilQuantity := by
      split <;> omega
    rw [hn, duffSwitch_eq_duffUnits ctx _ (by omega)] at h
    obtain ⟨hq, _⟩ := duffUnits_ok ctx _ _ _ h (by simp) (by simpa using hq16)
    simp only at hq
    omega
  · intro hread hcap hcur
    refine ⟨fun fuel hf => whileCoilQuantity_fuel_short ctx hread fuel s hf hq16 (by omega)
      (by omega) hcap, ?_⟩
    obtain ⟨s', vs, bytes, hrun, hvl, hbl, hd, _, _, hcalls, _⟩ :=
      whileCoilQuantity_success ctx hread s.coilQuantity s (le_refl _) hq16 (by omega)
        (by omega) hcap
    obtain ⟨r, hr⟩ := whileCoilQuantity_total_ceil ctx _ s (le_refl _) hq16
    have hr2 := whileCoilQuantity_fuel_le ctx s r hq16 _ s.coilQuantity (by omega) hr
    rw [hrun] at hr2
    have hreq : r = .ok s' := (Option.some.inj hr2).symm
    obtain ⟨_, _, hok⟩ := whileCoilQuantity_total ctx s.coilQuantity s (le_refl _) hq16
    rename_i r0 _
    refine ⟨s', vs, by rw [hr, hreq], ?_, ?_, hvl, hcalls, ?_, ?_⟩
    · obtain ⟨r1, hr1, _, hok1⟩ := whileCoilQuantity_total ctx s.coilQuantity s (le_refl _) hq16
      rw [hrun] at hr1
      exact (hok1 s' (Option.some.inj hr1).symm).1
    · rw [hd, List.length_append, hbl]
    · rw [readAddresses_readCalls, hvl]
    · intro a ha
      rw [List.mem_range'_1] at ha
      omega


/-- C20, witness: 13 coils from address `0xFFF3`, the last at `0xFFFF`: one
unit of fuel is not enough, two are, the loop ends with quantity 0 and no
address has wrapped. -/
theorem whileCoilQuantity_terminates_witness :
    (whileCoilQuantity (alternatingDevice 0xFFF3) 1 wrapEdgeFrame).isNone = true ∧
      (whileCoilQuantity (alternatingDevice 0xFFF3) 2 wrapEdgeFrame).map
          (fun r => r.toOption.map fun s =>
            (s.coilQuantity, s.coilCurrentAddress, s.emitter.data, readAddresses s.calls)) =
        some (some (0, 0, [2, 0x55, 0x15],
          [0xFFF3, 0xFFF4, 0xFFF5, 0xFFF6, 0xFFF7, 0xFFF8, 0xFFF9, 0xFFFA, 0xFFFB, 0xFFFC,
            0xFFFD, 0xFFFE, 0xFFFF])) ∧
      ((∀ fuel, (wrapEdgeFrame.coilQuantity + 7) / 8 ≤ fuel →
        ∃ r, whileCoilQuantity (alternatingDevice 0xFFF3) fuel wrapEdgeFrame = some r ∧
          whileCoilQuantity (alternatingDevice 0xFFF3) wrapEdgeFrame.coilQuantity wrapEdgeFrame = some r) ∧
      (∀ s1, duffSwitch (alternatingDevice 0xFFF3) (if wrapEdgeFrame.coilQuantity > 8 then 8 else wrapEdgeFrame.coilQuantity % 256)
          { wrapEdgeFrame with duffByte := 0x00, duffBitMask := 0x01 } = .ok s1 →
        s1.coilQuantity = wrapEdgeFrame.coilQuantity - min 8 wrapEdgeFrame.coilQuantity ∧
        1 ≤ min 8 wrapEdgeFrame.coilQuantity ∧ min 8 wrapEdgeFrame.coilQuantity ≤ wrapEdgeFrame.coilQuantity ∧
        s1.coilQuantity < wrapEdgeFrame.coilQuantity) ∧
      ((∀ a d, ((alternatingDevice 0xFFF3).cbReadCoil a (alternatingDevice 0xFFF3).cbArg d).error = MB_ERROR_NONE) →
        wrapEdgeFrame.emitter.data.length + (wrapEdgeFrame.coilQuantity + 7) / 8 ≤ wrapEdgeFrame.emitter.capacity →
        wrapEdgeFrame.coilCurrentAddress + wrapEdgeFrame.coilQuantity - 1 ≤ 0xFFFF →
        (∀ fuel, fuel < (wrapEdgeFrame.coilQuantity + 7) / 8 → whileCoilQuantity (alternatingDevice 0xFFF3) fuel wrapEdgeFrame = none) ∧
        ∃ s' vs, whileCoilQuantity (alternatingDevice 0xFFF3) ((wrapEdgeFrame.coilQuantity + 7) / 8) wrapEdgeFrame = some (.ok s') ∧
          s'.coilQuantity = 0 ∧
          s'.emitter.data.length = wrapEdgeFrame.emitter.data.length + (wrapEdgeFrame.coilQuantity + 7) / 8 ∧
          vs.length = wrapEdgeFrame.coilQuantity ∧
          s'.calls = wrapEdgeFrame.calls ++ readCalls wrapEdgeFrame.coilCurrentAddress vs ∧
          readAddresses (readCalls wrapEdgeFrame.coilCurrentAddress vs) =
            List.range' wrapEdgeFrame.coilCurrentAddress wrapEdgeFrame.coilQuantity ∧
          ∀ a ∈ List.range' wrapEdgeFrame.coilCurrentAddress wrapEdgeFrame.coilQuantity, a ≤ 0xFFFF)) :=
  ⟨by decide!, by decide!,
    whileCoilQuantity_terminates (alternatingDevice 0xFFF3) wrapEdgeFrame (by decide)
      (by decide)⟩

/-! ## Two devices that answer alike -/

theorem Frame.visible_eq {σ₁ σ₂ : Type} (s₁ : Frame σ₁) (s₂ : Frame σ₂)
    (h : s₁.visible = s₂.visible) :
    s₁.coilQuantity = s₂.coilQuantity ∧ s₁.coilCurrentAddress = s₂.coilCurrentAddress ∧
      s₁.duffBitMask = s₂.duffBitMask ∧ s₁.duffByte = s₂.duffByte ∧
      s₁.emitter = s₂.emitter ∧ s₁.calls = s₂.calls := by
  simp only [Frame.visible, Frame.mk.injEq] at h
  exact ⟨h.1, h.2.1, h.2.2.1, h.2.2.2.1, h.2.2.2.2.1, h.2.2.2.2.2.2⟩

theorem duffUnit_sameAnswers {α₁ σ₁ α₂ σ₂ : Type} (ctx₁ : MBSLAVE_READCOILS_CTX α₁ σ₁)
    (ctx₂ : MBSLAVE_READCOILS_CTX α₂ σ₂) (hsame : SameAnswers ctx₁ ctx₂)
    (s₁ : Frame σ₁) (s₂ : Frame σ₂) (h : s₁.visible = s₂.visible) :
    visibleResult (MBSLAVE_RDCOILS_DUFFUNIT ctx₁ s₁) =
      visibleResult (MBSLAVE_RDCOILS_DUFFUNIT ctx₂ s₂) := by
  obtain ⟨hq, hc, hm, hb, he, hl⟩ := Frame.visible_eq s₁ s₂ h
  obtain ⟨_, _, hv, her⟩ := hsame s₁.coilCurrentAddress s₁.dev s₂.dev
  unfold MBSLAVE_RDCOILS_DUFFUNIT
  simp only [← hq, ← hc, ← hm, ← hb, ← he, ← hl, ← hv, ← her]
  by_cases hne : (ctx₁.cbReadCoil s₁.coilCurrentAddress ctx₁.cbArg s₁.dev).error = MB_ERROR_NONE
  · simp only [hne, ne_eq, not_true_eq_false, if_false, visibleResult, Frame.visible]
  · simp only [hne, ne_eq, not_false_eq_true, if_true, visibleResult, Outcome.visible,
      returnWith]

theorem duffUnits_sameAnswers {α₁ σ₁ α₂ σ₂ : Type} (ctx₁ : MBSLAVE_READCOILS_CTX α₁ σ₁)
    (ctx₂ : MBSLAVE_READCOILS_CTX α₂ σ₂) (hsame : SameAnswers ctx₁ ctx₂) :
    ∀ (n : Nat) (s₁ : Frame σ₁) (s₂ : Frame σ₂), s₁.visible = s₂.visible →
      visibleResult (duffUnits ctx₁ n s₁) = visibleResult (duffUnits ctx₂ n s₂) := by
  intro n
  induction n with
  | zero =>
    intro s₁ s₂ h
    simp only [duffUnits, visibleResult, h]
  | succ n ih =>
    intro s₁ s₂ h
    have hu := duffUnit_sameAnswers ctx₁ ctx₂ hsame s₁ s₂ h
    rw [duffUnits_succ, duffUnits_succ]
    cases h1 : MBSLAVE_RDCOILS_DUFFUNIT ctx₁ s₁ with
    | error o1 =>
      cases h2 : MBSLAVE_RDCOILS_DUFFUNIT ctx₂ s₂ with
      | error o2 =>
        rw [h1, h2] at hu
        simpa [bind, Except.bind] using hu
      | ok t2 =>
        rw [h1, h2] at hu
        simp [visibleResult] at hu
    | ok t1 =>
      cases h2 : MBSLAVE_RDCOILS_DUFFUNIT ctx₂ s₂ with
      | error o2 =>
        rw [h1, h2] at hu
        simp [visibleResult] at hu
      | ok t2 =>
        rw [h1, h2] at hu
        simp only [bind, Except.bind]
        apply ih
        simpa [visibleResult] using hu

/-- The loop on two devices that answer alike, started on frames that look
alike, ends alike. -/
theorem whileCoilQuantity_sameAnswers {α₁ σ₁ α₂ σ₂ : Type} (ctx₁ : MBSLAVE_READCOILS_CTX α₁ σ₁)
    (ctx₂ : MBSLAVE_READCOILS_CTX α₂ σ₂) (hsame : SameAnswers ctx₁ ctx₂) :
    ∀ (fuel : Nat) (s₁ : Frame σ₁) (s₂ : Frame σ₂), s₁.visible = s₂.visible →
      s₁.coilQuantity < 65536 →
      (whileCoilQuantity ctx₁ fuel s₁).map visibleResult =
        (whileCoilQuantity ctx₂ fuel s₂).map visibleResult := by
  intro fuel
  induction fuel with
  | zero =>
    intro s₁ s₂ h hq16
    obtain ⟨hq, _⟩ := Frame.visible_eq s₁ s₂ h
    by_cases hz : s₁.coilQuantity = 0
    · rw [whileCoilQuantity_zero ctx₁ 0 s₁ hz, whileCoilQuantity_zero ctx₂ 0 s₂ (hq ▸ hz)]
      simp only [Option.map_some', visibleResult, h]
    · have hz2 : s₂.coilQuantity ≠ 0 := hq ▸ hz
      unfold whileCoilQuantity
      simp [hz, hz2]
  | succ fuel ih =>
    intro s₁ s₂ h hq16
    obtain ⟨hq, hc, hm, hb, he, hl⟩ := Frame.visible_eq s₁ s₂ h
    by_cases hz : s₁.coilQuantity = 0
    · rw [whileCoilQuantity_zero ctx₁ _ s₁ hz, whileCoilQuantity_zero ctx₂ _ s₂ (hq ▸ hz)]
      simp only [Option.map_some', visibleResult, h]
    · have hz2 : s₂.coilQuantity ≠ 0 := hq ▸ hz
      rw [whileCoilQuantity_step ctx₁ fuel s₁ hz hq16,
        whileCoilQuantity_step ctx₂ fuel s₂ hz2 (hq ▸ hq16)]
      have hu := duffUnits_sameAnswers ctx₁ ctx₂ hsame (min 8 s₁.coilQuantity)
        { s₁ with duffByte := 0, duffBitMask := 1 } { s₂ with duffByte := 0, duffBitMask := 1 }
        (by simp only [Frame.visible, hq, hc, he, hl])
      have hn : min 8 s₂.coilQuantity = min 8 s₁.coilQuantity := by rw [hq]
      rw [hn]
      cases h1 : duffUnits ctx₁ (min 8 s₁.coilQuantity) { s₁ with duffByte := 0, duffBitMask := 1 } with
      | error o1 =>
        cases h2 : duffUnits ctx₂ (min 8 s₁.coilQuantity)
            { s₂ with duffByte := 0, duffBitMask := 1 } with
        | error o2 =>
          rw [h1, h2] at hu
          simpa using hu
        | ok t2 =>
          rw [h1, h2] at hu
          simp [visibleResult] at hu
      | ok t1 =>
        cases h2 : duffUnits ctx₂ (min 8 s₁.coilQuantity)
            { s₂ with duffByte := 0, duffBitMask := 1 } with
        | error o2 =>
          rw [h1, h2] at hu
          simp [visibleResult] at hu
        | ok t2 =>
          rw [h1, h2] at hu
          have ht : t1.visible = t2.visible := by simpa [visibleResult] using hu
          obtain ⟨tq, tc, tm, tb, te, tl⟩ := Frame.visible_eq t1 t2 ht
          obtain ⟨hq1, _⟩ := duffUnits_ok ctx₁ _ _ _ h1 (by simp) (by simpa using hq16)
          simp only at hq1 ⊢
          rw [← te, ← tb, ← tl]
          by_cases hw : (MBBufEmitter_WriteUInt8 t1.emitter t1.duffByte).2 = MB_ERROR_NONE
          · simp only [hw, ne_eq, not_true_eq_false, if_false]
            apply ih
            · simp only [Frame.visible, tq, tc, tm, tb, tl]
            · simp only; omega
          · simp only [hw, ne_eq, not_false_eq_true, if_true, Option.map_some', visibleResult,
              Outcome.visible, returnWith]

theorem catchFinally_visible {σ₁ σ₂ : Type} (f ec : Nat) (emitter : MB_BUFFEREMITTER)
    (d₁ : σ₁) (d₂ : σ₂) (calls : List CbCall) :
    (MBSLAVE_RDCOILS_CATCH_FINALLY f ec emitter d₁ calls).visible =
      (MBSLAVE_RDCOILS_CATCH_FINALLY f ec emitter d₂ calls).visible := by
  unfold MBSLAVE_RDCOILS_CATCH_FINALLY MBSLAVE_RDCOILS_FINALLY
  simp only []
  by_cases h1 : (MBBufEmitter_Reset emitter).2 = MB_ERROR_NONE
  · by_cases h2 : (MBBufEmitter_WriteUInt8 (MBBufEmitter_Reset emitter).1 ec).2 = MB_ERROR_NONE
    · simp only [h1, h2, ne_eq, not_true_eq_false, if_false, Outcome.visible]
    · simp only [h1, h2, ne_eq, not_true_eq_false, not_false_eq_true, if_false, if_true,
        Outcome.visible]
  · simp only [h1, ne_eq, not_false_eq_true, if_true, Outcome.visible]

theorem serveRequest_sameAnswers {α₁ σ₁ α₂ σ₂ : Type} (ctx₁ : MBSLAVE_READCOILS_CTX α₁ σ₁)
    (ctx₂ : MBSLAVE_READCOILS_CTX α₂ σ₂) (hsame : SameAnswers ctx₁ ctx₂) (f s q : Nat)
    (emitter : MB_BUFFEREMITTER) (dev₁ : σ₁) (dev₂ : σ₂) :
    (serveRequest f ctx₁ s q emitter dev₁).map Outcome.visible =
      (serveRequest f ctx₂ s q emitter dev₂).map Outcome.visible := by
  obtain ⟨a1v, a1e, _, _⟩ := hsame s dev₁ dev₂
  obtain ⟨a2v, a2e, _, _⟩ := hsame ((s + q + 65535) % 65536)
    (ctx₁.cbValidateCoil s ctx₁.cbArg dev₁).dev (ctx₂.cbValidateCoil s ctx₂.cbArg dev₂).dev
  unfold serveRequest
  simp only [← a1v, ← a1e, ← a2v, ← a2e]
  by_cases hq : q = 0 ∨ q > 2000
  · simp only [hq, if_true, Option.map_some', MBSLAVE_RDCOILS_CATCH_INVALIDVALUE]
    rw [catchFinally_visible f _ emitter dev₁ dev₂]
  simp only [hq, if_false]
  by_cases he1 : (ctx₁.cbValidateCoil s ctx₁.cbArg dev₁).error = MB_ERROR_NONE
  swap
  · simp only [he1, ne_eq, not_false_eq_true, if_true, Option.map_some', Outcome.visible,
      returnWith]
  simp only [he1, ne_eq, not_true_eq_false, if_false]
  by_cases hv1 : (ctx₁.cbValidateCoil s ctx₁.cbArg dev₁).value = true
  swap
  · simp only [hv1, Bool.false_eq_true, not_false_eq_true, if_true, Option.map_some',
      MBSLAVE_RDCOILS_CATCH_INVALIDADDR]
    rw [catchFinally_visible f _ emitter (ctx₁.cbValidateCoil s ctx₁.cbArg dev₁).dev
      (ctx₂.cbValidateCoil s ctx₂.cbArg dev₂).dev]
  simp only [hv1, not_true_eq_false, if_false]
  by_cases hov : (s + q + 65535) % 65536 < s
  · simp only [hov, if_true, Option.map_some', MBSLAVE_RDCOILS_CATCH_INVALIDADDR]
    rw [catchFinally_visible f _ emitter (ctx₁.cbValidateCoil s ctx₁.cbArg dev₁).dev
      (ctx₂.cbValidateCoil s ctx₂.cbArg dev₂).dev]
  simp only [hov, if_false]
  by_cases he2 : (ctx₁.cbValidateCoil ((s + q + 65535) % 65536) ctx₁.cbArg
      (ctx₁.cbValidateCoil s ctx₁.cbArg dev₁).dev).error = MB_ERROR_NONE
  swap
  · simp only [he2, not_false_eq_true, if_true, Option.map_some', Outcome.visible, returnWith]
  simp only [he2, not_true_eq_false, if_false]
  by_cases hv2 : (ctx₁.cbValidateCoil ((s + q + 65535) % 65536) ctx₁.cbArg
      (ctx₁.cbValidateCoil s ctx₁.cbArg dev₁).dev).value = true
  swap
  · simp only [hv2, Bool.false_eq_true, not_false_eq_true, if_true, Option.map_some',
      MBSLAVE_RDCOILS_CATCH_INVALIDADDR]
    rw [catchFinally_visible f _ emitter
      (ctx₁.cbValidateCoil ((s + q + 65535) % 65536) ctx₁.cbArg
        (ctx₁.cbValidateCoil s ctx₁.cbArg dev₁).dev).dev
      (ctx₂.cbValidateCoil ((s + q + 65535) % 65536) ctx₂.cbArg
        (ctx₂.cbValidateCoil s ctx₂.cbArg dev₂).dev).dev]
  simp only [hv2, not_true_eq_false, if_false]
  by_cases hw : (MBBufEmitter_WriteUInt8 emitter (outByteCount q % 256)).2 = MB_ERROR_NONE
  swap
  · simp only [hw, not_false_eq_true, if_true, Option.map_some', Outcome.visible, returnWith]
  simp only [hw, not_true_eq_false, if_false]
  have hq16 : q < 65536 := by omega
  have hl := whileCoilQuantity_sameAnswers ctx₁ ctx₂ hsame q
    { coilQuantity := q, coilCurrentAddress := s, duffBitMask := 0, duffByte := 0,
      emitter := (MBBufEmitter_WriteUInt8 emitter (outByteCount q % 256)).1,
      dev := (ctx₁.cbValidateCoil ((s + q + 65535) % 65536) ctx₁.cbArg
        (ctx₁.cbValidateCoil s ctx₁.cbArg dev₁).dev).dev,
      calls := [CbCall.validate s true MB_ERROR_NONE] ++
        [CbCall.validate ((s + q + 65535) % 65536) true MB_ERROR_NONE] }
    { coilQuantity := q, coilCurrentAddress := s, duffBitMask := 0, duffByte := 0,
      emitter := (MBBufEmitter_WriteUInt8 emitter (outByteCount q % 256)).1,
      dev := (ctx₂.cbValidateCoil ((s + q + 65535) % 65536) ctx₂.cbArg
        (ctx₂.cbValidateCoil s ctx₂.cbArg dev₂).dev).dev,
      calls := [CbCall.validate s true MB_ERROR_NONE] ++
        [CbCall.validate ((s + q + 65535) % 65536) true MB_ERROR_NONE] }
    rfl hq16
  revert hl
  generalize whileCoilQuantity ctx₁ q _ = x
  generalize whileCoilQuantity ctx₂ q _ = y
  intro hl
  rcases x with _ | (o1 | t1) <;> rcases y with _ | (o2 | t2) <;>
    simp only [Option.map_none', Option.map_some', visibleResult, reduceCtorEq,
      Option.some.injEq, Except.error.injEq, Except.ok.injEq] at hl
  · rfl
  · simp only [Option.map_some', hl]
  · obtain ⟨_, _, _, _, te, tl⟩ := Frame.visible_eq t1 t2 hl
    simp only [Option.map_some', MBSLAVE_RDCOILS_FINALLY, Outcome.visible, te, tl]

/-- C16: two invocations with the same function code, request bytes and
response capacity, on devices whose callbacks return identical values for
identical addresses (whatever the devices' types and states), both return and
end with the same error code, response function code, reported length,
response payload and callback log.  In particular a second invocation on the
device as the first one left it gives the same result again: the handler keeps
nothing from one invocation to the next. -/
theorem readCoils_deterministic {α₁ σ₁ α₂ σ₂ : Type} (ctx₁ : MBSLAVE_READCOILS_CTX α₁ σ₁)
    (ctx₂ : MBSLAVE_READCOILS_CTX α₂ σ₂) (hsame : SameAnswers ctx₁ ctx₂) (f : Nat)
    (req : List Nat) (cap : Nat) (dev₁ : σ₁) (dev₂ : σ₂) :
    ∃ out₁ out₂ out₃,
      MBSlave_CmdLet_ReadCoils (requestCall f req cap ctx₁) dev₁ = some out₁ ∧
      MBSlave_CmdLet_ReadCoils (requestCall f req cap ctx₂) dev₂ = some out₂ ∧
      MBSlave_CmdLet_ReadCoils (requestCall f req cap ctx₁) out₁.dev = some out₃ ∧
      out₁.visible = out₂.visible ∧ out₁.visible = out₃.visible ∧
      out₁.p_error = out₂.p_error ∧ out₁.p_response_fncode = out₂.p_response_fncode ∧
      out₁.p_response_data_size = out₂.p_response_data_size ∧ out₁.payload = out₂.payload ∧
      out₁.calls = out₂.calls := by
  have key : ∀ {α σ β τ : Type} (c₁ : MBSLAVE_READCOILS_CTX α σ) (c₂ : MBSLAVE_READCOILS_CTX β τ),
      SameAnswers c₁ c₂ → ∀ (d₁ : σ) (d₂ : τ),
      (MBSlave_CmdLet_ReadCoils (requestCall f req cap c₁) d₁).map Outcome.visible =
        (MBSlave_CmdLet_ReadCoils (requestCall f req cap c₂) d₂).map Outcome.visible := by
    intro α σ β τ c₁ c₂ hs d₁ d₂
    by_cases hlen : req.length < 4
    · rw [readCoils_truncated f req cap c₁ d₁ hlen, readCoils_truncated f req cap c₂ d₂ hlen]
      rfl
    · rw [readCoils_eq_serveRequest f req cap c₁ d₁ (by omega),
        readCoils_eq_serveRequest f req cap c₂ d₂ (by omega)]
      exact serveRequest_sameAnswers c₁ c₂ hs f _ _ _ d₁ d₂
  have self : SameAnswers ctx₁ ctx₁ := by
    intro a d d'
    obtain ⟨h1, h2, h3, h4⟩ := hsame a d dev₂
    obtain ⟨k1, k2, k3, k4⟩ := hsame a d' dev₂
    exact ⟨h1.trans k1.symm, h2.trans k2.symm, h3.trans k3.symm, h4.trans k4.symm⟩
  obtain ⟨out₁, h1, _⟩ := readCoils_classify (requestCall f req cap ctx₁) dev₁
  obtain ⟨out₂, h2, _⟩ := readCoils_classify (requestCall f req cap ctx₂) dev₂
  obtain ⟨out₃, h3, _⟩ := readCoils_classify (requestCall f req cap ctx₁) out₁.dev
  have e12 : out₁.visible = out₂.visible := by
    have := key ctx₁ ctx₂ hsame dev₁ dev₂
    rw [h1, h2] at this
    exact Option.some.inj this
  have e13 : out₁.visible = out₃.visible := by
    have := key ctx₁ ctx₁ self dev₁ out₁.dev
    rw [h1, h3] at this
    exact Option.some.inj this
  refine ⟨out₁, out₂, out₃, h1, h2, h3, e12, e13, ?_, ?_, ?_, ?_, ?_⟩
  · exact congrArg Outcome.p_error e12
  · exact congrArg Outcome.p_response_fncode e12
  · exact congrArg Outcome.p_response_data_size e12
  · exact congrArg (fun o => o.emitter.data) e12
  · exact congrArg Outcome.calls e12

/-- C16, witness: the same request on two devices of different types that
answer alike (one counting its invocations, one recording the addresses
asked), each left in a different state. -/
theorem readCoils_deterministic_witness :
    SameAnswers (rangeDevice 0 15) (recordingRangeDevice 0 15) ∧
      (MBSlave_CmdLet_ReadCoils (requestCall 1 [0x00, 0x00, 0x00, 0x0A] 8 (rangeDevice 0 15))
          5).map (fun o => (o.p_error, o.p_response_fncode, o.p_response_data_size, o.payload,
            o.dev)) =
        some (MB_ERROR_NONE, some 1, some 3, [2, 0x55, 0x01], 17) ∧
      (MBSlave_CmdLet_ReadCoils (requestCall 1 [0x00, 0x00, 0x00, 0x0A] 8
          (recordingRangeDevice 0 15)) [77]).map
          (fun o => (o.p_error, o.p_response_fncode, o.p_response_data_size, o.payload,
            o.dev.length)) =
        some (MB_ERROR_NONE, some 1, some 3, [2, 0x55, 0x01], 13) ∧
      ∃ out₁ out₂ out₃,
        MBSlave_CmdLet_ReadCoils (requestCall 1 [0x00, 0x00, 0x00, 0x0A] 8 (rangeDevice 0 15))
          5 = some out₁ ∧
        MBSlave_CmdLet_ReadCoils (requestCall 1 [0x00, 0x00, 0x00, 0x0A] 8
          (recordingRangeDevice 0 15)) [77] = some out₂ ∧
        MBSlave_CmdLet_ReadCoils (requestCall 1 [0x00, 0x00, 0x00, 0x0A] 8 (rangeDevice 0 15))
          out₁.dev = some out₃ ∧
        out₁.visible = out₂.visible ∧ out₁.visible = out₃.visible ∧
        out₁.p_error = out₂.p_error ∧ out₁.p_response_fncode = out₂.p_response_fncode ∧
        out₁.p_response_data_size = out₂.p_response_data_size ∧ out₁.payload = out₂.payload ∧
        out₁.calls = out₂.calls :=
  ⟨fun _ _ _ => ⟨rfl, rfl, rfl, rfl⟩, by decide!, by decide!,
    readCoils_deterministic (rangeDevice 0 15) (recordingRangeDevice 0 15)
      (fun _ _ _ => ⟨rfl, rfl, rfl, rfl⟩) 1 [0x00, 0x00, 0x00, 0x0A] 8 5 [77]⟩

/-! ## The unrolled loop and the plain nested loop -/

/-- From bit position `k` on, the units of the switch do what the inner loop of
the plain nested loop does. -/
theorem plainBitLoop_eq_duffUnits {α σ : Type} (ctx : MBSLAVE_READCOILS_CTX α σ) :
    ∀ (n k : Nat) (s : Frame σ), k + n ≤ 8 → s.duffBitMask = (1 <<< k) % 256 →
      s.coilQuantity < 65536 →
      plainBitLoop ctx n k s.duffByte s.plain =
        (duffUnits ctx (min n s.coilQuantity) s).map (fun s' => (s'.duffByte, s'.plain)) := by
  intro n
  induction n with
  | zero =>
    intro k s _ _ _
    simp [plainBitLoop, duffUnits, Except.map]
  | succ n ih =>
    intro k s hk hm hq
    by_cases hz : s.coilQuantity = 0
    · have hp : s.plain.remaining = 0 := hz
      rw [hz]
      simp [plainBitLoop, duffUnits, Except.map, hp]
    · have hp : s.plain.remaining ≠ 0 := hz
      have hmin : min (n + 1) s.coilQuantity = min n (s.coilQuantity - 1) + 1 := by omega
      have hmask : (1 <<< k) % 256 = 1 <<< k := by
        have hk8 : k < 8 := by omega
        interval_cases k <;> rfl
      rw [hmin, duffUnits_succ]
      unfold plainBitLoop
      simp only [hp, if_false]
      by_cases he : (ctx.cbReadCoil s.coilCurrentAddress ctx.cbArg s.dev).error = MB_ERROR_NONE
      · have hq1 : (s.coilQuantity + 65535) % 65536 = s.coilQuantity - 1 := by omega
        obtain ⟨s1, hs1⟩ : ∃ s1 : Frame σ, s1 =
            { coilQuantity := s.coilQuantity - 1,
              coilCurrentAddress := (s.coilCurrentAddress + 1) % 65536,
              duffBitMask := (s.duffBitMask <<< 1) % 256,
              duffByte :=
                if (ctx.cbReadCoil s.coilCurrentAddress ctx.cbArg s.dev).value = true then
                  s.duffByte ||| (1 <<< k)
                else s.duffByte,
              emitter := s.emitter,
              dev := (ctx.cbReadCoil s.coilCurrentAddress ctx.cbArg s.dev).dev,
              calls := s.calls ++ [CbCall.read s.coilCurrentAddress
                (ctx.cbReadCoil s.coilCurrentAddress ctx.cbArg s.dev).value
                (ctx.cbReadCoil s.coilCurrentAddress ctx.cbArg s.dev).error] } := ⟨_, rfl⟩
        have hu : MBSLAVE_RDCOILS_DUFFUNIT ctx s = .ok s1 := by
          rw [hs1]
          unfold MBSLAVE_RDCOILS_DUFFUNIT
          simp only [he, ne_eq, not_true_eq_false, if_false, hq1, hm, hmask]
        have key := ih (k + 1) s1 (by omega)
          (by
            rw [hs1]
            show ((s.duffBitMask <<< 1) % 256) = (1 <<< (k + 1)) % 256
            rw [hm, Nat.shiftLeft_eq, Nat.shiftLeft_eq, Nat.shiftLeft_eq, pow_succ]
            omega)
          (by rw [hs1]; show s.coilQuantity - 1 < 65536; omega)
        have hq' : s1.coilQuantity = s.coilQuantity - 1 := by rw [hs1]
        rw [hu]
        rw [hq'] at key
        simp only [bind, Except.bind]
        rw [← key, hs1]
        simp only [he, ne_eq, not_true_eq_false, if_false, Frame.plain]
      · simp only [MBSLAVE_RDCOILS_DUFFUNIT, he, ne_eq, not_false_eq_true, if_true, bind,
          Except.bind, Except.map, Frame.plain]

/-- The loop of the handler and the plain nested loop, run with the same fuel
from the same state, stop in the same way: with the same early return, or with
the same writer, device and log, or both out of fuel. -/
theorem plainNestedLoop_eq_whileCoilQuantity {α σ : Type} (ctx : MBSLAVE_READCOILS_CTX α σ) :
    ∀ (fuel : Nat) (s : Frame σ), s.coilQuantity < 65536 →
      plainNestedLoop ctx fuel s.plain =
        (whileCoilQuantity ctx fuel s).map (Except.map Frame.plain) := by
  intro fuel
  induction fuel with
  | zero =>
    intro s _
    by_cases hz : s.coilQuantity = 0
    · have hp : s.plain.remaining = 0 := hz
      rw [whileCoilQuantity_zero ctx _ s hz]
      unfold plainNestedLoop
      simp [hp, Except.map]
    · have hp : s.plain.remaining ≠ 0 := hz
      unfold plainNestedLoop whileCoilQuantity
      simp [hp, hz]
  | succ fuel ih =>
    intro s hq
    by_cases hz : s.coilQuantity = 0
    · have hp : s.plain.remaining = 0 := hz
      rw [whileCoilQuantity_zero ctx _ s hz]
      unfold plainNestedLoop
      simp [hp, Except.map]
    · have hp : s.plain.remaining ≠ 0 := hz
      have hA : plainBitLoop ctx 8 0 0 s.plain =
          (duffUnits ctx (min 8 s.coilQuantity) { s with duffByte := 0, duffBitMask := 1 }).map
            (fun s' => (s'.duffByte, s'.plain)) :=
        plainBitLoop_eq_duffUnits ctx 8 0 { s with duffByte := 0, duffBitMask := 1 }
          (by omega) rfl hq
      rw [whileCoilQuantity_step ctx fuel s hz hq]
      conv_lhs => unfold plainNestedLoop
      simp only [hp, if_false]
      rw [hA]
      cases hu : duffUnits ctx (min 8 s.coilQuantity) { s with duffByte := 0, duffBitMask := 1 } with
      | error o => rfl
      | ok s1 =>
        obtain ⟨hq1, _⟩ := duffUnits_ok ctx _ _ _ hu (by simp) (by simpa using hq)
        simp only at hq1
        simp only [Except.map]
        split
        · rename_i hw
          have hw' : (MBBufEmitter_WriteUInt8 s1.emitter s1.duffByte).2 ≠ MB_ERROR_NONE := hw
          rw [if_pos hw']
          rfl
        · rename_i hw
          have hw' : ¬ (MBBufEmitter_WriteUInt8 s1.emitter s1.duffByte).2 ≠ MB_ERROR_NONE := hw
          rw [if_neg hw']
          exact ih { s1 with emitter := (MBBufEmitter_WriteUInt8 s1.emitter s1.duffByte).1 }
            (by simp only; omega)

/-- After either loop the handler ends in the same way. -/
theorem plainExit_plain {σ : Type} (f : Nat) (r : Except (Outcome σ) (Frame σ)) :
    plainExit f (Except.map Frame.plain r) = loopExit f r := by
  cases r <;> rfl

/-- C18: the unrolled packing loop of the handler (entered at
`min 8 remaining` of an eight-way fall-through switch for each output byte) and
the plain nested loop (bit positions `0 .. 7` per output byte while coils
remain) are observationally equal.  Started from the same state with a
remaining quantity in `1 .. 2000`, for any start address, any callbacks (a read
may fail at any coil) and any writer (any capacity), both end, and the command
ends with the same outcome: the same error code, the same response bytes, the
same log of read-coil invocations, the same device state and the same output
variables.  They also agree for every amount of fuel, and an invocation of the
handler that reaches its loop returns what the plain nested loop gives. -/
theorem whileCoilQuantity_refines_plainNestedLoop {α σ : Type}
    (ctx : MBSLAVE_READCOILS_CTX α σ) (f : Nat) (s : Frame σ) (hq1 : 1 ≤ s.coilQuantity)
    (hq2 : s.coilQuantity ≤ 2000) :
    (∃ out, (whileCoilQuantity ctx s.coilQuantity s).map (loopExit f) = some out ∧
        (plainNestedLoop ctx s.coilQuantity s.plain).map (plainExit f) = some out) ∧
      (∀ fuel, (plainNestedLoop ctx fuel s.plain).map (plainExit f) =
        (whileCoilQuantity ctx fuel s).map (loopExit f)) ∧
      (∀ (req : List Nat) (cap : Nat) (dev : σ),
        DecodesTo req s.coilCurrentAddress s.coilQuantity →
        (startCheck ctx s.coilCurrentAddress dev).error = MB_ERROR_NONE →
        (startCheck ctx s.coilCurrentAddress dev).value = true →
        s.coilCurrentAddress + s.coilQuantity - 1 ≤ 0xFFFF →
        (endCheck ctx s.coilCurrentAddress s.coilQuantity dev).error = MB_ERROR_NONE →
        (endCheck ctx s.coilCurrentAddress s.coilQuantity dev).value = true →
        1 ≤ cap →
        MBSlave_CmdLet_ReadCoils (requestCall f req cap ctx) dev =
          (plainNestedLoop ctx s.coilQuantity
            (loopEntry s.coilCurrentAddress s.coilQuantity cap ((s.coilQuantity + 7) / 8)
              (endCheck ctx s.coilCurrentAddress s.coilQuantity dev).dev
              [CbCall.validate s.coilCurrentAddress true MB_ERROR_NONE,
                CbCall.validate (s.coilCurrentAddress + s.coilQuantity - 1) true
                  MB_ERROR_NONE]).plain).map (plainExit f)) := by
  have hq16 : s.coilQuantity < 65536 := by omega
  have key : ∀ (fuel : Nat) (t : Frame σ), t.coilQuantity < 65536 →
      (plainNestedLoop ctx fuel t.plain).map (plainExit f) =
        (whileCoilQuantity ctx fuel t).map (loopExit f) := by
    intro fuel t ht
    rw [plainNestedLoop_eq_whileCoilQuantity ctx fuel t ht, Option.map_map]
    congr 1
    funext r
    exact plainExit_plain f r
  refine ⟨?_, fun fuel => key fuel s hq16, ?_⟩
  · obtain ⟨r, hr, _⟩ := whileCoilQuantity_total ctx s.coilQuantity s (le_refl _) hq16
    exact ⟨loopExit f r, by rw [hr]; rfl, by rw [key _ s hq16, hr]; rfl⟩
  · intro req cap dev hdec he1 hv1 hov he2 hv2 hcap
    obtain ⟨hlen, hs, hq⟩ := requestField_of_decodes req _ _ hdec
    have hs16 : s.coilCurrentAddress < 65536 := by rw [← hs]; exact requestField_lt req 0
    rw [readCoils_eq_serveRequest f req cap ctx dev hlen, hs, hq]
    obtain ⟨out, hrun, hp⟩ :=
      serveRequest_paths f ctx s.coilCurrentAddress s.coilQuantity cap dev hs16
    rw [hrun, key _ _ (by simp only [loopEntry]; omega)]
    rcases hp with ⟨h, _⟩ | ⟨_, _, he, _⟩ | ⟨_, _, _, hv, _⟩ | ⟨_, _, _, _, ho, _⟩ |
      ⟨_, _, _, _, _, he, _⟩ | ⟨_, _, _, _, _, _, hv, _⟩ | ⟨_, _, _, _, _, _, _, hc0, _⟩ |
      ⟨_, _, _, _, _, _, _, _, r, hr, hcase⟩
    · omega
    · exact absurd he1 he
    · rw [hv1] at hv; cases hv
    · omega
    · exact absurd he2 he
    · rw [hv2] at hv; cases hv
    · omega
    · rw [hr]
      rcases hcase with ⟨o, rfl, rfl⟩ | ⟨s', rfl, rfl⟩ <;> rfl

/-- C18, witness: 13 coils from address 10 on a device whose read callback
fails at address 15: both loops stop at the sixth read with the callback error
and only the count byte in the buffer; on a device that never fails both give
the bytes `0x55, 0x15`. -/
theorem whileCoilQuantity_refines_plainNestedLoop_witness :
    (whileCoilQuantity (faultyDevice 15) 13 thirteenCoilsFrame).map
        (fun r => ((loopExit 1 r).p_error, (loopExit 1 r).emitter.data,
          readAddresses (loopExit 1 r).calls)) =
      some (MB_ERROR_SLAVE_CALLBACKFAILED, [2], [10, 11, 12, 13, 14, 15]) ∧
      (plainNestedLoop (faultyDevice 15) 13 thirteenCoilsFrame.plain).map
          (fun r => ((plainExit 1 r).p_error, (plainExit 1 r).emitter.data,
            readAddresses (plainExit 1 r).calls)) =
        some (MB_ERROR_SLAVE_CALLBACKFAILED, [2], [10, 11, 12, 13, 14, 15]) ∧
      (plainNestedLoop (alternatingDevice 10) 13 thirteenCoilsFrame.plain).map
          (fun r => ((plainExit 1 r).p_error, (plainExit 1 r).emitter.data,
            readAddresses (plainExit 1 r).calls)) =
        some (MB_ERROR_NONE, [2, 0x55, 0x15],
          [10, 11, 12, 13, 14, 15, 16, 17, 18, 19, 20, 21, 22]) ∧
      1 ≤ thirteenCoilsFrame.coilQuantity ∧ thirteenCoilsFrame.coilQuantity ≤ 2000 ∧
      (∃ out, (whileCoilQuantity (faultyDevice 15) thirteenCoilsFrame.coilQuantity
            thirteenCoilsFrame).map (loopExit 1) = some out ∧
          (plainNestedLoop (faultyDevice 15) thirteenCoilsFrame.coilQuantity
            thirteenCoilsFrame.plain).map (plainExit 1) = some out) ∧
      (∀ fuel, (plainNestedLoop (faultyDevice 15) fuel thirteenCoilsFrame.plain).map
          (plainExit 1) =
        (whileCoilQuantity (faultyDevice 15) fuel thirteenCoilsFrame).map (loopExit 1)) ∧
      MBSlave_CmdLet_ReadCoils (requestCall 1 [0x00, 0x0A, 0x00, 0x0D] 3 (faultyDevice 15)) 0 =
        (plainNestedLoop (faultyDevice 15) thirteenCoilsFrame.coilQuantity
          (loopEntry thirteenCoilsFrame.coilCurrentAddress thirteenCoilsFrame.coilQuantity 3
            ((thirteenCoilsFrame.coilQuantity + 7) / 8)
            (endCheck (faultyDevice 15) thirteenCoilsFrame.coilCurrentAddress
              thirteenCoilsFrame.coilQuantity 0).dev
            [CbCall.validate thirteenCoilsFrame.coilCurrentAddress true MB_ERROR_NONE,
              CbCall.validate
                (thirteenCoilsFrame.coilCurrentAddress + thirteenCoilsFrame.coilQuantity - 1)
                true MB_ERROR_NONE]).plain).map (plainExit 1) :=
  ⟨by decide!, by decide!, by decide!, by decide, by decide,
    (whileCoilQuantity_refines_plainNestedLoop (faultyDevice 15) 1 thirteenCoilsFrame
      (by decide) (by decide)).1,
    (whileCoilQuantity_refines_plainNestedLoop (faultyDevice 15) 1 thirteenCoilsFrame
      (by decide) (by decide)).2.1,
    (whileCoilQuantity_refines_plainNestedLoop (faultyDevice 15) 1 thirteenCoilsFrame
      (by decide) (by decide)).2.2 [0x00, 0x0A, 0x00, 0x0D] 3 0 (by decide) rfl rfl (by decide)
      rfl rfl (by decide)⟩
